import Mathlib

/-!
Verification of the MITScript front-end and reference interpreter.

This file gives a shallow embedding, in Lean 4, of the MITScript
tree-walking interpreter (`interp.hpp`), the source lexer
(`src/lexer.cpp`), the source recursive-descent parser (`parser.cpp`),
the driver (`main.cpp`), and the bytecode text-format front end
(bytecode lexer, parser and pretty-printer), together with theorems
settling the frozen claims about the repository.

Modelling conventions:
* C++ `int` (32-bit) is modelled as `Int`; the programs evaluated by key
  theorems stay far inside the 32-bit range, so no wrapping is applied
  (signed overflow is undefined behaviour in the source anyway).
* Heap pointers (`Frame*`, `Record*`, `Function*`) become `Nat` indices
  into per-kind allocation lists held in the interpreter state; pointer
  equality becomes index equality.
* `std::unordered_map` variable maps become association lists with
  update-in-place semantics; `std::unordered_set` results of
  `extractAssigns`/`extractGlobals` become `List String` used only
  through membership, so iteration order is irrelevant.
* Unbounded recursion (function calls, `while`, recursive
  `valueToString`) is made total with an explicit fuel parameter;
  running out of fuel is a distinguished outcome, never identified with
  any program behaviour.
-/

namespace MITScript

/-- The four runtime fault kinds of `interp.hpp` (the exception classes
`UninitializedVariableException`, `IllegalCastException`,
`IllegalArithmeticException`, `RuntimeException`). -/
inductive Fault where
  | uninitializedVariable
  | illegalCast
  | illegalArithmetic
  | runtimeErr
deriving DecidableEq, Repr

/-- `what()` of each exception class: the string printed to stderr by
`main.cpp` when the fault escapes `interpret`. -/
def Fault.what : Fault → String
  | .uninitializedVariable => "UninitializedVariableException"
  | .illegalCast => "IllegalCastException"
  | .illegalArithmetic => "IllegalArithmeticException"
  | .runtimeErr => "RuntimeException"

/-- The binary operators of `ast::BinaryExpression::BinaryOp`. -/
inductive BinOp where
  | add | sub | mul | div | eq | lt | gt | leq | geq | and | or
deriving DecidableEq, Repr

/-- The unary operators of `ast::UnaryExpression::UnaryOp`. -/
inductive UnOp where
  | neg | not
deriving DecidableEq, Repr

/-- The AST of `ast.hpp`.  The C++ code has a single base class
`ast::ASTNode` for statements and expressions, so we use a single
inductive.  `funDecl` carries a `Nat` identifier modelling the identity
(address) of the `ast::FunctionDeclaration` node: the parser allocates a
fresh node for each occurrence, and `Function::body` pointer equality is
identifier equality (the embedded parser below assigns distinct
identifiers). -/
inductive Node where
  | intConst (n : Int)
  | strConst (s : String)
  | boolConst (b : Bool)
  | noneConst
  | ident (name : String)
  | binary (l : Node) (op : BinOp) (r : Node)
  | unary (op : UnOp) (e : Node)
  | fieldDeref (base : Node) (field : String)
  | indexExpr (base : Node) (index : Node)
  | call (target : Node) (args : List Node)
  | recordNode (fields : List (String × Node))
  | funDecl (declId : Nat) (params : List String) (body : Node)
  | block (stmts : List Node)
  | assign (lhs : Node) (expr : Node)
  | globalStmt (name : String)
  | ifStmt (cond : Node) (thenPart : Node) (elsePart : Option Node)
  | whileLoop (cond : Node) (body : Node)
  | ret (e : Node)

/-- Runtime values (`class Value`, a `std::variant` over six
alternatives).  `Record*` and `Function*` become heap indices. -/
inductive Value where
  | none
  | bool (b : Bool)
  | int (n : Int)
  | str (s : String)
  | record (addr : Nat)
  | fn (addr : Nat)
deriving DecidableEq, Repr

/-- `struct Function`: captured frame, parameter names, body.
`bodyId` models the `ast::Block*` pointer (compared with `==` in the
interpreter's function-equality case); `body` is the pointed-to block,
carried so the interpreter can execute it.  Native functions have
`bodyId = none` and `body = none` (a null body pointer). -/
structure FunctionV where
  context : Nat
  args : List String
  bodyId : Option Nat
  body : Option Node

/-- A `Frame`: variable map, parent pointer, and the `GlobalInfo`
(globals set + global-frame pointer). -/
structure FrameV where
  vars : List (String × Value)
  parent : Option Nat
  globals : List String
  globalFrame : Nat
deriving Inhabited

/-- The whole interpreter heap and I/O state.  `output` collects the
lines printed by the native `print`; `input` is the stdin line queue for
the native `input`. -/
structure InterpState where
  frames : List FrameV
  funs : List FunctionV
  recs : List (List (String × Value))
  frameStack : List Nat
  hasReturned : Bool
  output : List String
  input : List String

/-- Errors of the embedded evaluator: a runtime fault (carrying the
state at the throw site, so the driver model can report output printed
before the fault), or fuel exhaustion (an artefact of the embedding,
distinct from every program behaviour). -/
inductive IErr where
  | fault (f : Fault) (st : InterpState)
  | fuelOut

/-- Result monad of the evaluator. -/
abbrev Res (α : Type) : Type := Except IErr α

/-- Throw a runtime fault. -/
def faultR {α : Type} (f : Fault) (st : InterpState) : Res α :=
  .error (.fault f st)

/-- Association-list lookup (models `unordered_map::find` /
the record-field scans that search a `std::vector` front to back). -/
def lookupAssoc {α : Type} : List (String × α) → String → Option α
  | [], _ => Option.none
  | (k, v) :: rest, n => if k = n then some v else lookupAssoc rest n

/-- `variables[name] = addr` on an association list: update the existing
binding in place, else append. -/
def updateVar {α : Type} : List (String × α) → String → α → List (String × α)
  | [], n, v => [(n, v)]
  | (k, w) :: rest, n, v =>
      if k = n then (k, v) :: rest else (k, w) :: updateVar rest n v

/-- Fetch a frame by address (out-of-range never occurs in executions
started by `interpret`). -/
def InterpState.getFrame (s : InterpState) (i : Nat) : FrameV :=
  s.frames.getD i default

/-- Fetch a function object by address. -/
def InterpState.getFun (s : InterpState) (i : Nat) : FunctionV :=
  s.funs.getD i ⟨0, [], Option.none, Option.none⟩

/-- Fetch a record (its field list) by address. -/
def InterpState.getRec (s : InterpState) (i : Nat) : List (String × Value) :=
  s.recs.getD i []

/-- Replace the frame at address `i`. -/
def InterpState.setFrame (s : InterpState) (i : Nat) (f : FrameV) : InterpState :=
  { s with frames := s.frames.set i f }

/-- Replace the record at address `i`. -/
def InterpState.setRec (s : InterpState) (i : Nat) (r : List (String × Value)) : InterpState :=
  { s with recs := s.recs.set i r }

/-- The current frame (`stack_.top()`). -/
def InterpState.curFrame (s : InterpState) : Nat :=
  s.frameStack.headD 0

/-- `Frame::lookupWrite`: a name declared global in the current frame's
globals set is written in the global frame, otherwise in the current
frame. -/
def lookupWrite (s : InterpState) (name : String) (fi : Nat) : Nat :=
  let fr := s.getFrame fi
  if fr.globals.contains name then fr.globalFrame else fi

/-- `Frame::lookupRead`, with fuel bounding the parent-chain walk (parent
addresses strictly decrease, so `frames.length + 1` always suffices). -/
def lookupReadGo (s : InterpState) : Nat → String → Nat → Res Value
  | 0, _, _ => .error .fuelOut
  | fuel + 1, name, fi =>
      let fr := s.getFrame fi
      if fr.globals.contains name then
        let gf := s.getFrame fr.globalFrame
        match lookupAssoc gf.vars name with
        | some v => .ok v
        | Option.none => faultR .uninitializedVariable s
      else
        match lookupAssoc fr.vars name with
        | some v => .ok v
        | Option.none =>
            match fr.parent with
            | Option.none => faultR .uninitializedVariable s
            | some p => lookupReadGo s fuel name p

/-- `Frame::lookupRead` entry point. -/
def lookupRead (s : InterpState) (name : String) (fi : Nat) : Res Value :=
  lookupReadGo s (s.frames.length + 1) name fi

mutual

/-- `Interpreter::extractGlobals`: names under `global` declarations,
recursing through blocks, if/else and while, but not into nested
function declarations (a `FunctionDeclaration` matches none of the
`dynamic_cast` branches). -/
def extractGlobals : Node → List String
  | .block stmts => extractGlobalsList stmts
  | .globalStmt n => [n]
  | .ifStmt _ t e =>
      extractGlobals t ++ (match e with
        | some e' => extractGlobals e'
        | Option.none => [])
  | .whileLoop _ b => extractGlobals b
  | _ => []

/-- Fold of `extractGlobals` over a block's statements. -/
def extractGlobalsList : List Node → List String
  | [] => []
  | stmt :: rest => extractGlobals stmt ++ extractGlobalsList rest

end

mutual

/-- `Interpreter::extractAssigns`: identifiers on the left of an
`Assignment`, recursing through blocks, if/else and while, but not into
nested function declarations. -/
def extractAssigns : Node → List String
  | .block stmts => extractAssignsList stmts
  | .assign lhs _ =>
      (match lhs with
        | .ident n => [n]
        | _ => [])
  | .ifStmt _ t e =>
      extractAssigns t ++ (match e with
        | some e' => extractAssigns e'
        | Option.none => [])
  | .whileLoop _ b => extractAssigns b
  | _ => []

/-- Fold of `extractAssigns` over a block's statements. -/
def extractAssignsList : List Node → List String
  | [] => []
  | stmt :: rest => extractAssigns stmt ++ extractAssignsList rest

end

/-- Byte-wise `std::string` `operator<` (all strings that arise in the
verified programs are ASCII, where `Char` code order is byte order). -/
def charListLt : List Char → List Char → Bool
  | [], [] => false
  | [], _ :: _ => true
  | _ :: _, [] => false
  | a :: as, b :: bs =>
      if a.toNat < b.toNat then true
      else if b.toNat < a.toNat then false
      else charListLt as bs

/-- String comparison used for sorting record field names. -/
def strLtB (a b : String) : Bool :=
  charListLt a.toList b.toList

/-- Insert into a sorted list (ascending, `strLtB`). -/
def insertSorted (x : String) : List String → List String
  | [] => [x]
  | y :: ys => if strLtB y x then y :: insertSorted x ys else x :: y :: ys

/-- `std::sort` of the field-name vector.  On `String` the order is
total and antisymmetric (equal keys are identical strings), so the
sorted list is unique and insertion sort yields exactly the
`std::sort` result. -/
def sortStrs (l : List String) : List String :=
  l.foldr insertSorted []

/-- The `i > 0 ? " " + entry : entry` accumulation of the record case of
`valueToString`: entries joined by single spaces. -/
def joinSp : List String → String
  | [] => ""
  | [p] => p
  | p :: q :: rest => p ++ " " ++ joinSp (q :: rest)

/-- One record entry per sorted field name: `name + ":" + value`, where
the value is the first field with that name (the inner linear scan of
`valueToString`) and `render` is the recursive `valueToString` one fuel
level down. -/
def vtsFieldsG (render : Value → Option String) :
    List (String × Value) → List String → Option (List String)
  | _, [] => some []
  | flds, n :: ns =>
      match render ((lookupAssoc flds n).getD .none) with
      | some part =>
          match vtsFieldsG render flds ns with
          | some rest => some ((n ++ ":" ++ part) :: rest)
          | Option.none => Option.none
      | Option.none => Option.none

/-- One unfolding of `Interpreter::valueToString`; `render` is the
recursive call.  The final `else throw IllegalCastException()` of the
C++ switch is dead code: the variant match is exhaustive. -/
def vtsStep (s : InterpState) (render : Value → Option String) : Value → Option String :=
  fun v =>
    match v with
    | .str str => some str
    | .int n => some (toString n)
    | .bool b => some (if b then "true" else "false")
    | .none => some "None"
    | .fn _ => some "FUNCTION"
    | .record a =>
        let flds := s.getRec a
        let names := sortStrs (flds.map Prod.fst)
        match vtsFieldsG render flds names with
        | some parts =>
            let res := "\x7b" ++ joinSp parts ++ " \x7d"
            some (if res = "\x7b \x7d" then "\x7b\x7d" else res)
        | Option.none => Option.none

/-- `Interpreter::valueToString`.  Fuel bounds the recursion into record
fields (the C++ recursion diverges on cyclic records; here that is fuel
exhaustion). -/
def vtsGo (s : InterpState) : Nat → Value → Option String
  | 0, _ => Option.none
  | fuel + 1, v => vtsStep s (vtsGo s fuel) v

/-- Function-value equality of the `Eq` case of
`Interpreter::visit(BinaryExpression)`: same captured frame, same
parameter list, same body pointer. -/
def funEqB (s : InterpState) (a b : Nat) : Bool :=
  let f1 := s.getFun a
  let f2 := s.getFun b
  f1.context = f2.context && f1.args = f2.args && f1.bodyId = f2.bodyId

/-- The binary-operator switch of
`Interpreter::visit(ast::BinaryExpression)`, applied to the two operand
values.  `fuel` feeds `valueToString` in the string-concatenation
cases. -/
def applyBinOp (s : InterpState) (fuel : Nat) (op : BinOp) (l r : Value) : Res Value :=
  match op with
  | .add =>
      match l, r with
      | .int a, .int b => .ok (.int (a + b))
      | .str a, .str b => .ok (.str (a ++ b))
      | .str a, _ =>
          match vtsGo s fuel r with
          | some rs => .ok (.str (a ++ rs))
          | Option.none => .error .fuelOut
      | _, .str b =>
          match vtsGo s fuel l with
          | some ls => .ok (.str (ls ++ b))
          | Option.none => .error .fuelOut
      | _, _ => faultR .illegalCast s
  | .sub =>
      match l, r with
      | .int a, .int b => .ok (.int (a - b))
      | _, _ => faultR .illegalCast s
  | .mul =>
      match l, r with
      | .int a, .int b => .ok (.int (a * b))
      | _, _ => faultR .illegalCast s
  | .div =>
      match l, r with
      | .int a, .int b =>
          if b = 0 then faultR .illegalArithmetic s
          else .ok (.int (a.tdiv b))
      | _, _ => faultR .illegalCast s
  | .eq =>
      match l, r with
      | .int a, .int b => .ok (.bool (a = b))
      | .str a, .str b => .ok (.bool (a = b))
      | .record a, .record b => .ok (.bool (a = b))
      | .fn a, .fn b => .ok (.bool (funEqB s a b))
      | .bool a, .bool b => .ok (.bool (a = b))
      | .none, .none => .ok (.bool true)
      | _, _ => .ok (.bool false)
  | .lt =>
      match l, r with
      | .int a, .int b => .ok (.bool (a < b))
      | _, _ => faultR .illegalCast s
  | .gt =>
      match l, r with
      | .int a, .int b => .ok (.bool (b < a))
      | _, _ => faultR .illegalCast s
  | .leq =>
      match l, r with
      | .int a, .int b => .ok (.bool (a ≤ b))
      | _, _ => faultR .illegalCast s
  | .geq =>
      match l, r with
      | .int a, .int b => .ok (.bool (b ≤ a))
      | _, _ => faultR .illegalCast s
  | .and =>
      match l, r with
      | .bool a, .bool b => .ok (.bool (a && b))
      | _, _ => faultR .illegalCast s
  | .or =>
      match l, r with
      | .bool a, .bool b => .ok (.bool (a || b))
      | _, _ => faultR .illegalCast s

/-- The unary-operator switch of
`Interpreter::visit(ast::UnaryExpression)`. -/
def applyUnOp (s : InterpState) (op : UnOp) (v : Value) : Res Value :=
  match op with
  | .neg =>
      match v with
      | .int n => .ok (.int (-n))
      | _ => faultR .illegalCast s
  | .not =>
      match v with
      | .bool b => .ok (.bool (!b))
      | _ => faultR .illegalCast s

/-- `'0' ≤ c ≤ '9'` (C `isdigit` in the default locale). -/
def isDigitC (c : Char) : Bool :=
  48 ≤ c.toNat && c.toNat ≤ 57

/-- `std::atoi` on the strings accepted by the `intcast` checks: an
optional leading minus followed by decimal digits; the bare string `"-"`
parses as 0 (no digits follow the sign). -/
def atoiModel (cs : List Char) : Int :=
  let digits : List Char → Int :=
    fun ds => ds.foldl (fun a c => a * 10 + (Int.ofNat c.toNat - 48)) 0
  match cs with
  | '-' :: ds => - digits ds
  | ds => digits ds

/-- The `intcast` native branch of `Interpreter::visit(ast::Call)`:
an Int argument passes through; a String argument must have a first
character that is `-` or a digit and all remaining characters digits,
then is converted with `atoi`; anything else is an IllegalCast fault. -/
def intcastValue (s : InterpState) (v : Value) : Res Value :=
  match v with
  | .int n => .ok (.int n)
  | .str str =>
      match str.toList with
      | [] => faultR .illegalCast s
      | c :: rest =>
          if c ≠ '-' && !isDigitC c then faultR .illegalCast s
          else if rest.all isDigitC then .ok (.int (atoiModel (c :: rest)))
          else faultR .illegalCast s
  | _ => faultR .illegalCast s

/-- The None-pre-initialisation loop of `Interpreter::visit(ast::Call)`:
every name in `extractAssigns(body)` that is neither a parameter nor in
the globals set is bound to None in the new frame. -/
def initLocals (assigns params globals : List String) (vars : List (String × Value)) :
    List (String × Value) :=
  assigns.foldl
    (fun vs x =>
      if params.contains x || globals.contains x then vs
      else updateVar vs x .none)
    vars

/-- The parameter-binding loop of `Interpreter::visit(ast::Call)`. -/
def bindParams (params : List String) (argVals : List Value)
    (vars : List (String × Value)) : List (String × Value) :=
  (params.zip argVals).foldl (fun vs pv => updateVar vs pv.1 pv.2) vars

/-- Update-or-append of a record field (the field-assignment and
index-assignment cases of `Interpreter::visit(ast::Assignment)`). -/
def setField : List (String × Value) → String → Value → List (String × Value)
  | [], n, v => [(n, v)]
  | (k, w) :: rest, n, v =>
      if k = n then (k, v) :: rest else (k, w) :: setField rest n v

/-- The statement loop of `Interpreter::visit(ast::Block)`: run each
statement, stopping as soon as the return flag is set.  `ev` is the
evaluator used for the statements. -/
def execStmtsG (ev : Node → Value → InterpState → Res (Value × InterpState)) :
    List Node → Value → InterpState → Res (Value × InterpState)
  | [], rv, st => .ok (rv, st)
  | stmt :: rest, rv, st => do
      let (v, st1) ← ev stmt rv st
      if st1.hasReturned then .ok (v, st1)
      else execStmtsG ev rest v st1

/-- The argument-evaluation loop of the user-function path of
`Interpreter::visit(ast::Call)` (left to right, collecting values). -/
def evalArgsG (ev : Node → Value → InterpState → Res (Value × InterpState)) :
    List Node → Value → InterpState → Res (List Value × Value × InterpState)
  | [], rv, st => .ok ([], rv, st)
  | a :: rest, rv, st => do
      let (v, st1) ← ev a rv st
      let (vs, rv', st2) ← evalArgsG ev rest v st1
      .ok (v :: vs, rv', st2)

/-- The field-evaluation loop of `Interpreter::visit(ast::Record)`
(left to right, appending `(name, value)` pairs without deduplication). -/
def evalRecFieldsG (ev : Node → Value → InterpState → Res (Value × InterpState)) :
    List (String × Node) → Value → InterpState →
    Res (List (String × Value) × Value × InterpState)
  | [], rv, st => .ok ([], rv, st)
  | (n, e) :: rest, rv, st => do
      let (v, st1) ← ev e rv st
      let (vs, rv', st2) ← evalRecFieldsG ev rest v st1
      .ok ((n, v) :: vs, rv', st2)

/-- One unfolding of the visitor dispatch of `class Interpreter`
(`interp.hpp`), one case per `visit` overload.  `rv` is the incoming
value of the result register `rval_` (some cases leave it untouched);
the returned value is `rval_` after the visit.  `ev` is the evaluator
one fuel level down, used for every nested visit (including the
self-recursion of the `while` visit); `fuel` feeds `valueToString`. -/
def evalStep (fuel : Nat)
    (ev : Node → Value → InterpState → Res (Value × InterpState))
    (node : Node) (rv : Value) (st : InterpState) :
    Res (Value × InterpState) :=
    match node with
    | .intConst n => .ok (.int n, st)
    | .strConst s => .ok (.str s, st)
    | .boolConst b => .ok (.bool b, st)
    | .noneConst => .ok (.none, st)
    | .ident name => do
        let v ← lookupRead st name st.curFrame
        .ok (v, st)
    | .binary l op r => do
        let (lv, st1) ← ev l rv st
        let (rvv, st2) ← ev r lv st1
        let res ← applyBinOp st2 fuel op lv rvv
        .ok (res, st2)
    | .unary op e => do
        let (v, st1) ← ev e rv st
        let res ← applyUnOp st1 op v
        .ok (res, st1)
    | .fieldDeref base field => do
        let (bv, st1) ← ev base rv st
        match bv with
        | .record a =>
            match lookupAssoc (st1.getRec a) field with
            | some v => .ok (v, st1)
            | Option.none => .ok (.none, st1)
        | _ => faultR .illegalCast st1
    | .indexExpr base index => do
        let (bv, st1) ← ev base rv st
        match bv with
        | .record a => do
            let (iv, st2) ← ev index bv st1
            match vtsGo st2 fuel iv with
            | some fieldName =>
                (match lookupAssoc (st2.getRec a) fieldName with
                 | some v => .ok (v, st2)
                 | Option.none => .ok (.none, st2))
            | Option.none => .error .fuelOut
        | _ => faultR .illegalCast st1
    | .recordNode fields => do
        -- `new Record()` happens before the field expressions run
        let addr := st.recs.length
        let st0 := { st with recs := st.recs ++ [[]] }
        let (flds, _, st1) ← evalRecFieldsG ev fields rv st0
        .ok (.record addr, st1.setRec addr flds)
    | .funDecl declId params body =>
        let f : FunctionV := ⟨st.curFrame, params, some declId, some body⟩
        .ok (.fn st.funs.length, { st with funs := st.funs ++ [f] })
    | .block stmts => execStmtsG ev stmts rv st
    | .assign lhs expr =>
        (match lhs with
         | .ident name => do
             let (v, st1) ← ev expr rv st
             let tf := lookupWrite st1 name st1.curFrame
             let fr := st1.getFrame tf
             .ok (v, st1.setFrame tf { fr with vars := updateVar fr.vars name v })
         | .fieldDeref base field => do
             let (bv, st1) ← ev base rv st
             let (v, st2) ← ev expr bv st1
             match bv with
             | .record a => .ok (v, st2.setRec a (setField (st2.getRec a) field v))
             | _ => faultR .illegalCast st2
         | .indexExpr base index => do
             let (bv, st1) ← ev base rv st
             let (iv, st2) ← ev index bv st1
             match vtsGo st2 fuel iv with
             | some fieldName => do
                 let (v, st3) ← ev expr iv st2
                 match bv with
                 | .record a =>
                     .ok (v, st3.setRec a (setField (st3.getRec a) fieldName v))
                 | _ => faultR .illegalCast st3
             | Option.none => .error .fuelOut
         -- any other lhs shape matches none of the dynamic_casts: no-op
         | _ => .ok (rv, st))
    | .globalStmt _ => .ok (rv, st)
    | .ifStmt cond thenPart elsePart => do
        let (cv, st1) ← ev cond rv st
        match cv with
        | .bool b =>
            if b then ev thenPart cv st1
            else
              match elsePart with
              | some e => ev e cv st1
              | Option.none => .ok (cv, st1)
        | _ => faultR .illegalCast st1
    | .whileLoop cond body => do
        let (cv, st1) ← ev cond rv st
        match cv with
        | .bool b =>
            if b then do
              let (bv, st2) ← ev body cv st1
              if st2.hasReturned then .ok (bv, st2)
              else ev (.whileLoop cond body) bv st2
            else .ok (cv, st1)
        | _ => faultR .illegalCast st1
    | .ret e => do
        let (v, st1) ← ev e rv st
        .ok (v, { st1 with hasReturned := true })
    | .call target args => do
        let (tv, st1) ← ev target rv st
        match tv with
        | .fn fa =>
            let f := st1.getFun fa
            if f.args.length ≠ args.length then faultR .runtimeErr st1
            else if fa = 0 then
              -- native print (argument count is 1 by the arity check)
              match args with
              | [a0] => do
                  let (v, st2) ← ev a0 tv st1
                  match vtsGo st2 fuel v with
                  | some line =>
                      .ok (.none, { st2 with output := st2.output ++ [line] })
                  | Option.none => .error .fuelOut
              | _ => faultR .runtimeErr st1
            else if fa = 1 then
              -- native input: one line from stdin (empty string at EOF)
              match st1.input with
              | line :: restIn => .ok (.str line, { st1 with input := restIn })
              | [] => .ok (.str "", st1)
            else if fa = 2 then
              -- native intcast (argument count is 1 by the arity check)
              match args with
              | [a0] => do
                  let (v, st2) ← ev a0 tv st1
                  let res ← intcastValue st2 v
                  .ok (res, st2)
              | _ => faultR .runtimeErr st1
            else
              match f.body with
              | some body => do
                  let (argVals, rv', st2) ← evalArgsG ev args tv st1
                  let newAddr := st2.frames.length
                  let gframe := (st2.getFrame f.context).globalFrame
                  let globals := extractGlobals body
                  let vars0 := initLocals (extractAssigns body) f.args globals []
                  let vars1 := bindParams f.args argVals vars0
                  let newFrame : FrameV :=
                    ⟨vars1, some f.context, globals, gframe⟩
                  let st3 := { st2 with
                                frames := st2.frames ++ [newFrame],
                                frameStack := newAddr :: st2.frameStack,
                                hasReturned := false }
                  let oldReturn := st2.hasReturned
                  let (bv, st4) ← ev body rv' st3
                  let rvOut := if st4.hasReturned then bv else Value.none
                  .ok (rvOut, { st4 with
                                  hasReturned := oldReturn,
                                  frameStack := st4.frameStack.tail })
              -- unreachable: the only bodyless functions are the three
              -- natives, dispatched above
              | Option.none => faultR .runtimeErr st1
        | _ => faultR .illegalCast st1

/-- The interpreter: `fuel + 1` unfoldings of the visitor dispatch.
Fuel decreases on every nested visit and on each `while` iteration, so
it bounds the evaluation depth; it is an embedding artefact (the C++
recursion is unbounded). -/
def evalN : Nat → Node → Value → InterpState → Res (Value × InterpState)
  | 0, _, _, _ => .error .fuelOut
  | fuel + 1, node, rv, st => evalStep fuel (evalN fuel) node rv st

/-- `Interpreter::interpret` start state: the global frame (address 0)
with the four pre-bound globals, and the three native function objects
(`print` at 0, `input` at 1, `intcast` at 2) whose captured context is
the global frame and whose body pointer is null. -/
def startState (stdinLines : List String) : InterpState :=
  { frames := [⟨[("print", .fn 0), ("input", .fn 1), ("intcast", .fn 2),
                 ("None", .none)],
                Option.none,
                ["print", "input", "intcast", "None"],
                0⟩],
    funs := [⟨0, ["s"], Option.none, Option.none⟩,
             ⟨0, [], Option.none, Option.none⟩,
             ⟨0, ["s"], Option.none, Option.none⟩],
    recs := [],
    frameStack := [0],
    hasReturned := false,
    output := [],
    input := stdinLines }

/-- Run a parsed program: evaluate the root block in the start state
(the initial `rval_` is uninitialised in C++ and never observed before
being written; we pick None). -/
def interpProgram (root : Node) (fuel : Nat) (stdinLines : List String) :
    Res (Value × InterpState) :=
  evalN fuel root .none (startState stdinLines)

/-! ## Source lexer (`src/lexer.cpp`) -/

/-- Token kinds of `TokenType` (`lexer.hpp`). -/
inductive TokType where
  | error | none | assign | lbrace | rbrace | lparen | rparen | lsquare | rsquare
  | semicolon | comma | dot | colon | add | sub | mul | div | eq | lt | gt
  | leq | geq | and | or | not | intLit | strLit | boolLit | keyword | ident | eof
deriving DecidableEq, Repr

/-- A source token: kind, text, 1-based line number (`struct Token`;
the line is a C++ `int`, and the parser's dummy tokens use −1). -/
structure STok where
  t : TokType
  s : String
  line : Int
deriving DecidableEq, Repr

/-- C `isalpha` (default locale, ASCII). -/
def isAlphaC (c : Char) : Bool :=
  (65 ≤ c.toNat && c.toNat ≤ 90) || (97 ≤ c.toNat && c.toNat ≤ 122)

/-- Identifier continuation: `isalnum(c) || c == '_'`. -/
def isIdentContC (c : Char) : Bool :=
  isAlphaC c || isDigitC c || c = '_'

/-- C `isspace` (default locale). -/
def isSpaceC (c : Char) : Bool :=
  c = ' ' || c = '\t' || c = '\n' || c = '\x0b' || c = '\x0c' || c = '\x0d'

/-- The single-character symbol table of `lexer.cpp`. -/
def symbolTok (c : Char) : Option TokType :=
  if c = ';' then some .semicolon
  else if c = '=' then some .assign
  else if c = ',' then some .comma
  else if c = '\x7b' then some .lbrace
  else if c = '\x7d' then some .rbrace
  else if c = '(' then some .lparen
  else if c = ')' then some .rparen
  else if c = '[' then some .lsquare
  else if c = ']' then some .rsquare
  else if c = '+' then some .add
  else if c = '-' then some .sub
  else if c = '*' then some .mul
  else if c = '/' then some .div
  else if c = '&' then some .and
  else if c = '|' then some .or
  else if c = '!' then some .not
  else if c = '.' then some .dot
  else if c = ':' then some .colon
  else Option.none

/-- `Lexer::readNumber`.  Consumes from the remaining line text and
returns the token plus the rest.  Note the leading-zero branch: after a
single `0` it only looks for a following digit, so `0` followed by a
letter yields the IntLiteral `0` and leaves the letter unconsumed. -/
def readNumber (lineNo : Int) (cs : List Char) : Option (STok × List Char) :=
  match cs with
  | [] => Option.none
  | c :: rest =>
      if !isDigitC c then Option.none
      else if c = '0' then
        match rest with
        | d :: _ =>
            if isDigitC d then
              some (⟨.error, "invalid number with leading zero", lineNo⟩,
                    rest.dropWhile isDigitC)
            else some (⟨.intLit, "0", lineNo⟩, rest)
        | [] => some (⟨.intLit, "0", lineNo⟩, [])
      else
        let ds := cs.takeWhile isDigitC
        let rest1 := cs.dropWhile isDigitC
        match rest1 with
        | c1 :: _ =>
            if isAlphaC c1 || c1 = '_' then
              let run := cs.takeWhile isIdentContC
              some (⟨.error,
                     "invalid token \x27" ++ String.mk run ++ "\x27", lineNo⟩,
                    cs.dropWhile isIdentContC)
            else some (⟨.intLit, String.mk ds, lineNo⟩, rest1)
        | [] => some (⟨.intLit, String.mk ds, lineNo⟩, [])

/-- `isValidChar` of `lexer.cpp`: printable ASCII except quote and
backslash. -/
def isValidStrChar (c : Char) : Bool :=
  32 ≤ c.toNat && c.toNat ≤ 126 && c ≠ '\x22' && c ≠ '\x5c'

/-- The scanning loop of `Lexer::readString` after the opening quote:
`acc` is the token text built so far (quotes and escape sequences kept
in source form), `hasErr`/`errMsg` the sticky first error. -/
def readStringGo (lineNo : Int) :
    List Char → List Char → Bool → String → STok × List Char
  | [], _, _, _ => (⟨.error, "unterminated string literal", lineNo⟩, [])
  | '\x22' :: rest, acc, hasErr, errMsg =>
      if hasErr then (⟨.error, errMsg, lineNo⟩, rest)
      else (⟨.strLit, String.mk (acc ++ [ '\x22' ]), lineNo⟩, rest)
  | '\x5c' :: [], _, _, _ =>
      -- escape at end of line: the backslash is not consumed
      (⟨.error, "unterminated escape sequence", lineNo⟩, [ '\x5c' ])
  | '\x5c' :: c :: rest, acc, hasErr, errMsg =>
      if c = '\x22' || c = '\x5c' || c = 'n' || c = 't' then
        readStringGo lineNo rest (acc ++ [ '\x5c', c ]) hasErr errMsg
      else
        let (hasErr', errMsg') :=
          if hasErr then (hasErr, errMsg)
          else (true, "invalid escape sequence \x5c" ++ String.mk [c])
        readStringGo lineNo rest (acc ++ [ '\x5c', c ]) hasErr' errMsg'
  | c :: rest, acc, hasErr, errMsg =>
      if isValidStrChar c then
        readStringGo lineNo rest (acc ++ [c]) hasErr errMsg
      else
        let (hasErr', errMsg') :=
          if hasErr then (hasErr, errMsg)
          else
            (true,
             if c.toNat < 32 || 126 < c.toNat then
               "invalid character in string (ASCII " ++ toString c.toNat ++ ")"
             else "invalid character in string: \x27" ++ String.mk [c] ++ "\x27")
        readStringGo lineNo rest (acc ++ [c]) hasErr' errMsg'

/-- `Lexer::readString`. -/
def readString (lineNo : Int) (cs : List Char) : Option (STok × List Char) :=
  match cs with
  | '\x22' :: rest => some (readStringGo lineNo rest [ '\x22' ] false "")
  | _ => Option.none

/-- The keyword table of `lexer.cpp`. -/
def keywordTok (w : String) : Option TokType :=
  if w = "global" || w = "return" || w = "while" || w = "if" || w = "else" ||
     w = "fun" || w = "None" then some .keyword
  else if w = "true" || w = "false" then some .boolLit
  else Option.none

/-- `Lexer::readIdentifierOrKeyword`. -/
def readIdentKw (lineNo : Int) (cs : List Char) : Option (STok × List Char) :=
  match cs with
  | [] => Option.none
  | c :: _ =>
      if isAlphaC c || c = '_' then
        let word := String.mk (cs.takeWhile isIdentContC)
        let rest := cs.dropWhile isIdentContC
        match keywordTok word with
        | some k => some (⟨k, word, lineNo⟩, rest)
        | Option.none => some (⟨.ident, word, lineNo⟩, rest)
      else Option.none

/-- `Lexer::readComparison`: two-character `<=`, `>=`, `==` before the
single-character `<`, `>`. -/
def readComparison (lineNo : Int) (cs : List Char) : Option (STok × List Char) :=
  match cs with
  | '<' :: '=' :: rest => some (⟨.leq, "<=", lineNo⟩, rest)
  | '>' :: '=' :: rest => some (⟨.geq, ">=", lineNo⟩, rest)
  | '=' :: '=' :: rest => some (⟨.eq, "==", lineNo⟩, rest)
  | '<' :: rest => some (⟨.lt, "<", lineNo⟩, rest)
  | '>' :: rest => some (⟨.gt, ">", lineNo⟩, rest)
  | _ => Option.none

/-- `Lexer::handleBrackets`: maintain the open-bracket stack; a closer
that does not match the top emits an `unmatched` error token (before the
symbol token itself is appended). -/
def handleBrackets (t : STok) (stack : List STok) : List STok × List STok :=
  match t.t with
  | .lbrace | .lparen | .lsquare => ([], t :: stack)
  | .rbrace =>
      (match stack with
       | top :: rest =>
           if top.t = .lbrace then ([], rest)
           else ([⟨.error, "unmatched \x27\x7d\x27", t.line⟩], stack)
       | [] => ([⟨.error, "unmatched \x27\x7d\x27", t.line⟩], stack))
  | .rparen =>
      (match stack with
       | top :: rest =>
           if top.t = .lparen then ([], rest)
           else ([⟨.error, "unmatched \x27)\x27", t.line⟩], stack)
       | [] => ([⟨.error, "unmatched \x27)\x27", t.line⟩], stack))
  | .rsquare =>
      (match stack with
       | top :: rest =>
           if top.t = .lsquare then ([], rest)
           else ([⟨.error, "unmatched \x27]\x27", t.line⟩], stack)
       | [] => ([⟨.error, "unmatched \x27]\x27", t.line⟩], stack))
  | _ => ([], stack)

/-- The per-line scanning loop of `Lexer::lex`, in the reader order of
the C++ code: comment, whitespace, string, number,
identifier/keyword, comparison, symbol, unrecognized character.  Every
iteration consumes at least one character, so fuel `length + 1` never
runs out. -/
def lexLineGo (lineNo : Int) : Nat → List Char → List STok → List STok × List STok
  | 0, _, stack => ([], stack)
  | fuel + 1, cs, stack =>
      match cs with
      | [] => ([], stack)
      | c :: rest =>
          if c = '/' && rest.head? = some '/' then ([], stack)
          else if isSpaceC c then lexLineGo lineNo fuel rest stack
          else
            match readString lineNo cs with
            | some (t, cs') =>
                let (ts, stk') := lexLineGo lineNo fuel cs' stack
                (t :: ts, stk')
            | Option.none =>
            match readNumber lineNo cs with
            | some (t, cs') =>
                let (ts, stk') := lexLineGo lineNo fuel cs' stack
                (t :: ts, stk')
            | Option.none =>
            match readIdentKw lineNo cs with
            | some (t, cs') =>
                let (ts, stk') := lexLineGo lineNo fuel cs' stack
                (t :: ts, stk')
            | Option.none =>
            match readComparison lineNo cs with
            | some (t, cs') =>
                let (ts, stk') := lexLineGo lineNo fuel cs' stack
                (t :: ts, stk')
            | Option.none =>
            match symbolTok c with
            | some ty =>
                let t : STok := ⟨ty, String.mk [c], lineNo⟩
                let (errs, stk1) := handleBrackets t stack
                let (ts, stk2) := lexLineGo lineNo fuel rest stk1
                (errs ++ [t] ++ ts, stk2)
            | Option.none =>
                let t : STok :=
                  ⟨.error,
                   "unrecognized character \x27" ++ String.mk [c] ++ "\x27",
                   lineNo⟩
                let (ts, stk') := lexLineGo lineNo fuel rest stack
                (t :: ts, stk')

/-- `std::getline` splitting: lines without their terminating newline;
a trailing newline does not produce an extra empty line (the final
`getline` fails when nothing was read at end of input). -/
def getlines : List Char → List (List Char)
  | [] => []
  | '\n' :: rest => [] :: getlines rest
  | c :: rest =>
      match getlines rest with
      | l :: ls => (c :: l) :: ls
      | [] => [[c]]

/-- The line loop of `Lexer::lex`, threading the bracket stack and the
1-based line counter. -/
def lexLines : List (List Char) → Int → List STok → List STok × List STok
  | [], _, stack => ([], stack)
  | l :: rest, n, stack =>
      let (ts, stk1) := lexLineGo n (l.length + 1) l stack
      let (ts2, stk2) := lexLines rest (n + 1) stk1
      (ts ++ ts2, stk2)

/-- `Lexer::lex`: tokenize all lines, then one `unmatched` error per
remaining open bracket (top of stack first, at the opener's line), then
the `EoF` token (at line `numLines`). -/
def lexSrc (src : String) : List STok :=
  let ls := getlines src.toList
  let (ts, stack) := lexLines ls 1 []
  ts ++ stack.map (fun t => ⟨.error, "unmatched \x27" ++ t.s ++ "\x27", t.line⟩)
     ++ [⟨.eof, "", Int.ofNat ls.length⟩]

/-- The kind label used by the lexer's printers. -/
def tokKindLabel (t : TokType) : String :=
  match t with
  | .strLit => " STRINGLITERAL"
  | .intLit => " INTLITERAL"
  | .boolLit => " BOOLEANLITERAL"
  | .ident => " IDENTIFIER"
  | _ => ""

/-- `Lexer::printErrors`: every non-EoF token on its own line, errors
labelled `ERROR line`. -/
def printErrorsLines (toks : List STok) : List String :=
  (toks.filter (fun t => t.t ≠ .eof)).map fun t =>
    let ty := if t.t = .error then " ERROR line" else tokKindLabel t.t
    toString t.line ++ ty ++ " " ++ t.s

/-! ## Source parser (`parser.cpp`) -/

/-- Parser state: the remaining tokens (the C++ parser holds an index
into the vector) and a counter handing out fresh identities for
`FunctionDeclaration` nodes (each `make_unique` allocation is a
distinct pointer). -/
structure PSt where
  toks : List STok
  nextId : Nat

/-- Parse errors: the `std::runtime_error` message caught by
`Parser::parse` (also `std::out_of_range` from `std::stoi`), or fuel
exhaustion (embedding artefact). -/
inductive PErr where
  | msg (m : String)
  | fuelOut

/-- `Parser::isAtEnd`. -/
def PSt.isAtEnd (st : PSt) : Bool :=
  match st.toks with
  | [] => true
  | t :: _ => t.t = .eof

/-- `Parser::peek` (the dummy token `⟨None, "", -1⟩` at end). -/
def PSt.peek (st : PSt) : STok :=
  match st.toks with
  | t :: _ => if t.t = .eof then ⟨.none, "", -1⟩ else t
  | [] => ⟨.none, "", -1⟩

/-- `Parser::check`. -/
def PSt.check (st : PSt) (ty : TokType) : Bool :=
  !st.isAtEnd && st.peek.t = ty

/-- `Parser::advance`; only reached behind a successful `check`, so the
head token exists and is consumed. -/
def PSt.advanceTok (st : PSt) : STok × PSt :=
  match st.toks with
  | t :: rest => (t, { st with toks := rest })
  | [] => (⟨.error, "", 0⟩, st)

/-- `Parser::match` on a single token type (and `Parser::consume`,
which has the same success condition and a diagnostic message that the
callers replace with their own `runtime_error`). -/
def PSt.matchT (st : PSt) (ty : TokType) : Bool × PSt :=
  if st.check ty then
    let (_, st') := st.advanceTok
    (true, st')
  else (false, st)

/-- `std::stoi` on an IntLiteral token (a nonempty digit string from
the lexer); values beyond `INT_MAX` throw `std::out_of_range("stoi")`,
which `Parser::parse` catches like any parse error. -/
def stoiLit (s : String) : Except PErr Int :=
  let v := s.toList.foldl (fun a c => a * 10 + (c.toNat - 48)) 0
  if v ≤ 2147483647 then .ok (Int.ofNat v) else .error (.msg "stoi")

mutual

/-- `Parser::statement`. -/
def pStatement (fuel : Nat) (st : PSt) : Except PErr (Node × PSt) :=
  match fuel with
  | 0 => .error .fuelOut
  | fuel' + 1 =>
      if st.check .keyword then
        let kw := st.peek.s
        if kw = "if" then pIfStatement fuel' st
        else if kw = "while" then pWhileStatement fuel' st
        else if kw = "return" then pReturnStatement fuel' st
        else if kw = "global" then pGlobalDeclaration fuel' st
        else pAssignmentOrCall fuel' st
      else pAssignmentOrCall fuel' st

/-- `Parser::parse_assignment_or_call`. -/
def pAssignmentOrCall (fuel : Nat) (st : PSt) : Except PErr (Node × PSt) :=
  match fuel with
  | 0 => .error .fuelOut
  | fuel' + 1 => do
      let (e, st1) ← pLocation fuel' st
      if st1.check .assign then pAssignment fuel' e st1
      else if st1.check .lparen then do
        let (c, st2) ← pFunctionCall fuel' e st1
        let (okSemi, st3) := st2.matchT .semicolon
        if okSemi then .ok (c, st3)
        else .error (.msg "Invalid call expression")
      else .error (.msg "Invalid expression")

/-- `Parser::function_call` (the target expression already parsed). -/
def pFunctionCall (fuel : Nat) (target : Node) (st : PSt) : Except PErr (Node × PSt) :=
  match fuel with
  | 0 => .error .fuelOut
  | fuel' + 1 => do
      let (_, st1) := st.matchT .lparen
      if st1.check .rparen then do
        let (_, st2) := st1.matchT .rparen
        .ok (.call target [], st2)
      else do
        let (args, st2) ← pArgsLoop fuel' st1
        let (okR, st3) := st2.matchT .rparen
        if okR then .ok (.call target args, st3)
        else .error (.msg "Invalid call expression")

/-- The `do { expression } while (match(Comma))` argument loop of
`Parser::function_call`. -/
def pArgsLoop (fuel : Nat) (st : PSt) : Except PErr (List Node × PSt) :=
  match fuel with
  | 0 => .error .fuelOut
  | fuel' + 1 => do
      let (a, st1) ← pExpression fuel' st
      let (more, st2) := st1.matchT .comma
      if more then do
        let (rest, st3) ← pArgsLoop fuel' st2
        .ok (a :: rest, st3)
      else .ok ([a], st2)

/-- `Parser::location`. -/
def pLocation (fuel : Nat) (st : PSt) : Except PErr (Node × PSt) :=
  match fuel with
  | 0 => .error .fuelOut
  | fuel' + 1 => do
      let (e, st1) ← pIdTerm st
      pLocationLoop fuel' e st1

/-- The `.field` / `[index]` suffix loop of `Parser::location`. -/
def pLocationLoop (fuel : Nat) (e : Node) (st : PSt) : Except PErr (Node × PSt) :=
  match fuel with
  | 0 => .error .fuelOut
  | fuel' + 1 => do
      let (isDot, st1) := st.matchT .dot
      if isDot then
        if st1.check .ident then
          let (ft, st2) := st1.advanceTok
          pLocationLoop fuel' (.fieldDeref e ft.s) st2
        else .error (.msg "Expect identifier after \x27.\x27")
      else do
        let (isIdx, st2) := st.matchT .lsquare
        if isIdx then do
          let (idx, st3) ← pExpression fuel' st2
          let (okR, st4) := st3.matchT .rsquare
          if okR then pLocationLoop fuel' (.indexExpr e idx) st4
          else .error (.msg "Invalid index expression")
        else .ok (e, st)

/-- `Parser::idTerm`: a location must begin with an identifier. -/
def pIdTerm (st : PSt) : Except PErr (Node × PSt) :=
  if st.check .ident then
    let (t, st') := st.advanceTok
    .ok (.ident t.s, st')
  else .error (.msg "Expected identifier")

/-- `Parser::assignment` (the location already parsed). -/
def pAssignment (fuel : Nat) (loc : Node) (st : PSt) : Except PErr (Node × PSt) :=
  match fuel with
  | 0 => .error .fuelOut
  | fuel' + 1 => do
      let (okA, st1) := st.matchT .assign
      if okA then do
        let (e, st2) ← pExpression fuel' st1
        let (okS, st3) := st2.matchT .semicolon
        if okS then .ok (.assign loc e, st3)
        else .error (.msg "Invalid assignment")
      else .error (.msg "Invalid assignment")

/-- `Parser::block`. -/
def pBlock (fuel : Nat) (st : PSt) : Except PErr (Node × PSt) :=
  match fuel with
  | 0 => .error .fuelOut
  | fuel' + 1 => do
      let (okL, st1) := st.matchT .lbrace
      if okL then do
        let (stmts, st2) ← pBlockStmts fuel' st1
        let (okR, st3) := st2.matchT .rbrace
        if okR then .ok (.block stmts, st3)
        else .error (.msg "Invalid block")
      else .error (.msg "Invalid block")

/-- The statement loop of `Parser::block` (until `}` or end). -/
def pBlockStmts (fuel : Nat) (st : PSt) : Except PErr (List Node × PSt) :=
  match fuel with
  | 0 => .error .fuelOut
  | fuel' + 1 =>
      if !st.check .rbrace && !st.isAtEnd then do
        let (s1, st1) ← pStatement fuel' st
        let (rest, st2) ← pBlockStmts fuel' st1
        .ok (s1 :: rest, st2)
      else .ok ([], st)

/-- `Parser::ifStatement`. -/
def pIfStatement (fuel : Nat) (st : PSt) : Except PErr (Node × PSt) :=
  match fuel with
  | 0 => .error .fuelOut
  | fuel' + 1 => do
      let (okKw, st1) := st.matchT .keyword
      if !okKw then .error (.msg "Invalid if statement") else do
      let (okL, st2) := st1.matchT .lparen
      if !okL then .error (.msg "Invalid if statement") else do
      let (cond, st3) ← pExpression fuel' st2
      let (okR, st4) := st3.matchT .rparen
      if !okR then .error (.msg "Invalid if statement") else do
      let (thenB, st5) ← pBlock fuel' st4
      if st5.check .keyword && st5.peek.s = "else" then do
        let (okE, st6) := st5.matchT .keyword
        if !okE then .error (.msg "Invalid else statement") else do
        let (elseB, st7) ← pBlock fuel' st6
        .ok (.ifStmt cond thenB (some elseB), st7)
      else .ok (.ifStmt cond thenB Option.none, st5)

/-- `Parser::whileStatement`. -/
def pWhileStatement (fuel : Nat) (st : PSt) : Except PErr (Node × PSt) :=
  match fuel with
  | 0 => .error .fuelOut
  | fuel' + 1 => do
      let (okKw, st1) := st.matchT .keyword
      if !okKw then .error (.msg "Invalid while statement") else do
      let (okL, st2) := st1.matchT .lparen
      if !okL then .error (.msg "Invalid while statement") else do
      let (cond, st3) ← pExpression fuel' st2
      let (okR, st4) := st3.matchT .rparen
      if !okR then .error (.msg "Invalid while statement") else do
      let (body, st5) ← pBlock fuel' st4
      .ok (.whileLoop cond body, st5)

/-- `Parser::returnStatement`. -/
def pReturnStatement (fuel : Nat) (st : PSt) : Except PErr (Node × PSt) :=
  match fuel with
  | 0 => .error .fuelOut
  | fuel' + 1 => do
      let (okKw, st1) := st.matchT .keyword
      if !okKw then .error (.msg "Invalid return statement") else do
      let (e, st2) ← pExpression fuel' st1
      let (okS, st3) := st2.matchT .semicolon
      if !okS then .error (.msg "Invalid return statement") else
      .ok (.ret e, st3)

/-- `Parser::globalDeclaration`. -/
def pGlobalDeclaration (fuel : Nat) (st : PSt) : Except PErr (Node × PSt) :=
  match fuel with
  | 0 => .error .fuelOut
  | _ + 1 => do
      let (okKw, st1) := st.matchT .keyword
      if !okKw then .error (.msg "Invalid global statement") else
      if st1.check .ident then
        let (t, st2) := st1.advanceTok
        let (okS, st3) := st2.matchT .semicolon
        if okS then .ok (.globalStmt t.s, st3)
        else .error (.msg "Invalid global declaration")
      else .error (.msg "Expect identifier after \x27global\x27")

/-- `Parser::expression`: function declaration, record literal, or the
precedence chain from `|` down. -/
def pExpression (fuel : Nat) (st : PSt) : Except PErr (Node × PSt) :=
  match fuel with
  | 0 => .error .fuelOut
  | fuel' + 1 =>
      if st.check .keyword && st.peek.s = "fun" then
        pFunctionDeclaration fuel' st
      else if st.check .lbrace then pRecord fuel' st
      else pLogicalOr fuel' st

/-- `Parser::logical_or`. -/
def pLogicalOr (fuel : Nat) (st : PSt) : Except PErr (Node × PSt) :=
  match fuel with
  | 0 => .error .fuelOut
  | fuel' + 1 => do
      let (e, st1) ← pLogicalAnd fuel' st
      pLogicalOrLoop fuel' e st1

/-- The `while (match(Or))` loop of `Parser::logical_or`. -/
def pLogicalOrLoop (fuel : Nat) (e : Node) (st : PSt) : Except PErr (Node × PSt) :=
  match fuel with
  | 0 => .error .fuelOut
  | fuel' + 1 => do
      let (more, st1) := st.matchT .or
      if more then do
        let (r, st2) ← pLogicalAnd fuel' st1
        pLogicalOrLoop fuel' (.binary e .or r) st2
      else .ok (e, st)

/-- `Parser::logical_and`. -/
def pLogicalAnd (fuel : Nat) (st : PSt) : Except PErr (Node × PSt) :=
  match fuel with
  | 0 => .error .fuelOut
  | fuel' + 1 => do
      let (e, st1) ← pLogicalNot fuel' st
      pLogicalAndLoop fuel' e st1

/-- The `while (match(And))` loop of `Parser::logical_and`. -/
def pLogicalAndLoop (fuel : Nat) (e : Node) (st : PSt) : Except PErr (Node × PSt) :=
  match fuel with
  | 0 => .error .fuelOut
  | fuel' + 1 => do
      let (more, st1) := st.matchT .and
      if more then do
        let (r, st2) ← pLogicalNot fuel' st1
        pLogicalAndLoop fuel' (.binary e .and r) st2
      else .ok (e, st)

/-- `Parser::logical_not` (right recursion on `!`). -/
def pLogicalNot (fuel : Nat) (st : PSt) : Except PErr (Node × PSt) :=
  match fuel with
  | 0 => .error .fuelOut
  | fuel' + 1 => do
      let (isNot, st1) := st.matchT .not
      if isNot then do
        let (e, st2) ← pLogicalNot fuel' st1
        .ok (.unary .not e, st2)
      else pEquality fuel' st

/-- `Parser::equality`. -/
def pEquality (fuel : Nat) (st : PSt) : Except PErr (Node × PSt) :=
  match fuel with
  | 0 => .error .fuelOut
  | fuel' + 1 => do
      let (e, st1) ← pRelational fuel' st
      pEqualityLoop fuel' e st1

/-- The `while (match(Eq))` loop of `Parser::equality`. -/
def pEqualityLoop (fuel : Nat) (e : Node) (st : PSt) : Except PErr (Node × PSt) :=
  match fuel with
  | 0 => .error .fuelOut
  | fuel' + 1 => do
      let (more, st1) := st.matchT .eq
      if more then do
        let (r, st2) ← pRelational fuel' st1
        pEqualityLoop fuel' (.binary e .eq r) st2
      else .ok (e, st)

/-- `Parser::relational`. -/
def pRelational (fuel : Nat) (st : PSt) : Except PErr (Node × PSt) :=
  match fuel with
  | 0 => .error .fuelOut
  | fuel' + 1 => do
      let (e, st1) ← pAdditive fuel' st
      pRelationalLoop fuel' e st1

/-- The `<`/`>`/`<=`/`>=` loop of `Parser::relational`. -/
def pRelationalLoop (fuel : Nat) (e : Node) (st : PSt) : Except PErr (Node × PSt) :=
  match fuel with
  | 0 => .error .fuelOut
  | fuel' + 1 => do
      let (isLt, st1) := st.matchT .lt
      if isLt then do
        let (r, st2) ← pAdditive fuel' st1
        pRelationalLoop fuel' (.binary e .lt r) st2
      else do
      let (isGt, st2) := st.matchT .gt
      if isGt then do
        let (r, st3) ← pAdditive fuel' st2
        pRelationalLoop fuel' (.binary e .gt r) st3
      else do
      let (isLeq, st3) := st.matchT .leq
      if isLeq then do
        let (r, st4) ← pAdditive fuel' st3
        pRelationalLoop fuel' (.binary e .leq r) st4
      else do
      let (isGeq, st4) := st.matchT .geq
      if isGeq then do
        let (r, st5) ← pAdditive fuel' st4
        pRelationalLoop fuel' (.binary e .geq r) st5
      else .ok (e, st)

/-- `Parser::additive`. -/
def pAdditive (fuel : Nat) (st : PSt) : Except PErr (Node × PSt) :=
  match fuel with
  | 0 => .error .fuelOut
  | fuel' + 1 => do
      let (e, st1) ← pMultiplicative fuel' st
      pAdditiveLoop fuel' e st1

/-- The `+`/`-` loop of `Parser::additive`. -/
def pAdditiveLoop (fuel : Nat) (e : Node) (st : PSt) : Except PErr (Node × PSt) :=
  match fuel with
  | 0 => .error .fuelOut
  | fuel' + 1 => do
      let (isAdd, st1) := st.matchT .add
      if isAdd then do
        let (r, st2) ← pMultiplicative fuel' st1
        pAdditiveLoop fuel' (.binary e .add r) st2
      else do
      let (isSub, st2) := st.matchT .sub
      if isSub then do
        let (r, st3) ← pMultiplicative fuel' st2
        pAdditiveLoop fuel' (.binary e .sub r) st3
      else .ok (e, st)

/-- `Parser::multiplicative`. -/
def pMultiplicative (fuel : Nat) (st : PSt) : Except PErr (Node × PSt) :=
  match fuel with
  | 0 => .error .fuelOut
  | fuel' + 1 => do
      let (e, st1) ← pUnary fuel' st
      pMultiplicativeLoop fuel' e st1

/-- The `*`/`/` loop of `Parser::multiplicative`. -/
def pMultiplicativeLoop (fuel : Nat) (e : Node) (st : PSt) : Except PErr (Node × PSt) :=
  match fuel with
  | 0 => .error .fuelOut
  | fuel' + 1 => do
      let (isMul, st1) := st.matchT .mul
      if isMul then do
        let (r, st2) ← pUnary fuel' st1
        pMultiplicativeLoop fuel' (.binary e .mul r) st2
      else do
      let (isDiv, st2) := st.matchT .div
      if isDiv then do
        let (r, st3) ← pUnary fuel' st2
        pMultiplicativeLoop fuel' (.binary e .div r) st3
      else .ok (e, st)

/-- `Parser::unary` (prefix minus, right recursive). -/
def pUnary (fuel : Nat) (st : PSt) : Except PErr (Node × PSt) :=
  match fuel with
  | 0 => .error .fuelOut
  | fuel' + 1 => do
      let (isNeg, st1) := st.matchT .sub
      if isNeg then do
        let (e, st2) ← pUnary fuel' st1
        .ok (.unary .neg e, st2)
      else pPrimary fuel' st

/-- `Parser::primary`. -/
def pPrimary (fuel : Nat) (st : PSt) : Except PErr (Node × PSt) :=
  match fuel with
  | 0 => .error .fuelOut
  | fuel' + 1 => do
      let (isParen, st1) := st.matchT .lparen
      if isParen then do
        let (e, st2) ← pLogicalOr fuel' st1
        let (okR, st3) := st2.matchT .rparen
        if okR then .ok (e, st3)
        else .error (.msg "Invalid parenthesized expression")
      else if st.check .intLit then do
        let (t, st2) := st.advanceTok
        let v ← stoiLit t.s
        .ok (.intConst v, st2)
      else if st.check .strLit then
        let (t, st2) := st.advanceTok
        -- strip the delimiting quotes; escape sequences stay as-is
        .ok (.strConst ((t.s.drop 1).dropRight 1), st2)
      else if st.check .boolLit then
        let (t, st2) := st.advanceTok
        .ok (.boolConst (t.s = "true"), st2)
      else if st.check .keyword && st.peek.s = "None" then
        let (_, st2) := st.advanceTok
        .ok (.noneConst, st2)
      else pLocationOrCall fuel' st

/-- `Parser::parse_location_or_call`. -/
def pLocationOrCall (fuel : Nat) (st : PSt) : Except PErr (Node × PSt) :=
  match fuel with
  | 0 => .error .fuelOut
  | fuel' + 1 => do
      let (e, st1) ← pLocation fuel' st
      if st1.check .lparen then pFunctionCall fuel' e st1
      else .ok (e, st1)

/-- `Parser::functionDeclaration`; the fresh node gets the next
identity from the parser state. -/
def pFunctionDeclaration (fuel : Nat) (st : PSt) : Except PErr (Node × PSt) :=
  match fuel with
  | 0 => .error .fuelOut
  | fuel' + 1 => do
      let (okKw, st1) := st.matchT .keyword
      if !okKw then .error (.msg "Invalid function declaration") else do
      let (okL, st2) := st1.matchT .lparen
      if !okL then .error (.msg "Invalid function declaration") else do
      let (params, st3) ←
        (if st2.check .rparen then .ok ([], st2) else pParamsLoop fuel' st2 :
          Except PErr (List String × PSt))
      let (okR, st4) := st3.matchT .rparen
      if !okR then .error (.msg "Invalid function declaration") else do
      let (body, st5) ← pBlock fuel' st4
      .ok (.funDecl st5.nextId params body, { st5 with nextId := st5.nextId + 1 })

/-- The parameter-name loop of `Parser::functionDeclaration`. -/
def pParamsLoop (fuel : Nat) (st : PSt) : Except PErr (List String × PSt) :=
  match fuel with
  | 0 => .error .fuelOut
  | fuel' + 1 =>
      if st.check .ident then do
        let (t, st1) := st.advanceTok
        let (more, st2) := st1.matchT .comma
        if more then do
          let (rest, st3) ← pParamsLoop fuel' st2
          .ok (t.s :: rest, st3)
        else .ok ([t.s], st2)
      else .error (.msg "Expect parameter name")

/-- `Parser::record`. -/
def pRecord (fuel : Nat) (st : PSt) : Except PErr (Node × PSt) :=
  match fuel with
  | 0 => .error .fuelOut
  | fuel' + 1 => do
      let (okL, st1) := st.matchT .lbrace
      if !okL then .error (.msg "Invalid record") else do
      let (fields, st2) ← pRecordFields fuel' st1
      let (okR, st3) := st2.matchT .rbrace
      if okR then .ok (.recordNode fields, st3)
      else .error (.msg "Invalid record")

/-- The field loop of `Parser::record` (until `}` or end). -/
def pRecordFields (fuel : Nat) (st : PSt) : Except PErr (List (String × Node) × PSt) :=
  match fuel with
  | 0 => .error .fuelOut
  | fuel' + 1 =>
      if !st.check .rbrace && !st.isAtEnd then
        if st.check .ident then do
          let (t, st1) := st.advanceTok
          let (okC, st2) := st1.matchT .colon
          if !okC then .error (.msg "Invalid record field") else do
          let (v, st3) ← pExpression fuel' st2
          let (okS, st4) := st3.matchT .semicolon
          if !okS then .error (.msg "Invalid record field") else do
          let (rest, st5) ← pRecordFields fuel' st4
          .ok ((t.s, v) :: rest, st5)
        else .error (.msg "Expect field name")
      else .ok ([], st)

/-- The statement loop of `Parser::program`. -/
def pProgramStmts (fuel : Nat) (st : PSt) : Except PErr (List Node × PSt) :=
  match fuel with
  | 0 => .error .fuelOut
  | fuel' + 1 =>
      if !st.isAtEnd then do
        let (s1, st1) ← pStatement fuel' st
        let (rest, st2) ← pProgramStmts fuel' st1
        .ok (s1 :: rest, st2)
      else .ok ([], st)

end

/-- `Parser::program` / `Parser::parse`: the top-level statement list
wrapped in a `Block`; errors are the caught-exception outcome in which
`parse` returns `nullopt`. -/
def parseProgram (fuel : Nat) (toks : List STok) : Except PErr Node := do
  let (stmts, _) ← pProgramStmts fuel ⟨toks, 0⟩
  .ok (.block stmts)

/-! ## Driver (`main.cpp`, the `interpret` subcommand) -/

/-- Observable outcome of a process run: stdout lines, stderr lines,
exit code. -/
structure ProcOut where
  stdoutLines : List String
  stderrLines : List String
  exitCode : Nat
deriving DecidableEq, Repr

/-- The `CommandKind::INTERPRET` case of `main`: lex (on any error
token, `printErrors` to stderr and exit 1), parse (on failure the
caught-exception line goes to stderr, `parse error` to stdout, exit 1),
interpret (an escaping fault prints its `what()` to stderr and exits 1,
keeping the stdout already produced; otherwise exit 0).  The program
text arrives through stdin or a file; `input()` reads from the
already-drained stdin, so the stdin queue is empty.  `.error ()` is
fuel exhaustion of the embedding. -/
def mainInterpret (src : String) (fuel : Nat) : Except Unit ProcOut :=
  let toks := lexSrc src
  if toks.any (fun t => t.t = .error) then
    .ok ⟨[], printErrorsLines toks, 1⟩
  else
    match parseProgram fuel toks with
    | .error (.msg m) => .ok ⟨["parse error"], ["Caught exception: " ++ m], 1⟩
    | .error .fuelOut => .error ()
    | .ok root =>
        match interpProgram root fuel [] with
        | .ok (_, st) => .ok ⟨st.output, [], 0⟩
        | .error (.fault f st) => .ok ⟨st.output, [f.what], 1⟩
        | .error .fuelOut => .error ()

/-! ## The concrete programs of the claims -/

/-- S4 counter program (claim C1). -/
def counterSrc : String :=
  "counter = fun()\x7b n = 0; return fun()\x7b n = n+1; return n; \x7d; \x7d; c = counter(); print(c()); print(c()); print(c());"

/-- S5 record program (claim C2). -/
def recordSrc : String :=
  "r = \x7b a:1; b:2; \x7d; r.c = r.a + r[\x22b\x22]; print(r);"

/-- Duplicate-field program (claim C3). -/
def dupFieldSrc : String :=
  "r = \x7b a:1; a:2; \x7d; print(r.a);"

/-- S6 global program as written in the claim (statement-level `fun f`,
claim C6). -/
def globalFunSrc : String :=
  "x = 1; fun f()\x7b global x; x = x + 1; \x7d f(); f(); print(x);"

/-- S6 with the function declaration bound by assignment (the form the
grammar accepts). -/
def globalAssignSrc : String :=
  "x = 1; f = fun()\x7b global x; x = x + 1; \x7d; f(); f(); print(x);"

/-- S7 division-by-zero program (claim C8). -/
def divZeroSrc : String :=
  "print(1/0);"

/-- Native-function equality program (claim C9). -/
def nativeEqSrc : String :=
  "print(print == intcast); print(print == input);"

/-- Top-level return program (claim C10). -/
def topReturnSrc : String :=
  "return 1; print(2);"

/-- `intcast` on the bare minus sign (claim C4). -/
def intcastDashSrc : String :=
  "print(intcast(\x22-\x22));"

/-- The body of the inner closure of the S4 counter program, as the
parser produces it (the `declId` of nested nodes is irrelevant to
`extractAssigns`). -/
def counterInnerBody : Node :=
  .block [.assign (.ident "n") (.binary (.ident "n") .add (.intConst 1)),
          .ret (.ident "n")]

/-! ## Helper lemmas -/

theorem all_takeWhile_append {p : Char → Bool} {l1 l2 : List Char}
    (h : l1.all p = true) :
    (l1 ++ l2).takeWhile p = l1 ++ l2.takeWhile p := by
  induction l1 with
  | nil => simp
  | cons a l ih =>
      simp only [List.all_cons, Bool.and_eq_true] at h
      simp [List.takeWhile_cons, h.1, ih h.2]

theorem all_dropWhile_append {p : Char → Bool} {l1 l2 : List Char}
    (h : l1.all p = true) :
    (l1 ++ l2).dropWhile p = l2.dropWhile p := by
  induction l1 with
  | nil => simp
  | cons a l ih =>
      simp only [List.all_cons, Bool.and_eq_true] at h
      simp [List.dropWhile_cons, h.1, ih h.2]

theorem isIdentContC_of_isDigitC {c : Char} (h : isDigitC c = true) :
    isIdentContC c = true := by
  simp [isIdentContC, h]

theorem not_isDigitC_of_identHead {c : Char}
    (h : (isAlphaC c || c = '_') = true) : isDigitC c = false := by
  simp only [Bool.or_eq_true, decide_eq_true_eq] at h
  rcases h with h | h
  · simp only [isAlphaC, Bool.or_eq_true, Bool.and_eq_true,
      decide_eq_true_eq] at h
    simp only [isDigitC, Bool.and_eq_true, decide_eq_true_eq,
      Bool.and_eq_false_iff, decide_eq_false_iff_not, not_le]
    omega
  · subst h; rfl

/-! ## Bytecode text format (components F and G)

The bytecode front end of the `vm` subcommand: the token kinds and
lexer of `bytecode/lexer.cpp` and `bytecode/token.hpp`, the `Function`
tree of `bytecode/types.hpp` (reconstructed from its parser and
pretty-printer, the headers not being part of the sources), the parser
of `bytecode/parser.cpp`, and the pretty-printer of
`bytecode/prettyprinter.cpp`.  Token line/column positions feed only
the `exit(1)` diagnostics, which the embedding collapses into a bare
error, so tokens here carry kind and text only. -/

/-- `bytecode::TokenKind` (without the EOF sentinel: the end of the
token list plays that role). -/
inductive BTokKind where
  | kInt | kString | kIdent
  | kNone | kTrue | kFalse
  | kFunction | kFunctions | kConstants | kParameterCount
  | kLocalVars | kLocalRefVars | kFreeVars | kNames | kInstructions
  | kLoadConst | kLoadFunc | kLoadLocal | kStoreLocal | kLoadGlobal
  | kStoreGlobal | kPushRef | kLoadRef | kStoreRef | kAllocRecord
  | kFieldLoad | kFieldStore | kIndexLoad | kIndexStore | kAllocClosure
  | kCall | kReturn | kAdd | kSub | kMul | kDiv | kNeg | kGt | kGeq
  | kEq | kAnd | kOr | kNot | kGoto | kIf | kDup | kSwap | kPop
  | kLBrace | kRBrace | kLBracket | kRBracket | kLParen | kRParen
  | kComma | kAssign
deriving DecidableEq, Repr

/-- A bytecode token: kind and text. -/
structure BTok where
  kind : BTokKind
  text : String
deriving DecidableEq, Repr

/-- `bytecode::Operation`. -/
inductive BOp where
  | loadConst | loadFunc | loadLocal | storeLocal | loadGlobal
  | storeGlobal | pushReference | loadReference | storeReference
  | allocRecord | fieldLoad | fieldStore | indexLoad | indexStore
  | allocClosure | call | ret | add | sub | mul | div | neg | gt | geq
  | eq | and | or | not | goto | ifOp | dup | swap | pop
deriving DecidableEq, Repr

/-- `bytecode::Instruction`: operation and optional 32-bit signed
operand (`Int` with a well-formedness range bound). -/
structure BInstr where
  op : BOp
  operand : Option Int
deriving DecidableEq, Repr

/-- `bytecode::Constant`: None, Boolean, signed 32-bit Integer, or
String. -/
inductive BConst where
  | noneC
  | boolC (b : Bool)
  | intC (n : Int)
  | strC (s : String)
deriving DecidableEq, Repr

mutual

/-- `bytecode::Function`: nested functions, constants, parameter count
(`uint32_t`, modelled as `Nat` with a well-formedness bound), the four
identifier lists, and the instruction list.  The nested-function list
is a mutual inductive so that the printer and parser can recurse
structurally. -/
inductive BFunc where
  | mk (functions : BFuncList) (constants : List BConst)
       (parameterCount : Nat)
       (localVars localRefVars freeVars names : List String)
       (instructions : List BInstr)

/-- The `std::vector<Function*>` of nested functions. -/
inductive BFuncList where
  | nil
  | cons (f : BFunc) (rest : BFuncList)

end

/-- The single-character symbol table of the bytecode lexer. -/
def bSymbolTok (c : Char) : Option BTokKind :=
  if c = '[' then some .kLBracket
  else if c = ']' then some .kRBracket
  else if c = '(' then some .kLParen
  else if c = ')' then some .kRParen
  else if c = '\x7b' then some .kLBrace
  else if c = '\x7d' then some .kRBrace
  else if c = '=' then some .kAssign
  else if c = ',' then some .kComma
  else Option.none

/-- The reserved-word table of the bytecode lexer (`keyword_to_token`);
anything else is an identifier. -/
def bKeywordOf (w : String) : BTokKind :=
  if w = "None" then .kNone
  else if w = "true" then .kTrue
  else if w = "false" then .kFalse
  else if w = "function" then .kFunction
  else if w = "functions" then .kFunctions
  else if w = "constants" then .kConstants
  else if w = "parameter_count" then .kParameterCount
  else if w = "local_vars" then .kLocalVars
  else if w = "local_ref_vars" then .kLocalRefVars
  else if w = "names" then .kNames
  else if w = "free_vars" then .kFreeVars
  else if w = "instructions" then .kInstructions
  else if w = "load_const" then .kLoadConst
  else if w = "load_func" then .kLoadFunc
  else if w = "load_local" then .kLoadLocal
  else if w = "store_local" then .kStoreLocal
  else if w = "load_global" then .kLoadGlobal
  else if w = "store_global" then .kStoreGlobal
  else if w = "push_ref" then .kPushRef
  else if w = "load_ref" then .kLoadRef
  else if w = "store_ref" then .kStoreRef
  else if w = "alloc_record" then .kAllocRecord
  else if w = "field_load" then .kFieldLoad
  else if w = "field_store" then .kFieldStore
  else if w = "index_load" then .kIndexLoad
  else if w = "index_store" then .kIndexStore
  else if w = "alloc_closure" then .kAllocClosure
  else if w = "call" then .kCall
  else if w = "return" then .kReturn
  else if w = "add" then .kAdd
  else if w = "sub" then .kSub
  else if w = "mul" then .kMul
  else if w = "div" then .kDiv
  else if w = "neg" then .kNeg
  else if w = "gt" then .kGt
  else if w = "geq" then .kGeq
  else if w = "eq" then .kEq
  else if w = "and" then .kAnd
  else if w = "or" then .kOr
  else if w = "not" then .kNot
  else if w = "goto" then .kGoto
  else if w = "if" then .kIf
  else if w = "dup" then .kDup
  else if w = "swap" then .kSwap
  else if w = "pop" then .kPop
  else .kIdent

/-- Identifier start of the bytecode lexer (`is_identifier_start`). -/
def bIdentStart (c : Char) : Bool :=
  isAlphaC c || c = '_'

/-- `bytecode::Lexer::escape_string`: turn the collected escape
sequences into the characters they denote (a trailing lone backslash is
kept; an unknown pair keeps its second character, though the scanner
has rejected those already). -/
def escUnesc : List Char → List Char
  | [] => []
  | '\x5c' :: c :: rest =>
      (if c = '\x5c' then '\x5c'
       else if c = '\x22' then '\x22'
       else if c = 'n' then '\n'
       else if c = 't' then '\t'
       else c) :: escUnesc rest
  | [c] => [c]
  | c :: rest => c :: escUnesc rest

/-- The scanning loop of `lex_stringliteral` after the opening quote:
collect the raw text (escape sequences in source form) up to the
closing quote; an invalid escape, or end of input inside the string,
is the process-aborting diagnostic. -/
def bLexStrGo : List Char → List Char → Except Unit (List Char × List Char)
  | [], _ => .error ()
  | '\x22' :: rest, acc => .ok (acc, rest)
  | '\x5c' :: c :: rest, acc =>
      if c = '\x5c' || c = 'n' || c = 't' || c = '\x22' then
        bLexStrGo rest (acc ++ [ '\x5c', c ])
      else .error ()
  | [ '\x5c' ], _ => .error ()
  | c :: rest, acc => bLexStrGo rest (acc ++ [c])

/-- The comment predicate of the bytecode lexer (`is_comment`): take
until carriage return or newline. -/
def bIsCommentChar (c : Char) : Bool :=
  c ≠ '\x0d' && c ≠ '\n'

/-- The token loop of `bytecode::Lexer::lex`, in the reader order of
the C++ code: comment, symbol, integer literal, identifier/keyword,
string literal, whitespace, else a process-aborting diagnostic.  Every
iteration consumes at least one character, so the wrapper's fuel
`length + 1` cannot run out. -/
def bLexGo : Nat → List Char → Except Unit (List BTok)
  | 0, _ => .error ()
  | fuel + 1, cs =>
      match cs with
      | [] => .ok []
      | c :: rest =>
          if c = '/' && rest.head? = some '/' then
            bLexGo fuel (cs.dropWhile bIsCommentChar)
          else
            match bSymbolTok c with
            | some k =>
                match bLexGo fuel rest with
                | .ok ts => .ok (⟨k, String.mk [c]⟩ :: ts)
                | .error e => .error e
            | Option.none =>
            if isDigitC c then
              let ds := cs.takeWhile isDigitC
              match bLexGo fuel (cs.dropWhile isDigitC) with
              | .ok ts => .ok (⟨.kInt, String.mk ds⟩ :: ts)
              | .error e => .error e
            else if c = '-' then
              match rest with
              | d :: _ =>
                  if isDigitC d then
                    let ds := rest.takeWhile isDigitC
                    match bLexGo fuel (rest.dropWhile isDigitC) with
                    | .ok ts => .ok (⟨.kInt, String.mk ('-' :: ds)⟩ :: ts)
                    | .error e => .error e
                  else .error ()
                  -- a bare '-' is restored and then matches none of the
                  -- remaining readers: the unexpected-character diagnostic
              | [] => .error ()
            else if bIdentStart c then
              let w := String.mk (cs.takeWhile isIdentContC)
              match bLexGo fuel (cs.dropWhile isIdentContC) with
              | .ok ts => .ok (⟨bKeywordOf w, w⟩ :: ts)
              | .error e => .error e
            else if c = '\x22' then
              match bLexStrGo rest [] with
              | .ok (raw, rest') =>
                  match bLexGo fuel rest' with
                  | .ok ts => .ok (⟨.kString, String.mk (escUnesc raw)⟩ :: ts)
                  | .error e => .error e
              | .error e => .error e
            else if isSpaceC c then bLexGo fuel rest
            else .error ()

/-- Canonical entry point of the bytecode lexer: fuel is one more than
the input length, which the per-iteration progress makes sufficient. -/
def bLexCanon (cs : List Char) : Except Unit (List BTok) :=
  bLexGo (cs.length + 1) cs

/-- `bytecode::lex` on a string. -/
def bLex (s : String) : Except Unit (List BTok) :=
  bLexCanon s.toList

/-- One decimal digit character. -/
def digitChar (d : Nat) : Char :=
  if d = 0 then '0' else if d = 1 then '1' else if d = 2 then '2'
  else if d = 3 then '3' else if d = 4 then '4' else if d = 5 then '5'
  else if d = 6 then '6' else if d = 7 then '7' else if d = 8 then '8'
  else '9'

/-- Decimal rendering of a natural number (C++ `operator<<`); the fuel
is a digit-count bound, and 12 digits cover every `uint32_t`. -/
def natToDecGo : Nat → Nat → List Char
  | 0, _ => []
  | fuel + 1, n =>
      if n < 10 then [digitChar n]
      else natToDecGo fuel (n / 10) ++ [digitChar (n % 10)]

/-- Decimal rendering of the 32-bit quantities the printer emits. -/
def natToDec (n : Nat) : List Char :=
  natToDecGo 12 n

/-- Decimal rendering of a signed 32-bit value (leading `-` on
negatives, as C++ `operator<<`). -/
def intToDec (v : Int) : List Char :=
  if v < 0 then '-' :: natToDec v.natAbs else natToDec v.toNat

/-- `bytecode::PrettyPrinter::unescape`: re-escape backslash, quote,
newline and tab on output. -/
def escRender : List Char → List Char
  | [] => []
  | c :: rest =>
      (if c = '\n' then [ '\x5c', 'n' ]
       else if c = '\t' then [ '\x5c', 't' ]
       else if c = '\x22' then [ '\x5c', '\x22' ]
       else if c = '\x5c' then [ '\x5c', '\x5c' ]
       else [c]) ++ escRender rest

/-- The mnemonic of each operation, as printed and as reserved word. -/
def mnemonicOf : BOp → String
  | .loadConst => "load_const"
  | .loadFunc => "load_func"
  | .loadLocal => "load_local"
  | .storeLocal => "store_local"
  | .loadGlobal => "load_global"
  | .storeGlobal => "store_global"
  | .pushReference => "push_ref"
  | .loadReference => "load_ref"
  | .storeReference => "store_ref"
  | .allocRecord => "alloc_record"
  | .fieldLoad => "field_load"
  | .fieldStore => "field_store"
  | .indexLoad => "index_load"
  | .indexStore => "index_store"
  | .allocClosure => "alloc_closure"
  | .call => "call"
  | .ret => "return"
  | .add => "add"
  | .sub => "sub"
  | .mul => "mul"
  | .div => "div"
  | .neg => "neg"
  | .gt => "gt"
  | .geq => "geq"
  | .eq => "eq"
  | .and => "and"
  | .or => "or"
  | .not => "not"
  | .goto => "goto"
  | .ifOp => "if"
  | .dup => "dup"
  | .swap => "swap"
  | .pop => "pop"

/-- The operand table of §6.2 / the printer and parser switches:
which operations carry an integer operand. -/
def opHasOperand : BOp → Bool
  | .loadConst | .loadFunc | .loadLocal | .storeLocal | .loadGlobal
  | .storeGlobal | .pushReference | .fieldLoad | .fieldStore
  | .allocClosure | .call | .goto | .ifOp => true
  | _ => false

/-- The token kind of each mnemonic (agrees with `bKeywordOf` on the
mnemonic text). -/
def mnemonicKind : BOp → BTokKind
  | .loadConst => .kLoadConst
  | .loadFunc => .kLoadFunc
  | .loadLocal => .kLoadLocal
  | .storeLocal => .kStoreLocal
  | .loadGlobal => .kLoadGlobal
  | .storeGlobal => .kStoreGlobal
  | .pushReference => .kPushRef
  | .loadReference => .kLoadRef
  | .storeReference => .kStoreRef
  | .allocRecord => .kAllocRecord
  | .fieldLoad => .kFieldLoad
  | .fieldStore => .kFieldStore
  | .indexLoad => .kIndexLoad
  | .indexStore => .kIndexStore
  | .allocClosure => .kAllocClosure
  | .call => .kCall
  | .ret => .kReturn
  | .add => .kAdd
  | .sub => .kSub
  | .mul => .kMul
  | .div => .kDiv
  | .neg => .kNeg
  | .gt => .kGt
  | .geq => .kGeq
  | .eq => .kEq
  | .and => .kAnd
  | .or => .kOr
  | .not => .kNot
  | .goto => .kGoto
  | .ifOp => .kIf
  | .dup => .kDup
  | .swap => .kSwap
  | .pop => .kPop

/-- Shorthand: the characters of a string literal. -/
def strL (s : String) : List Char :=
  s.toList

/-- `print_indent`: one tab per indent level. -/
def tabs (k : Nat) : List Char :=
  List.replicate k '\t'

/-- `PrettyPrinter::print(Constant)`. -/
def bPrintConst : BConst → List Char
  | .noneC => strL "None"
  | .boolC b => strL (if b then "true" else "false")
  | .intC n => intToDec n
  | .strC s => '\x22' :: (escRender s.toList ++ [ '\x22' ])

/-- The `i != 0 → ", "` separator accumulation of the list printers. -/
def joinCommaSp : List (List Char) → List Char
  | [] => []
  | [x] => x
  | x :: y :: rest => x ++ strL ", " ++ joinCommaSp (y :: rest)

/-- One identifier-list line:
`<tabs><name> = [a, b, c],\n`. -/
def bPrintIdentLine (k : Nat) (name : String) (l : List String) : List Char :=
  tabs k ++ strL name ++ strL " = [" ++ joinCommaSp (l.map strL) ++ strL "],\n"

/-- `PrettyPrinter::print(Instruction)`.  The C++ prints
`operand0.value()`, which aborts when the operand is missing;
well-formedness guarantees presence, under which `getD 0` agrees. -/
def bPrintInstr (i : BInstr) : List Char :=
  strL (mnemonicOf i.op) ++
    (if opHasOperand i.op then '\t' :: intToDec (i.operand.getD 0) else [])

/-- The instruction-list body: one indented instruction per line. -/
def bPrintInstrList (k : Nat) : List BInstr → List Char
  | [] => []
  | i :: rest => tabs k ++ bPrintInstr i ++ [ '\n' ] ++ bPrintInstrList k rest

mutual

/-- `bytecode::PrettyPrinter::print(Function)` at indent level `k`,
fragment by fragment in output order. -/
def bPrintFunc (k : Nat) (f : BFunc) : List Char :=
  match f with
  | .mk fs cs pc lv lrv fv nm instrs =>
      tabs k ++ strL "function" ++ [ '\n' ]
      ++ tabs k ++ strL "\x7b" ++ [ '\n' ]
      ++ tabs (k + 1) ++ strL "functions ="
      ++ (match fs with
          | .nil => strL " [],\n"
          | .cons f0 r =>
              [ '\n' ] ++ tabs (k + 1) ++ strL "[" ++ [ '\n' ]
              ++ bPrintFuncList (k + 2) (.cons f0 r)
              ++ [ '\n' ] ++ tabs (k + 1) ++ strL "]," ++ [ '\n' ])
      ++ tabs (k + 1) ++ strL "constants = ["
      ++ joinCommaSp (cs.map bPrintConst) ++ strL "],\n"
      ++ tabs (k + 1) ++ strL "parameter_count = " ++ natToDec pc
      ++ strL ",\n"
      ++ bPrintIdentLine (k + 1) "local_vars" lv
      ++ bPrintIdentLine (k + 1) "local_ref_vars" lrv
      ++ bPrintIdentLine (k + 1) "free_vars" fv
      ++ bPrintIdentLine (k + 1) "names" nm
      ++ tabs (k + 1) ++ strL "instructions = " ++ [ '\n' ]
      ++ tabs (k + 1) ++ strL "[" ++ [ '\n' ]
      ++ bPrintInstrList (k + 2) instrs
      ++ tabs (k + 1) ++ strL "]" ++ [ '\n' ]
      ++ tabs k ++ strL "\x7d"

/-- Nested functions, `,\n`-separated (none after the last). -/
def bPrintFuncList (k : Nat) (fs : BFuncList) : List Char :=
  match fs with
  | .nil => []
  | .cons f .nil => bPrintFunc k f
  | .cons f (.cons g r) =>
      bPrintFunc k f ++ strL ",\n" ++ bPrintFuncList k (.cons g r)

end

/-- `bytecode::prettyprint`: the whole tree at indent 0. -/
def bPrint (f : BFunc) : String :=
  String.mk (bPrintFunc 0 f)

/-- The token stream the lexer recovers from one printed constant. -/
def bConstTok : BConst → BTok
  | .noneC => ⟨.kNone, "None"⟩
  | .boolC true => ⟨.kTrue, "true"⟩
  | .boolC false => ⟨.kFalse, "false"⟩
  | .intC n => ⟨.kInt, String.mk (intToDec n)⟩
  | .strC s => ⟨.kString, s⟩

/-- Comma-separated identifier tokens. -/
def identToksJoined : List String → List BTok
  | [] => []
  | [w] => [⟨.kIdent, w⟩]
  | w :: y :: rest => ⟨.kIdent, w⟩ :: ⟨.kComma, ","⟩ :: identToksJoined (y :: rest)

/-- Comma-separated constant tokens. -/
def constToksJoined : List BConst → List BTok
  | [] => []
  | [c] => [bConstTok c]
  | c :: d :: rest => bConstTok c :: ⟨.kComma, ","⟩ :: constToksJoined (d :: rest)

/-- Tokens of one instruction. -/
def bInstrToks (i : BInstr) : List BTok :=
  ⟨mnemonicKind i.op, mnemonicOf i.op⟩ ::
    (if opHasOperand i.op then
       [⟨.kInt, String.mk (intToDec (i.operand.getD 0))⟩]
     else [])

/-- Tokens of an instruction list. -/
def bInstrListToks : List BInstr → List BTok
  | [] => []
  | i :: rest => bInstrToks i ++ bInstrListToks rest

mutual

/-- The token stream of one printed function. -/
def bFuncToks (f : BFunc) : List BTok :=
  match f with
  | .mk fs cs pc lv lrv fv nm instrs =>
      [⟨.kFunction, "function"⟩, ⟨.kLBrace, "\x7b"⟩,
       ⟨.kFunctions, "functions"⟩, ⟨.kAssign, "="⟩, ⟨.kLBracket, "["⟩]
      ++ bFuncListToks fs
      ++ [⟨.kRBracket, "]"⟩, ⟨.kComma, ","⟩,
          ⟨.kConstants, "constants"⟩, ⟨.kAssign, "="⟩, ⟨.kLBracket, "["⟩]
      ++ constToksJoined cs
      ++ [⟨.kRBracket, "]"⟩, ⟨.kComma, ","⟩,
          ⟨.kParameterCount, "parameter_count"⟩, ⟨.kAssign, "="⟩,
          ⟨.kInt, String.mk (natToDec pc)⟩, ⟨.kComma, ","⟩,
          ⟨.kLocalVars, "local_vars"⟩, ⟨.kAssign, "="⟩, ⟨.kLBracket, "["⟩]
      ++ identToksJoined lv
      ++ [⟨.kRBracket, "]"⟩, ⟨.kComma, ","⟩,
          ⟨.kLocalRefVars, "local_ref_vars"⟩, ⟨.kAssign, "="⟩,
          ⟨.kLBracket, "["⟩]
      ++ identToksJoined lrv
      ++ [⟨.kRBracket, "]"⟩, ⟨.kComma, ","⟩,
          ⟨.kFreeVars, "free_vars"⟩, ⟨.kAssign, "="⟩, ⟨.kLBracket, "["⟩]
      ++ identToksJoined fv
      ++ [⟨.kRBracket, "]"⟩, ⟨.kComma, ","⟩,
          ⟨.kNames, "names"⟩, ⟨.kAssign, "="⟩, ⟨.kLBracket, "["⟩]
      ++ identToksJoined nm
      ++ [⟨.kRBracket, "]"⟩, ⟨.kComma, ","⟩,
          ⟨.kInstructions, "instructions"⟩, ⟨.kAssign, "="⟩,
          ⟨.kLBracket, "["⟩]
      ++ bInstrListToks instrs
      ++ [⟨.kRBracket, "]"⟩, ⟨.kRBrace, "\x7d"⟩]

/-- The token stream of the printed nested-function list
(comma-separated). -/
def bFuncListToks (fs : BFuncList) : List BTok :=
  match fs with
  | .nil => []
  | .cons f .nil => bFuncToks f
  | .cons f (.cons g r) =>
      bFuncToks f ++ ⟨.kComma, ","⟩ :: bFuncListToks (.cons g r)

end

/-- Decimal value of a digit string. -/
def digitsVal (cs : List Char) : Nat :=
  cs.foldl (fun a c => a * 10 + (c.toNat - 48)) 0

/-- `std::stoi` on a lexer INT token (optional `-` then digits):
out-of-`int` range throws, which aborts the parse. -/
def bStoi (s : String) : Except Unit Int :=
  let v : Int :=
    if s.toList.head? = some '-' then -(Int.ofNat (digitsVal s.toList.tail))
    else Int.ofNat (digitsVal s.toList)
  if -2147483648 ≤ v ∧ v ≤ 2147483647 then .ok v else .error ()

/-- `bytecode::Parser::safe_unsigned_cast` composed on the `stoi`
result: the assert demands the value fit `uint32_t`, which for an
`int`-ranged value means non-negativity. -/
def pcFromInt (v : Int) : Except Unit Nat :=
  if 0 ≤ v then .ok v.toNat else .error ()

/-- `consume(kind, …)`: drop one token of the given kind or abort. -/
def expectTok (k : BTokKind) (ts : List BTok) : Except Unit (List BTok) :=
  match ts with
  | t :: rest => if t.kind = k then .ok rest else .error ()
  | [] => .error ()

/-- The `while (match(COMMA)) { if (check(IDENTIFIER)) … }` loop of
`parse_ident_list_plus` (a comma not followed by an identifier is
silently skipped). -/
def pbIdentLoop : List BTok → List String × List BTok
  | ⟨.kComma, _⟩ :: ⟨.kIdent, w⟩ :: rest =>
      let (ws, rest') := pbIdentLoop rest
      (w :: ws, rest')
  | ⟨.kComma, _⟩ :: rest => pbIdentLoop rest
  | ts => ([], ts)

/-- `parse_ident_list_plus`. -/
def pbIdentListPlus : List BTok → Except Unit (List String × List BTok)
  | ⟨.kIdent, w⟩ :: rest =>
      let (ws, rest') := pbIdentLoop rest
      .ok (w :: ws, rest')
  | _ => .error ()

/-- `parse_ident_list_star`. -/
def pbIdentListStar (ts : List BTok) : Except Unit (List String × List BTok) :=
  match ts with
  | t :: rest =>
      if t.kind = .kRBracket then .ok ([], t :: rest)
      else pbIdentListPlus (t :: rest)
  | [] => pbIdentListPlus []

/-- `parse_constant` on the head tokens (inlined where the list loop
needs structural recursion). -/
def pbConstHead : BTokKind → String → Except Unit BConst
  | .kNone, _ => .ok .noneC
  | .kTrue, _ => .ok (.boolC true)
  | .kFalse, _ => .ok (.boolC false)
  | .kString, s => .ok (.strC s)
  | .kInt, s => do
      let v ← bStoi s
      .ok (.intC v)
  | _, _ => .error ()

/-- The `while (match(COMMA)) { if (!check(RBRACKET)) parse_constant }`
loop of `parse_constant_list_plus`. -/
def pbConstLoop : List BTok → Except Unit (List BConst × List BTok)
  | ⟨.kComma, _⟩ :: rest =>
      (match rest with
       | t :: rest2 =>
           if t.kind = .kRBracket then .ok ([], t :: rest2)
           else do
             let c ← pbConstHead t.kind t.text
             let (cs, rest') ← pbConstLoop rest2
             .ok (c :: cs, rest')
       | [] => .error ())
  | ts => .ok ([], ts)

/-- `parse_constant_list_plus`. -/
def pbConstListPlus : List BTok → Except Unit (List BConst × List BTok)
  | t :: rest => do
      let c ← pbConstHead t.kind t.text
      let (cs, rest') ← pbConstLoop rest
      .ok (c :: cs, rest')
  | [] => .error ()

/-- `parse_constant_list_star`. -/
def pbConstListStar (ts : List BTok) : Except Unit (List BConst × List BTok) :=
  match ts with
  | t :: rest =>
      if t.kind = .kRBracket then .ok ([], t :: rest)
      else pbConstListPlus (t :: rest)
  | [] => pbConstListPlus []

/-- The mnemonic kinds back to operations (the `parse_instruction`
dispatch). -/
def kindToOp : BTokKind → Option BOp
  | .kLoadConst => some .loadConst
  | .kLoadFunc => some .loadFunc
  | .kLoadLocal => some .loadLocal
  | .kStoreLocal => some .storeLocal
  | .kLoadGlobal => some .loadGlobal
  | .kStoreGlobal => some .storeGlobal
  | .kPushRef => some .pushReference
  | .kLoadRef => some .loadReference
  | .kStoreRef => some .storeReference
  | .kAllocRecord => some .allocRecord
  | .kFieldLoad => some .fieldLoad
  | .kFieldStore => some .fieldStore
  | .kIndexLoad => some .indexLoad
  | .kIndexStore => some .indexStore
  | .kAllocClosure => some .allocClosure
  | .kCall => some .call
  | .kReturn => some .ret
  | .kAdd => some .add
  | .kSub => some .sub
  | .kMul => some .mul
  | .kDiv => some .div
  | .kNeg => some .neg
  | .kGt => some .gt
  | .kGeq => some .geq
  | .kEq => some .eq
  | .kAnd => some .and
  | .kOr => some .or
  | .kNot => some .not
  | .kGoto => some .goto
  | .kIf => some .ifOp
  | .kDup => some .dup
  | .kSwap => some .swap
  | .kPop => some .pop
  | _ => Option.none

/-- `parse_instruction_list` (and `parse_instruction` inlined):
until `]` or end of input, a mnemonic with its operand when the
operation takes one (`safe_cast(stoi(...))` on the INT token). -/
def pbInstrList : List BTok → Except Unit (List BInstr × List BTok)
  | [] => .ok ([], [])
  | t :: rest =>
      if t.kind = .kRBracket then .ok ([], t :: rest)
      else
        match kindToOp t.kind with
        | Option.none => .error ()
        | some op =>
            if opHasOperand op then
              match rest with
              | ⟨.kInt, s⟩ :: rest2 => do
                  let v ← bStoi s
                  let (is, rest') ← pbInstrList rest2
                  .ok (⟨op, some v⟩ :: is, rest')
              | _ => .error ()
            else do
              let (is, rest') ← pbInstrList rest
              .ok (⟨op, Option.none⟩ :: is, rest')

mutual

/-- `bytecode::Parser::parse_function` on the token stream; fuel
bounds the nesting recursion (an embedding artefact). -/
def pbFunction : Nat → List BTok → Except Unit (BFunc × List BTok)
  | 0, _ => .error ()
  | fuel + 1, ts0 => do
      let ts ← expectTok .kFunction ts0
      let ts ← expectTok .kLBrace ts
      let ts ← expectTok .kFunctions ts
      let ts ← expectTok .kAssign ts
      let ts ← expectTok .kLBracket ts
      let (fs, ts) ← pbFunctionListStar fuel ts
      let ts ← expectTok .kRBracket ts
      let ts ← expectTok .kComma ts
      let ts ← expectTok .kConstants ts
      let ts ← expectTok .kAssign ts
      let ts ← expectTok .kLBracket ts
      let (cs, ts) ← pbConstListStar ts
      let ts ← expectTok .kRBracket ts
      let ts ← expectTok .kComma ts
      let ts ← expectTok .kParameterCount ts
      let ts ← expectTok .kAssign ts
      match ts with
      | ⟨.kInt, s⟩ :: ts => do
          let v ← bStoi s
          let pc ← pcFromInt v
          let ts ← expectTok .kComma ts
          let ts ← expectTok .kLocalVars ts
          let ts ← expectTok .kAssign ts
          let ts ← expectTok .kLBracket ts
          let (lv, ts) ← pbIdentListStar ts
          let ts ← expectTok .kRBracket ts
          let ts ← expectTok .kComma ts
          let ts ← expectTok .kLocalRefVars ts
          let ts ← expectTok .kAssign ts
          let ts ← expectTok .kLBracket ts
          let (lrv, ts) ← pbIdentListStar ts
          let ts ← expectTok .kRBracket ts
          let ts ← expectTok .kComma ts
          let ts ← expectTok .kFreeVars ts
          let ts ← expectTok .kAssign ts
          let ts ← expectTok .kLBracket ts
          let (fv, ts) ← pbIdentListStar ts
          let ts ← expectTok .kRBracket ts
          let ts ← expectTok .kComma ts
          let ts ← expectTok .kNames ts
          let ts ← expectTok .kAssign ts
          let ts ← expectTok .kLBracket ts
          let (nm, ts) ← pbIdentListStar ts
          let ts ← expectTok .kRBracket ts
          let ts ← expectTok .kComma ts
          let ts ← expectTok .kInstructions ts
          let ts ← expectTok .kAssign ts
          let ts ← expectTok .kLBracket ts
          let (instrs, ts) ← pbInstrList ts
          let ts ← expectTok .kRBracket ts
          let ts ← expectTok .kRBrace ts
          .ok (.mk fs cs pc lv lrv fv nm instrs, ts)
      | _ => .error ()

/-- `parse_function_list_star`. -/
def pbFunctionListStar : Nat → List BTok → Except Unit (BFuncList × List BTok)
  | 0, _ => .error ()
  | fuel + 1, ts =>
      match ts with
      | t :: rest =>
          if t.kind = .kRBracket then .ok (.nil, t :: rest)
          else pbFunctionListPlus fuel (t :: rest)
      | [] => pbFunctionListPlus fuel []

/-- `parse_function_list_plus`: one function if the next token is
`function` (otherwise none), then the comma loop. -/
def pbFunctionListPlus : Nat → List BTok → Except Unit (BFuncList × List BTok)
  | 0, _ => .error ()
  | fuel + 1, ts =>
      match ts with
      | t :: _ =>
          if t.kind = .kFunction then do
            let (f, ts1) ← pbFunction fuel ts
            let (fs, ts2) ← pbFuncLoop fuel ts1
            .ok (.cons f fs, ts2)
          else do
            let (fs, ts2) ← pbFuncLoop fuel ts
            .ok (fs, ts2)
      | [] => do
          let (fs, ts2) ← pbFuncLoop fuel []
          .ok (fs, ts2)

/-- The `while (match(COMMA)) { if (check(FUNCTION)) parse_function }`
loop of `parse_function_list_plus`. -/
def pbFuncLoop : Nat → List BTok → Except Unit (BFuncList × List BTok)
  | 0, _ => .error ()
  | fuel + 1, ts =>
      match ts with
      | ⟨.kComma, _⟩ :: rest =>
          (match rest with
           | t :: rest2 =>
               if t.kind = .kFunction then do
                 let (f, ts1) ← pbFunction fuel (t :: rest2)
                 let (fs, ts2) ← pbFuncLoop fuel ts1
                 .ok (.cons f fs, ts2)
               else pbFuncLoop fuel (t :: rest2)
           | [] => pbFuncLoop fuel [])
      | _ => .ok (.nil, ts)

end

/-- `bytecode::Parser::parse` (with `bytecode::lex` upstream in
`bParseString`): empty input, a failed function parse, or trailing
tokens after the top-level function abort the process. -/
def bParseToks (ts : List BTok) : Except Unit BFunc :=
  match ts with
  | [] => .error ()
  | _ => do
      let (f, rest) ← pbFunction (ts.length + 1) ts
      match rest with
      | [] => .ok f
      | _ => .error ()

/-- The `vm` subcommand front end: lex then parse. -/
def bParseString (s : String) : Except Unit BFunc := do
  let ts ← bLex s
  bParseToks ts

/-! ## Bytecode round-trip development (component G proofs) -/
theorem length_dropWhile_le (p : Char → Bool) (l : List Char) :
    (l.dropWhile p).length ≤ l.length := by
  induction l with
  | nil => simp
  | cons a l ih =>
      rw [List.dropWhile_cons]
      split
      · exact Nat.le_succ_of_le ih
      · exact Nat.le_refl _

theorem bLexStrGo_length : ∀ (cs acc raw rest : List Char),
    bLexStrGo cs acc = .ok (raw, rest) → rest.length < cs.length := by
  intro cs acc
  induction cs, acc using bLexStrGo.induct with
  | case1 acc =>
      intro raw rest h
      exact absurd h (by simp [bLexStrGo])
  | case2 rest0 acc =>
      intro raw rest h
      simp only [bLexStrGo, Except.ok.injEq, Prod.mk.injEq] at h
      simp [← h.2]
  | case3 c rest0 acc hcond ih =>
      intro raw rest h
      simp only [bLexStrGo, hcond, if_true] at h
      have := ih raw rest h
      simp only [List.length_cons]
      omega
  | case4 c rest0 acc hcond =>
      intro raw rest h
      simp only [bLexStrGo, hcond, if_false] at h
      exact absurd h (by simp)
  | case5 acc =>
      intro raw rest h
      exact absurd h (by simp [bLexStrGo])
  | case6 c rest0 acc h1 h2 h3 ih =>
      intro raw rest h
      rw [bLexStrGo] at h
      · have := ih raw rest h
        simp only [List.length_cons]
        omega
      · exact h1
      · exact h2
      · exact h3

theorem bIdentStart_cont {c : Char} (h : bIdentStart c = true) :
    isIdentContC c = true := by
  simp only [bIdentStart, Bool.or_eq_true] at h
  rcases h with h | h <;> simp [isIdentContC, h]

theorem bLexGo_irrel : ∀ (n : Nat) (cs : List Char) (fa fb : Nat),
    cs.length ≤ n → cs.length < fa → cs.length < fb →
    bLexGo fa cs = bLexGo fb cs := by
  intro n
  induction n with
  | zero =>
      intro cs fa fb hn ha hb
      have hcs : cs = [] := List.length_eq_zero.mp (Nat.le_zero.mp hn)
      subst hcs
      obtain ⟨a, rfl⟩ : ∃ a, fa = a + 1 := ⟨fa - 1, by omega⟩
      obtain ⟨b, rfl⟩ : ∃ b, fb = b + 1 := ⟨fb - 1, by omega⟩
      rfl
  | succ n ih =>
      intro cs fa fb hn ha hb
      have hfa : 0 < fa := Nat.lt_of_le_of_lt (Nat.zero_le _) ha
      have hfb : 0 < fb := Nat.lt_of_le_of_lt (Nat.zero_le _) hb
      obtain ⟨a, rfl⟩ : ∃ a, fa = a + 1 := ⟨fa - 1, by omega⟩
      obtain ⟨b, rfl⟩ : ∃ b, fb = b + 1 := ⟨fb - 1, by omega⟩
      match cs, hn, ha, hb with
      | [], _, _, _ => rfl
      | c :: rest, hn, ha, hb =>
          simp only [List.length_cons] at hn ha hb
          simp only [bLexGo]
          by_cases hc1 : (c = '/' && rest.head? = some '/') = true
          · rw [if_pos hc1, if_pos hc1]
            simp only [Bool.and_eq_true, decide_eq_true_eq] at hc1
            have hdw : (c :: rest).dropWhile bIsCommentChar
                = rest.dropWhile bIsCommentChar := by
              rw [List.dropWhile_cons, if_pos]
              rw [hc1.1]; rfl
            rw [hdw]
            have hlen := length_dropWhile_le bIsCommentChar rest
            exact ih _ _ _ (by omega) (by omega) (by omega)
          · simp only [if_neg hc1]
            cases hsym : bSymbolTok c with
            | some k =>
                simp only []
                rw [ih rest a b (by omega) (by omega) (by omega)]
            | none =>
                simp only []
                by_cases hdig : isDigitC c = true
                · rw [if_pos hdig, if_pos hdig]
                  have hdw : (c :: rest).dropWhile isDigitC
                      = rest.dropWhile isDigitC := by
                    rw [List.dropWhile_cons, if_pos hdig]
                  have htw : (c :: rest).takeWhile isDigitC
                      = c :: rest.takeWhile isDigitC := by
                    rw [List.takeWhile_cons, if_pos hdig]
                  rw [hdw, htw]
                  have hlen := length_dropWhile_le isDigitC rest
                  rw [ih (rest.dropWhile isDigitC) a b (by omega) (by omega)
                    (by omega)]
                · simp only [if_neg hdig]
                  by_cases hminus : c = '-'
                  · rw [if_pos hminus, if_pos hminus]
                    match rest, hn, ha, hb with
                    | [], _, _, _ => rfl
                    | d :: rest2, hn, ha, hb =>
                        simp only [List.length_cons] at hn ha hb
                        simp only []
                        by_cases hd : isDigitC d = true
                        · rw [if_pos hd, if_pos hd]
                          have hdw : (d :: rest2).dropWhile isDigitC
                              = rest2.dropWhile isDigitC := by
                            rw [List.dropWhile_cons, if_pos hd]
                          rw [hdw]
                          have hlen := length_dropWhile_le isDigitC rest2
                          rw [ih (rest2.dropWhile isDigitC) a b (by omega)
                            (by omega) (by omega)]
                        · rw [if_neg hd, if_neg hd]
                  · simp only [if_neg hminus]
                    by_cases hid : bIdentStart c = true
                    · rw [if_pos hid, if_pos hid]
                      have hdw : (c :: rest).dropWhile isIdentContC
                          = rest.dropWhile isIdentContC := by
                        rw [List.dropWhile_cons, if_pos (bIdentStart_cont hid)]
                      rw [hdw]
                      have hlen := length_dropWhile_le isIdentContC rest
                      rw [ih (rest.dropWhile isIdentContC) a b (by omega)
                        (by omega) (by omega)]
                    · simp only [if_neg hid]
                      by_cases hq : c = '\x22'
                      · rw [if_pos hq, if_pos hq]
                        cases hstr : bLexStrGo rest [] with
                        | ok pr =>
                            obtain ⟨raw, rest1⟩ := pr
                            simp only []
                            have hlen := bLexStrGo_length rest [] raw rest1 hstr
                            rw [ih rest1 a b (by omega) (by omega) (by omega)]
                        | error e => simp only []
                      · simp only [if_neg hq]
                        by_cases hsp : isSpaceC c = true
                        · rw [if_pos hsp, if_pos hsp]
                          exact ih rest a b (by omega) (by omega) (by omega)
                        · simp only [if_neg hsp]

theorem bLexGo_canon (cs : List Char) (f : Nat) (h : cs.length < f) :
    bLexGo f cs = bLexCanon cs :=
  bLexGo_irrel cs.length cs f (cs.length + 1) (Nat.le_refl _) h
    (Nat.lt_succ_self _)

/-- The next character (if any) cannot extend an identifier. -/
def headNotIdentCont : List Char → Bool
  | [] => true
  | d :: _ => !(isIdentContC d)

/-- The next character (if any) is not a digit. -/
def headNotDigit : List Char → Bool
  | [] => true
  | d :: _ => !(isDigitC d)

theorem takeWhile_ident_nil {cs : List Char}
    (h : headNotIdentCont cs = true) :
    cs.takeWhile isIdentContC = [] := by
  match cs with
  | [] => rfl
  | d :: r =>
      simp only [headNotIdentCont, Bool.not_eq_true'] at h
      rw [List.takeWhile_cons, if_neg (by simp [h])]

theorem dropWhile_ident_self {cs : List Char}
    (h : headNotIdentCont cs = true) :
    cs.dropWhile isIdentContC = cs := by
  match cs with
  | [] => rfl
  | d :: r =>
      simp only [headNotIdentCont, Bool.not_eq_true'] at h
      rw [List.dropWhile_cons, if_neg (by simp [h])]

theorem takeWhile_digit_nil {cs : List Char}
    (h : headNotDigit cs = true) :
    cs.takeWhile isDigitC = [] := by
  match cs with
  | [] => rfl
  | d :: r =>
      simp only [headNotDigit, Bool.not_eq_true'] at h
      rw [List.takeWhile_cons, if_neg (by simp [h])]

theorem dropWhile_digit_self {cs : List Char}
    (h : headNotDigit cs = true) :
    cs.dropWhile isDigitC = cs := by
  match cs with
  | [] => rfl
  | d :: r =>
      simp only [headNotDigit, Bool.not_eq_true'] at h
      rw [List.dropWhile_cons, if_neg (by simp [h])]

theorem symNone_of_identStart {c : Char} (h : bIdentStart c = true) :
    bSymbolTok c = Option.none := by
  unfold bSymbolTok
  split_ifs with h1 h2 h3 h4 h5 h6 h7 h8 <;>
    first
      | rfl
      | (subst_vars; exact absurd h (by decide))

theorem symNone_of_digit {c : Char} (h : isDigitC c = true) :
    bSymbolTok c = Option.none := by
  unfold bSymbolTok
  split_ifs with h1 h2 h3 h4 h5 h6 h7 h8 <;>
    first
      | rfl
      | (subst_vars; exact absurd h (by decide))



/-- The loop body of `bLexGo` on a non-empty input, for rewriting
(definitionally equal to one unfolding). -/
def bLexConsStep (fuel : Nat) (c : Char) (rest : List Char) :
    Except Unit (List BTok) :=
  if c = '/' && rest.head? = some '/' then
    bLexGo fuel ((c :: rest).dropWhile bIsCommentChar)
  else
    match bSymbolTok c with
    | some k =>
        match bLexGo fuel rest with
        | .ok ts => .ok (⟨k, String.mk [c]⟩ :: ts)
        | .error e => .error e
    | Option.none =>
    if isDigitC c then
      let ds := (c :: rest).takeWhile isDigitC
      match bLexGo fuel ((c :: rest).dropWhile isDigitC) with
      | .ok ts => .ok (⟨.kInt, String.mk ds⟩ :: ts)
      | .error e => .error e
    else if c = '-' then
      match rest with
      | d :: _ =>
          if isDigitC d then
            let ds := rest.takeWhile isDigitC
            match bLexGo fuel (rest.dropWhile isDigitC) with
            | .ok ts => .ok (⟨.kInt, String.mk ('-' :: ds)⟩ :: ts)
            | .error e => .error e
          else .error ()
      | [] => .error ()
    else if bIdentStart c then
      let w := String.mk ((c :: rest).takeWhile isIdentContC)
      match bLexGo fuel ((c :: rest).dropWhile isIdentContC) with
      | .ok ts => .ok (⟨bKeywordOf w, w⟩ :: ts)
      | .error e => .error e
    else if c = '\x22' then
      match bLexStrGo rest [] with
      | .ok (raw, rest2) =>
          match bLexGo fuel rest2 with
          | .ok ts => .ok (⟨.kString, String.mk (escUnesc raw)⟩ :: ts)
          | .error e => .error e
      | .error e => .error e
    else if isSpaceC c then bLexGo fuel rest
    else .error ()

theorem bLexGo_cons (f : Nat) (c : Char) (rest : List Char) :
    bLexGo (f + 1) (c :: rest) = bLexConsStep f c rest := rfl

theorem lex_ws {c : Char} (hws : isSpaceC c = true)
    (hnc : c ≠ '/') (hsym : bSymbolTok c = Option.none)
    (hnd : isDigitC c = false) (hnm : c ≠ '-')
    (hni : bIdentStart c = false) (hnq : c ≠ '\x22')
    (cs : List Char) : bLexCanon (c :: cs) = bLexCanon cs := by
  rw [bLexCanon, List.length_cons]
  generalize hL : cs.length + 1 = L
  have hLlen : cs.length < L := by omega
  rw [bLexGo_cons]
  rw [bLexConsStep.eq_def]
  rw [if_neg (by simp [hnc])]
  rw [hsym]
  simp only []
  rw [if_neg (by simp [hnd]), if_neg hnm, if_neg (by simp [hni]),
    if_neg hnq, if_pos hws]
  exact bLexGo_canon cs L hLlen

theorem lex_space (cs : List Char) : bLexCanon (' ' :: cs) = bLexCanon cs :=
  lex_ws (by decide) (by decide) (by decide) (by decide) (by decide)
    (by decide) (by decide) cs

theorem lex_tab (cs : List Char) : bLexCanon ('\t' :: cs) = bLexCanon cs :=
  lex_ws (by decide) (by decide) (by decide) (by decide) (by decide)
    (by decide) (by decide) cs

theorem lex_nl (cs : List Char) : bLexCanon ('\n' :: cs) = bLexCanon cs :=
  lex_ws (by decide) (by decide) (by decide) (by decide) (by decide)
    (by decide) (by decide) cs

theorem lex_sym {c : Char} {k : BTokKind} (hsym : bSymbolTok c = some k)
    {cs : List Char} {ts : List BTok} (h : bLexCanon cs = .ok ts) :
    bLexCanon (c :: cs) = .ok (⟨k, String.mk [c]⟩ :: ts) := by
  have hnc : c ≠ '/' := by
    intro e; subst e; simp [bSymbolTok] at hsym
  rw [bLexCanon, List.length_cons]
  generalize hL : cs.length + 1 = L
  have hLlen : cs.length < L := by omega
  rw [bLexGo_cons, bLexConsStep.eq_def]
  rw [if_neg (by simp [hnc])]
  rw [hsym]
  simp only []
  rw [bLexGo_canon cs L hLlen, h]

theorem lex_word (w : String) (c : Char) (wrest : List Char)
    (hw : w.toList = c :: wrest)
    (hstart : bIdentStart c = true)
    (hall : (c :: wrest).all isIdentContC = true)
    {cs : List Char} (hcs : headNotIdentCont cs = true)
    {ts : List BTok} (h : bLexCanon cs = .ok ts) :
    bLexCanon (w.toList ++ cs) = .ok (⟨bKeywordOf w, w⟩ :: ts) := by
  rw [hw]
  have hnc : c ≠ '/' := by
    intro e; subst e; exact absurd hstart (by decide)
  have hnm : c ≠ '-' := by
    intro e; subst e; exact absurd hstart (by decide)
  have hnq : c ≠ '\x22' := by
    intro e; subst e; exact absurd hstart (by decide)
  have hnd : isDigitC c = false := not_isDigitC_of_identHead hstart
  have hsym : bSymbolTok c = Option.none := symNone_of_identStart hstart
  have hcnt : isIdentContC c = true := bIdentStart_cont hstart
  have hallr : wrest.all isIdentContC = true := by
    simp only [List.all_cons, Bool.and_eq_true] at hall
    exact hall.2
  have htw : ((c :: wrest) ++ cs).takeWhile isIdentContC = c :: wrest := by
    rw [all_takeWhile_append hall, takeWhile_ident_nil hcs,
      List.append_nil]
  have hdw : ((c :: wrest) ++ cs).dropWhile isIdentContC = cs := by
    rw [all_dropWhile_append hall, dropWhile_ident_self hcs]
  rw [bLexCanon]
  generalize hL : ((c :: wrest) ++ cs).length = L
  have hLlen : cs.length < L := by
    rw [← hL]; simp [List.length_append]; omega
  rw [List.cons_append, bLexGo_cons, bLexConsStep.eq_def]
  rw [if_neg (by simp [hnc])]
  rw [hsym]
  simp only []
  rw [if_neg (by simp [hnd]), if_neg hnm, if_pos hstart]
  simp only [← List.cons_append, htw, hdw]
  rw [bLexGo_canon cs L hLlen, h]
  have hmk : String.mk (c :: wrest) = w := by
    rw [← hw]; cases w; rfl
  rw [hmk]

theorem lex_digits (ds : List Char) (d0 : Char) (drest : List Char)
    (hd : ds = d0 :: drest) (hall : ds.all isDigitC = true)
    {cs : List Char} (hcs : headNotDigit cs = true)
    {ts : List BTok} (h : bLexCanon cs = .ok ts) :
    bLexCanon (ds ++ cs) = .ok (⟨.kInt, String.mk ds⟩ :: ts) := by
  subst hd
  have hd0 : isDigitC d0 = true := by
    simp only [List.all_cons, Bool.and_eq_true] at hall
    exact hall.1
  have hnc : d0 ≠ '/' := by
    intro e; subst e; exact absurd hd0 (by decide)
  have hsym : bSymbolTok d0 = Option.none := symNone_of_digit hd0
  have htw : ((d0 :: drest) ++ cs).takeWhile isDigitC = d0 :: drest := by
    rw [all_takeWhile_append hall, takeWhile_digit_nil hcs, List.append_nil]
  have hdw : ((d0 :: drest) ++ cs).dropWhile isDigitC = cs := by
    rw [all_dropWhile_append hall, dropWhile_digit_self hcs]
  rw [bLexCanon]
  generalize hL : ((d0 :: drest) ++ cs).length = L
  have hLlen : cs.length < L := by
    rw [← hL]; simp [List.length_append]; omega
  rw [List.cons_append, bLexGo_cons, bLexConsStep.eq_def]
  rw [if_neg (by simp [hnc])]
  rw [hsym]
  simp only []
  rw [if_pos hd0]
  simp only [← List.cons_append, htw, hdw]
  rw [bLexGo_canon cs L hLlen, h]

theorem lex_negdigits (ds : List Char) (d0 : Char) (drest : List Char)
    (hd : ds = d0 :: drest) (hall : ds.all isDigitC = true)
    {cs : List Char} (hcs : headNotDigit cs = true)
    {ts : List BTok} (h : bLexCanon cs = .ok ts) :
    bLexCanon ('-' :: (ds ++ cs)) = .ok (⟨.kInt, String.mk ('-' :: ds)⟩ :: ts) := by
  subst hd
  have hd0 : isDigitC d0 = true := by
    simp only [List.all_cons, Bool.and_eq_true] at hall
    exact hall.1
  have htw : ((d0 :: drest) ++ cs).takeWhile isDigitC = d0 :: drest := by
    rw [all_takeWhile_append hall, takeWhile_digit_nil hcs, List.append_nil]
  have hdw : ((d0 :: drest) ++ cs).dropWhile isDigitC = cs := by
    rw [all_dropWhile_append hall, dropWhile_digit_self hcs]
  rw [bLexCanon]
  generalize hL : ('-' :: ((d0 :: drest) ++ cs)).length = L
  have hLlen : cs.length < L := by
    rw [← hL]; simp [List.length_append]; omega
  rw [bLexGo_cons, bLexConsStep.eq_def]
  rw [if_neg (by simp)]
  rw [show bSymbolTok '-' = Option.none from rfl]
  simp only []
  rw [if_neg (by decide)]
  rw [if_pos (show True from trivial)]
  simp only [List.cons_append]
  rw [if_pos hd0]
  simp only [← List.cons_append, htw, hdw]
  rw [bLexGo_canon cs L hLlen, h]

theorem bLexStrGo_quote (rest acc : List Char) :
    bLexStrGo ('\x22' :: rest) acc = .ok (acc, rest) := rfl

theorem bLexStrGo_esc (c : Char) (rest acc : List Char) :
    bLexStrGo ('\x5c' :: c :: rest) acc =
      if c = '\x5c' || c = 'n' || c = 't' || c = '\x22' then
        bLexStrGo rest (acc ++ [ '\x5c', c ])
      else .error () := rfl

theorem bLexStrGo_plain (c : Char) (rest acc : List Char)
    (h1 : ¬c = '\x22') (h2 : ¬c = '\x5c') :
    bLexStrGo (c :: rest) acc = bLexStrGo rest (acc ++ [c]) := by
  rw [bLexStrGo]
  · intro e; exact h1 e
  · intro c2 r2 e _; exact h2 e
  · intro e _; exact h2 e

theorem escRender_cons (c : Char) (rest : List Char) :
    escRender (c :: rest) =
      (if c = '\n' then [ '\x5c', 'n' ]
       else if c = '\t' then [ '\x5c', 't' ]
       else if c = '\x22' then [ '\x5c', '\x22' ]
       else if c = '\x5c' then [ '\x5c', '\x5c' ]
       else [c]) ++ escRender rest := rfl

theorem bLexStrGo_render : ∀ (l acc tail : List Char),
    bLexStrGo (escRender l ++ '\x22' :: tail) acc
      = .ok (acc ++ escRender l, tail) := by
  intro l
  induction l with
  | nil =>
      intro acc tail
      simp only [escRender, List.nil_append, List.append_nil]
      exact bLexStrGo_quote tail acc
  | cons c l ih =>
      intro acc tail
      rw [escRender_cons]
      by_cases h1 : c = '\n'
      · subst h1
        simp only [reduceIte, List.cons_append, List.nil_append,
          List.append_assoc]
        rw [bLexStrGo_esc, if_pos (by decide), ih]
        simp
      · rw [if_neg h1]
        by_cases h2 : c = '\t'
        · subst h2
          simp only [reduceIte, List.cons_append, List.nil_append,
            List.append_assoc]
          rw [bLexStrGo_esc, if_pos (by decide), ih]
          simp [h1]
        · rw [if_neg h2]
          by_cases h3 : c = '\x22'
          · subst h3
            simp only [reduceIte, List.cons_append, List.nil_append,
              List.append_assoc]
            rw [bLexStrGo_esc, if_pos (by decide), ih]
            simp [h1, h2]
          · rw [if_neg h3]
            by_cases h4 : c = '\x5c'
            · subst h4
              simp only [reduceIte, List.cons_append, List.nil_append,
                List.append_assoc]
              rw [bLexStrGo_esc, if_pos (by decide), ih]
              simp [h1, h2, h3]
            · rw [if_neg h4]
              simp only [List.cons_append, List.nil_append]
              rw [bLexStrGo_plain c _ acc h3 h4, ih]
              simp [h1, h2, h3, h4, List.append_assoc]

theorem escUnesc_esc (c : Char) (rest : List Char) :
    escUnesc ('\x5c' :: c :: rest) =
      (if c = '\x5c' then '\x5c'
       else if c = '\x22' then '\x22'
       else if c = 'n' then '\n'
       else if c = 't' then '\t'
       else c) :: escUnesc rest := rfl

theorem escUnesc_plain (c : Char) (rest : List Char) (h : ¬c = '\x5c') :
    escUnesc (c :: rest) = c :: escUnesc rest := by
  match rest with
  | [] =>
      by_cases hc : c = '\x5c'
      · subst hc; rfl
      · rw [escUnesc]
        simp only [escUnesc]
  | d :: ds =>
      rw [escUnesc]
      · intro c2 r2 e _
        exact h e
      · intro e
        exact List.noConfusion e

theorem escUnesc_escRender : ∀ l : List Char, escUnesc (escRender l) = l := by
  intro l
  induction l with
  | nil => rfl
  | cons c l ih =>
      rw [escRender_cons]
      by_cases h1 : c = '\n'
      · subst h1
        simp only [reduceIte, List.cons_append, List.nil_append]
        rw [escUnesc_esc, ih]
        rfl
      · rw [if_neg h1]
        by_cases h2 : c = '\t'
        · subst h2
          simp only [reduceIte, List.cons_append, List.nil_append]
          rw [escUnesc_esc, ih]
          rfl
        · rw [if_neg h2]
          by_cases h3 : c = '\x22'
          · subst h3
            simp only [reduceIte, List.cons_append, List.nil_append]
            rw [escUnesc_esc, ih]
            rfl
          · rw [if_neg h3]
            by_cases h4 : c = '\x5c'
            · subst h4
              simp only [reduceIte, List.cons_append, List.nil_append]
              rw [escUnesc_esc, ih]
              rfl
            · rw [if_neg h4]
              simp only [List.cons_append, List.nil_append]
              rw [escUnesc_plain c _ h4, ih]

theorem lex_str (s : String) {cs : List Char} {ts : List BTok}
    (h : bLexCanon cs = .ok ts) :
    bLexCanon ('\x22' :: (escRender s.toList ++ '\x22' :: cs))
      = .ok (⟨.kString, s⟩ :: ts) := by
  rw [bLexCanon]
  generalize hL : ('\x22' :: (escRender s.toList ++ '\x22' :: cs)).length = L
  have hLlen : cs.length < L := by
    rw [← hL]; simp [List.length_append]; omega
  rw [bLexGo_cons, bLexConsStep.eq_def]
  rw [if_neg (by simp)]
  rw [show bSymbolTok '\x22' = Option.none from rfl]
  simp only []
  rw [if_neg (by decide), if_neg (by decide), if_neg (by decide),
    if_pos (show True from trivial)]
  rw [bLexStrGo_render s.toList []]
  simp only [List.nil_append]
  rw [bLexGo_canon cs L hLlen, h, escUnesc_escRender]
  have hmk : String.mk s.toList = s := by cases s; rfl
  rw [hmk]

/-- A printable word: nonempty, identifier start, identifier body. -/
def wordOk (w : String) : Bool :=
  match w.toList with
  | [] => false
  | c :: r => bIdentStart c && (c :: r).all isIdentContC

/-- A user identifier the text format can carry: a valid word that is
not one of the reserved words. -/
def bValidIdent (w : String) : Bool :=
  wordOk w && (bKeywordOf w == .kIdent)

/-- Constants the `vm` loader can reproduce: integers within
`int32_t`. -/
def bConstWF : BConst → Bool
  | .intC n => decide (-2147483648 ≤ n ∧ n ≤ 2147483647)
  | _ => true

/-- Instructions the printer and loader can reproduce: an operand is
present exactly when the operation takes one, and fits `int32_t`. -/
def bInstrWF (i : BInstr) : Bool :=
  match i.operand with
  | some v =>
      opHasOperand i.op && decide (-2147483648 ≤ v ∧ v ≤ 2147483647)
  | Option.none => !(opHasOperand i.op)

mutual

/-- Well-formed `Function` trees: the claim's hypotheses on every
nesting level (valid identifiers, constants and operands in `int32_t`
range, operands present exactly where required, `parameter_count` a
`uint32_t` value). -/
def bWellFormed : BFunc → Bool
  | .mk fs cs pc lv lrv fv nm il =>
      bWellFormedList fs && cs.all bConstWF && decide (pc < 4294967296)
      && lv.all bValidIdent && lrv.all bValidIdent && fv.all bValidIdent
      && nm.all bValidIdent && il.all bInstrWF

/-- `bWellFormed` on every function of a nested list. -/
def bWellFormedList : BFuncList → Bool
  | .nil => true
  | .cons f r => bWellFormed f && bWellFormedList r

end

mutual

/-- Every `parameter_count` in the tree also fits in a signed 32-bit
`int` (the range `std::stoi` can reproduce). -/
def bParamsSigned : BFunc → Bool
  | .mk fs _ pc _ _ _ _ _ => decide (pc ≤ 2147483647) && bParamsSignedList fs

/-- `bParamsSigned` on every function of a nested list. -/
def bParamsSignedList : BFuncList → Bool
  | .nil => true
  | .cons f r => bParamsSigned f && bParamsSignedList r

end

mutual

/-- Structural size of a function tree (an induction measure). -/
def bSizeF : BFunc → Nat
  | .mk fs _ _ _ _ _ _ _ => bSizeL fs + 1

/-- Structural size of a nested-function list. -/
def bSizeL : BFuncList → Nat
  | .nil => 1
  | .cons f r => bSizeF f + bSizeL r + 1

end

theorem digitChar_isDigit (d : Nat) : isDigitC (digitChar d) = true := by
  unfold digitChar
  split_ifs <;> decide

theorem natToDecGo_all (fuel : Nat) : ∀ n : Nat,
    (natToDecGo fuel n).all isDigitC = true := by
  induction fuel with
  | zero => intro n; rfl
  | succ f ih =>
      intro n
      rw [natToDecGo]
      split
      · simp [digitChar_isDigit]
      · simp [List.all_append, ih (n / 10), digitChar_isDigit]

theorem natToDec_all (n : Nat) : (natToDec n).all isDigitC = true :=
  natToDecGo_all 12 n

theorem natToDec_ne_nil (n : Nat) : natToDec n ≠ [] := by
  rw [natToDec, natToDecGo]
  split
  · simp
  · simp

theorem lex_natToDec (n : Nat) {cs : List Char} {ts : List BTok}
    (hcs : headNotDigit cs = true) (h : bLexCanon cs = .ok ts) :
    bLexCanon (natToDec n ++ cs)
      = .ok (⟨.kInt, String.mk (natToDec n)⟩ :: ts) := by
  obtain ⟨d0, drest, hd⟩ : ∃ d0 drest, natToDec n = d0 :: drest := by
    cases hnd : natToDec n with
    | nil => exact absurd hnd (natToDec_ne_nil n)
    | cons a b => exact ⟨a, b, rfl⟩
  exact lex_digits _ d0 drest hd (natToDec_all n) hcs h

theorem lex_intToDec (v : Int) {cs : List Char} {ts : List BTok}
    (hcs : headNotDigit cs = true) (h : bLexCanon cs = .ok ts) :
    bLexCanon (intToDec v ++ cs)
      = .ok (⟨.kInt, String.mk (intToDec v)⟩ :: ts) := by
  rw [intToDec]
  by_cases hv : v < 0
  · rw [if_pos hv]
    obtain ⟨d0, drest, hd⟩ : ∃ d0 drest, natToDec v.natAbs = d0 :: drest := by
      cases hnd : natToDec v.natAbs with
      | nil => exact absurd hnd (natToDec_ne_nil _)
      | cons a b => exact ⟨a, b, rfl⟩
    rw [List.cons_append]
    exact lex_negdigits _ d0 drest hd (natToDec_all _) hcs h
  · rw [if_neg hv]
    exact lex_natToDec v.toNat hcs h

theorem lex_wordOk (w : String) (hok : wordOk w = true)
    {cs : List Char} (hcs : headNotIdentCont cs = true)
    {ts : List BTok} (h : bLexCanon cs = .ok ts) :
    bLexCanon (w.toList ++ cs) = .ok (⟨bKeywordOf w, w⟩ :: ts) := by
  rw [wordOk] at hok
  cases hl : w.toList with
  | nil => rw [hl] at hok; exact absurd hok (by simp)
  | cons c r =>
      rw [hl] at hok
      simp only [Bool.and_eq_true] at hok
      have hres := lex_word w c r hl hok.1 hok.2 hcs h
      rw [hl] at hres
      exact hres

theorem lex_ident (w : String) (hw : bValidIdent w = true)
    {cs : List Char} (hcs : headNotIdentCont cs = true)
    {ts : List BTok} (h : bLexCanon cs = .ok ts) :
    bLexCanon (w.toList ++ cs) = .ok (⟨.kIdent, w⟩ :: ts) := by
  rw [bValidIdent, Bool.and_eq_true, beq_iff_eq] at hw
  rw [lex_wordOk w hw.1 hcs h, hw.2]

theorem lex_tabs (k : Nat) (cs : List Char) :
    bLexCanon (tabs k ++ cs) = bLexCanon cs := by
  induction k with
  | zero => rfl
  | succ m ih =>
      rw [tabs, List.replicate_succ, List.cons_append, lex_tab]
      exact ih

theorem mnem_wordOk (op : BOp) : wordOk (mnemonicOf op) = true := by
  cases op <;> rfl

theorem mnem_kind (op : BOp) : bKeywordOf (mnemonicOf op) = mnemonicKind op := by
  cases op <;> rfl

theorem lex_instr (i : BInstr) {cs : List Char}
    (hid : headNotIdentCont cs = true) (hdg : headNotDigit cs = true)
    {ts : List BTok} (h : bLexCanon cs = .ok ts) :
    bLexCanon (bPrintInstr i ++ cs) = .ok (bInstrToks i ++ ts) := by
  rw [bPrintInstr, bInstrToks]
  by_cases hop : opHasOperand i.op = true
  · rw [if_pos hop, if_pos hop]
    simp only [List.append_assoc, List.cons_append, List.nil_append]
    have h1 : bLexCanon (intToDec (i.operand.getD 0) ++ cs)
        = .ok (⟨.kInt, String.mk (intToDec (i.operand.getD 0))⟩ :: ts) :=
      lex_intToDec _ hdg h
    have h2 : bLexCanon ('\t' :: (intToDec (i.operand.getD 0) ++ cs))
        = .ok (⟨.kInt, String.mk (intToDec (i.operand.getD 0))⟩ :: ts) :=
      (lex_tab _).trans h1
    have h3 := lex_wordOk (mnemonicOf i.op) (mnem_wordOk _) (by rfl) h2
    rw [mnem_kind] at h3
    exact h3
  · rw [if_neg hop, if_neg hop]
    simp only [List.append_nil, List.nil_append]
    have h3 := lex_wordOk (mnemonicOf i.op) (mnem_wordOk _) hid h
    rw [mnem_kind] at h3
    exact h3

theorem lex_instrList (k : Nat) (il : List BInstr) : ∀ (cs : List Char)
    (ts : List BTok), bLexCanon cs = .ok ts →
    bLexCanon (bPrintInstrList k il ++ cs) = .ok (bInstrListToks il ++ ts) := by
  induction il with
  | nil => intro cs ts h; simpa using h
  | cons i rest ih =>
      intro cs ts h
      rw [bPrintInstrList, bInstrListToks]
      simp only [List.append_assoc, List.cons_append, List.nil_append]
      have h1 := ih cs ts h
      have h2 : bLexCanon ('\n' :: (bPrintInstrList k rest ++ cs))
          = .ok (bInstrListToks rest ++ ts) := (lex_nl _).trans h1
      have h3 := lex_instr i (by rfl) (by rfl) h2
      have h4 := (lex_tabs k _).trans h3
      simpa [List.append_assoc] using h4

theorem lex_identJoin : ∀ (l : List String), l.all bValidIdent = true →
    ∀ (cs : List Char) (ts : List BTok), headNotIdentCont cs = true →
    bLexCanon cs = .ok ts →
    bLexCanon (joinCommaSp (l.map strL) ++ cs)
      = .ok (identToksJoined l ++ ts) := by
  intro l
  induction l with
  | nil => intro _ cs ts _ h; simpa using h
  | cons w rest ih =>
      intro hall cs ts hcs h
      simp only [List.all_cons, Bool.and_eq_true] at hall
      cases rest with
      | nil =>
          simp only [List.map, joinCommaSp, identToksJoined,
            List.cons_append, List.nil_append]
          exact lex_ident w hall.1 hcs h
      | cons y r =>
          simp only [List.map, joinCommaSp, identToksJoined]
          simp only [List.append_assoc, List.cons_append, List.nil_append]
          have h1 := ih hall.2 cs ts hcs h
          have h2 : bLexCanon (' ' :: (joinCommaSp ((y :: r).map strL) ++ cs))
              = .ok (identToksJoined (y :: r) ++ ts) := by
            rw [lex_space]
            simpa using h1
          have h3 := lex_sym (show bSymbolTok ',' = some .kComma from rfl) h2
          have h4 := lex_ident w hall.1 (by rfl) h3
          simpa [List.append_assoc] using h4

theorem lex_identLine (k : Nat) (name : String) (hok : wordOk name = true)
    (l : List String) (hl : l.all bValidIdent = true)
    {cs : List Char} {ts : List BTok} (h : bLexCanon cs = .ok ts) :
    bLexCanon (bPrintIdentLine k name l ++ cs)
      = .ok (⟨bKeywordOf name, name⟩ :: ⟨.kAssign, "="⟩ :: ⟨.kLBracket, "["⟩ ::
          (identToksJoined l
            ++ (⟨.kRBracket, "]"⟩ :: ⟨.kComma, ","⟩ :: ts))) := by
  rw [bPrintIdentLine]
  simp only [List.append_assoc, List.cons_append, List.nil_append]
  have h1 : bLexCanon (strL "],\n" ++ cs)
      = .ok (⟨.kRBracket, "]"⟩ :: ⟨.kComma, ","⟩ :: ts) :=
    lex_sym (by rfl) (lex_sym (by rfl) ((lex_nl cs).trans h))
  have h2 := lex_identJoin l hl _ _ (by rfl) h1
  have h3 : bLexCanon (strL " = [" ++ (joinCommaSp (l.map strL)
      ++ (strL "],\n" ++ cs)))
      = .ok (⟨.kAssign, "="⟩ :: ⟨.kLBracket, "["⟩ ::
          (identToksJoined l
            ++ (⟨.kRBracket, "]"⟩ :: ⟨.kComma, ","⟩ :: ts))) :=
    (lex_space _).trans
      (lex_sym (by rfl) ((lex_space _).trans (lex_sym (by rfl) h2)))
  have h4 := lex_wordOk name hok (by rfl) h3
  have h5 := (lex_tabs k _).trans h4
  exact h5

theorem lex_const (c : BConst) {cs : List Char}
    (hid : headNotIdentCont cs = true) (hdg : headNotDigit cs = true)
    {ts : List BTok} (h : bLexCanon cs = .ok ts) :
    bLexCanon (bPrintConst c ++ cs) = .ok (bConstTok c :: ts) := by
  cases c with
  | noneC => exact lex_wordOk "None" rfl hid h
  | boolC b =>
      cases b with
      | true => exact lex_wordOk "true" rfl hid h
      | false => exact lex_wordOk "false" rfl hid h
  | intC n => exact lex_intToDec n hdg h
  | strC s =>
      rw [bPrintConst]
      simp only [List.cons_append, List.append_assoc, List.singleton_append]
      exact lex_str s h

theorem lex_constJoin : ∀ (l : List BConst) (cs : List Char)
    (ts : List BTok), headNotIdentCont cs = true → headNotDigit cs = true →
    bLexCanon cs = .ok ts →
    bLexCanon (joinCommaSp (l.map bPrintConst) ++ cs)
      = .ok (constToksJoined l ++ ts) := by
  intro l
  induction l with
  | nil => intro cs ts _ _ h; simpa using h
  | cons c rest ih =>
      intro cs ts hid hdg h
      cases rest with
      | nil =>
          simp only [List.map, joinCommaSp, constToksJoined,
            List.cons_append, List.nil_append]
          exact lex_const c hid hdg h
      | cons d r =>
          simp only [List.map, joinCommaSp, constToksJoined]
          simp only [List.append_assoc, List.cons_append, List.nil_append]
          have h1 := ih cs ts hid hdg h
          have h2 : bLexCanon (' ' :: (joinCommaSp ((d :: r).map bPrintConst)
              ++ cs)) = .ok (constToksJoined (d :: r) ++ ts) := by
            rw [lex_space]
            simpa using h1
          have h3 := lex_sym
            (show bSymbolTok ',' = some .kComma from rfl) h2
          have h4 := lex_const c (by rfl) (by rfl) h3
          simpa [List.append_assoc] using h4

theorem lex_funcTail (k : Nat) (csl : List BConst) (pc : Nat)
    (lv lrv fv nm : List String) (il : List BInstr)
    (hlv : lv.all bValidIdent = true) (hlrv : lrv.all bValidIdent = true)
    (hfv : fv.all bValidIdent = true) (hnm : nm.all bValidIdent = true)
    {tail : List Char} {ts : List BTok} (h : bLexCanon tail = .ok ts) :
    bLexCanon (tabs (k+1) ++ strL "constants = ["
      ++ joinCommaSp (List.map bPrintConst csl) ++ strL "],\n"
      ++ tabs (k+1) ++ strL "parameter_count = " ++ natToDec pc
      ++ strL ",\n"
      ++ bPrintIdentLine (k+1) "local_vars" lv
      ++ bPrintIdentLine (k+1) "local_ref_vars" lrv
      ++ bPrintIdentLine (k+1) "free_vars" fv
      ++ bPrintIdentLine (k+1) "names" nm
      ++ tabs (k+1) ++ strL "instructions = " ++ [ '\n' ]
      ++ tabs (k+1) ++ strL "[" ++ [ '\n' ]
      ++ bPrintInstrList (k+2) il
      ++ tabs (k+1) ++ strL "]" ++ [ '\n' ]
      ++ tabs k ++ strL "\x7d" ++ tail)
    = .ok ([⟨.kConstants, "constants"⟩, ⟨.kAssign, "="⟩, ⟨.kLBracket, "["⟩]
      ++ constToksJoined csl
      ++ [⟨.kRBracket, "]"⟩, ⟨.kComma, ","⟩,
          ⟨.kParameterCount, "parameter_count"⟩, ⟨.kAssign, "="⟩,
          ⟨.kInt, String.mk (natToDec pc)⟩, ⟨.kComma, ","⟩,
          ⟨.kLocalVars, "local_vars"⟩, ⟨.kAssign, "="⟩, ⟨.kLBracket, "["⟩]
      ++ identToksJoined lv
      ++ [⟨.kRBracket, "]"⟩, ⟨.kComma, ","⟩,
          ⟨.kLocalRefVars, "local_ref_vars"⟩, ⟨.kAssign, "="⟩,
          ⟨.kLBracket, "["⟩]
      ++ identToksJoined lrv
      ++ [⟨.kRBracket, "]"⟩, ⟨.kComma, ","⟩,
          ⟨.kFreeVars, "free_vars"⟩, ⟨.kAssign, "="⟩, ⟨.kLBracket, "["⟩]
      ++ identToksJoined fv
      ++ [⟨.kRBracket, "]"⟩, ⟨.kComma, ","⟩,
          ⟨.kNames, "names"⟩, ⟨.kAssign, "="⟩, ⟨.kLBracket, "["⟩]
      ++ identToksJoined nm
      ++ [⟨.kRBracket, "]"⟩, ⟨.kComma, ","⟩,
          ⟨.kInstructions, "instructions"⟩, ⟨.kAssign, "="⟩,
          ⟨.kLBracket, "["⟩]
      ++ bInstrListToks il
      ++ [⟨.kRBracket, "]"⟩, ⟨.kRBrace, "\x7d"⟩] ++ ts) := by
  simp only [List.append_assoc, List.cons_append, List.nil_append]
  have t1 : bLexCanon (strL "\x7d" ++ tail)
      = .ok (⟨.kRBrace, "\x7d"⟩ :: ts) :=
    lex_sym (show bSymbolTok '\x7d' = some .kRBrace from rfl) h
  have t2 := (lex_tabs k _).trans t1
  have t3 := (lex_nl _).trans t2
  have t4 : bLexCanon (strL "]" ++ ('\n' :: (tabs k ++ (strL "\x7d" ++ tail))))
      = .ok (⟨.kRBracket, "]"⟩ :: ⟨.kRBrace, "\x7d"⟩ :: ts) :=
    lex_sym (show bSymbolTok ']' = some .kRBracket from rfl) t3
  have t5 := (lex_tabs (k+1) _).trans t4
  have t6 := lex_instrList (k+2) il _ _ t5
  have t7 := (lex_nl _).trans t6
  have t8 : bLexCanon (strL "[" ++ ('\n' :: (bPrintInstrList (k+2) il
      ++ (tabs (k+1) ++ (strL "]" ++ ('\n'
      :: (tabs k ++ (strL "\x7d" ++ tail))))))))
      = .ok (⟨.kLBracket, "["⟩ :: (bInstrListToks il
        ++ (⟨.kRBracket, "]"⟩ :: ⟨.kRBrace, "\x7d"⟩ :: ts))) :=
    lex_sym (show bSymbolTok '[' = some .kLBracket from rfl) t7
  have t9 := (lex_tabs (k+1) _).trans t8
  have t10 := (lex_nl _).trans t9
  have t11a := (lex_space _).trans t10
  have t11b := lex_sym (show bSymbolTok '=' = some .kAssign from rfl) t11a
  have t11c := (lex_space _).trans t11b
  have t11 : bLexCanon (strL "instructions = " ++ ('\n' :: (tabs (k+1)
      ++ (strL "[" ++ ('\n' :: (bPrintInstrList (k+2) il
      ++ (tabs (k+1) ++ (strL "]" ++ ('\n'
      :: (tabs k ++ (strL "\x7d" ++ tail)))))))))))
      = .ok (⟨.kInstructions, "instructions"⟩ :: ⟨.kAssign, "="⟩
        :: ⟨.kLBracket, "["⟩ :: (bInstrListToks il
        ++ (⟨.kRBracket, "]"⟩ :: ⟨.kRBrace, "\x7d"⟩ :: ts))) :=
    lex_wordOk "instructions" rfl (by rfl) t11c
  have t12 := (lex_tabs (k+1) _).trans t11
  have t13 := lex_identLine (k+1) "names" rfl nm hnm t12
  have t14 := lex_identLine (k+1) "free_vars" rfl fv hfv t13
  have t15 := lex_identLine (k+1) "local_ref_vars" rfl lrv hlrv t14
  have t16 := lex_identLine (k+1) "local_vars" rfl lv hlv t15
  have t17a := (lex_nl _).trans t16
  have t17 := lex_sym (show bSymbolTok ',' = some .kComma from rfl) t17a
  have t18 := lex_natToDec pc (by rfl) t17
  have t19a := (lex_space _).trans t18
  have t19b := lex_sym (show bSymbolTok '=' = some .kAssign from rfl) t19a
  have t19c := (lex_space _).trans t19b
  have t19 := lex_wordOk "parameter_count" rfl (by rfl) t19c
  have t20 := (lex_tabs (k+1) _).trans t19
  have t21a := (lex_nl _).trans t20
  have t21b := lex_sym (show bSymbolTok ',' = some .kComma from rfl) t21a
  have t21 := lex_sym (show bSymbolTok ']' = some .kRBracket from rfl) t21b
  have t22 := lex_constJoin csl _ _ (by rfl) (by rfl) t21
  have t23a := lex_sym (show bSymbolTok '[' = some .kLBracket from rfl) t22
  have t23b := (lex_space _).trans t23a
  have t23c := lex_sym (show bSymbolTok '=' = some .kAssign from rfl) t23b
  have t23d := (lex_space _).trans t23c
  have t23 := lex_wordOk "constants" rfl (by rfl) t23d
  exact (lex_tabs (k+1) _).trans t23

theorem bPrintFuncList_nil (k : Nat) : bPrintFuncList k .nil = [] := rfl

theorem bPrintFuncList_one (k : Nat) (f : BFunc) :
    bPrintFuncList k (.cons f .nil) = bPrintFunc k f := rfl

theorem bPrintFuncList_cons (k : Nat) (f g : BFunc) (r : BFuncList) :
    bPrintFuncList k (.cons f (.cons g r))
      = bPrintFunc k f ++ strL ",\n" ++ bPrintFuncList k (.cons g r) := rfl

theorem bFuncListToks_nil : bFuncListToks .nil = [] := rfl

theorem bFuncListToks_one (f : BFunc) :
    bFuncListToks (.cons f .nil) = bFuncToks f := rfl

theorem bFuncListToks_cons (f g : BFunc) (r : BFuncList) :
    bFuncListToks (.cons f (.cons g r))
      = bFuncToks f ++ ⟨.kComma, ","⟩ :: bFuncListToks (.cons g r) := rfl

theorem bFuncToks_unfold (fs : BFuncList) (csl : List BConst) (pc : Nat)
    (lv lrv fv nm : List String) (il : List BInstr) :
    bFuncToks (.mk fs csl pc lv lrv fv nm il) =
      [⟨.kFunction, "function"⟩, ⟨.kLBrace, "\x7b"⟩,
       ⟨.kFunctions, "functions"⟩, ⟨.kAssign, "="⟩, ⟨.kLBracket, "["⟩]
      ++ bFuncListToks fs
      ++ [⟨.kRBracket, "]"⟩, ⟨.kComma, ","⟩,
          ⟨.kConstants, "constants"⟩, ⟨.kAssign, "="⟩, ⟨.kLBracket, "["⟩]
      ++ constToksJoined csl
      ++ [⟨.kRBracket, "]"⟩, ⟨.kComma, ","⟩,
          ⟨.kParameterCount, "parameter_count"⟩, ⟨.kAssign, "="⟩,
          ⟨.kInt, String.mk (natToDec pc)⟩, ⟨.kComma, ","⟩,
          ⟨.kLocalVars, "local_vars"⟩, ⟨.kAssign, "="⟩, ⟨.kLBracket, "["⟩]
      ++ identToksJoined lv
      ++ [⟨.kRBracket, "]"⟩, ⟨.kComma, ","⟩,
          ⟨.kLocalRefVars, "local_ref_vars"⟩, ⟨.kAssign, "="⟩,
          ⟨.kLBracket, "["⟩]
      ++ identToksJoined lrv
      ++ [⟨.kRBracket, "]"⟩, ⟨.kComma, ","⟩,
          ⟨.kFreeVars, "free_vars"⟩, ⟨.kAssign, "="⟩, ⟨.kLBracket, "["⟩]
      ++ identToksJoined fv
      ++ [⟨.kRBracket, "]"⟩, ⟨.kComma, ","⟩,
          ⟨.kNames, "names"⟩, ⟨.kAssign, "="⟩, ⟨.kLBracket, "["⟩]
      ++ identToksJoined nm
      ++ [⟨.kRBracket, "]"⟩, ⟨.kComma, ","⟩,
          ⟨.kInstructions, "instructions"⟩, ⟨.kAssign, "="⟩,
          ⟨.kLBracket, "["⟩]
      ++ bInstrListToks il
      ++ [⟨.kRBracket, "]"⟩, ⟨.kRBrace, "\x7d"⟩] := rfl

theorem bPrintFunc_unfold_nil (k : Nat) (csl : List BConst)
    (pc : Nat) (lv lrv fv nm : List String) (il : List BInstr) :
    bPrintFunc k (.mk .nil csl pc lv lrv fv nm il) =
      tabs k ++ strL "function" ++ [ '\n' ]
      ++ tabs k ++ strL "\x7b" ++ [ '\n' ]
      ++ tabs (k + 1) ++ strL "functions ="
      ++ strL " [],\n"
      ++ tabs (k + 1) ++ strL "constants = ["
      ++ joinCommaSp (csl.map bPrintConst) ++ strL "],\n"
      ++ tabs (k + 1) ++ strL "parameter_count = " ++ natToDec pc
      ++ strL ",\n"
      ++ bPrintIdentLine (k + 1) "local_vars" lv
      ++ bPrintIdentLine (k + 1) "local_ref_vars" lrv
      ++ bPrintIdentLine (k + 1) "free_vars" fv
      ++ bPrintIdentLine (k + 1) "names" nm
      ++ tabs (k + 1) ++ strL "instructions = " ++ [ '\n' ]
      ++ tabs (k + 1) ++ strL "[" ++ [ '\n' ]
      ++ bPrintInstrList (k + 2) il
      ++ tabs (k + 1) ++ strL "]" ++ [ '\n' ]
      ++ tabs k ++ strL "\x7d" := rfl

theorem bPrintFunc_unfold_cons (k : Nat) (f0 : BFunc) (r : BFuncList)
    (csl : List BConst) (pc : Nat) (lv lrv fv nm : List String)
    (il : List BInstr) :
    bPrintFunc k (.mk (.cons f0 r) csl pc lv lrv fv nm il) =
      tabs k ++ strL "function" ++ [ '\n' ]
      ++ tabs k ++ strL "\x7b" ++ [ '\n' ]
      ++ tabs (k + 1) ++ strL "functions ="
      ++ ([ '\n' ] ++ tabs (k + 1) ++ strL "[" ++ [ '\n' ]
          ++ bPrintFuncList (k + 2) (.cons f0 r)
          ++ [ '\n' ] ++ tabs (k + 1) ++ strL "]," ++ [ '\n' ])
      ++ tabs (k + 1) ++ strL "constants = ["
      ++ joinCommaSp (csl.map bPrintConst) ++ strL "],\n"
      ++ tabs (k + 1) ++ strL "parameter_count = " ++ natToDec pc
      ++ strL ",\n"
      ++ bPrintIdentLine (k + 1) "local_vars" lv
      ++ bPrintIdentLine (k + 1) "local_ref_vars" lrv
      ++ bPrintIdentLine (k + 1) "free_vars" fv
      ++ bPrintIdentLine (k + 1) "names" nm
      ++ tabs (k + 1) ++ strL "instructions = " ++ [ '\n' ]
      ++ tabs (k + 1) ++ strL "[" ++ [ '\n' ]
      ++ bPrintInstrList (k + 2) il
      ++ tabs (k + 1) ++ strL "]" ++ [ '\n' ]
      ++ tabs k ++ strL "\x7d" := rfl

theorem bSizeF_mk (fs : BFuncList) (csl : List BConst) (pc : Nat)
    (lv lrv fv nm : List String) (il : List BInstr) :
    bSizeF (.mk fs csl pc lv lrv fv nm il) = bSizeL fs + 1 := rfl

theorem bSizeL_cons_eq (f : BFunc) (r : BFuncList) :
    bSizeL (.cons f r) = bSizeF f + bSizeL r + 1 := rfl

theorem bWellFormed_mk (fs : BFuncList) (csl : List BConst) (pc : Nat)
    (lv lrv fv nm : List String) (il : List BInstr) :
    bWellFormed (.mk fs csl pc lv lrv fv nm il)
      = (bWellFormedList fs && csl.all bConstWF && decide (pc < 4294967296)
        && lv.all bValidIdent && lrv.all bValidIdent && fv.all bValidIdent
        && nm.all bValidIdent && il.all bInstrWF) := rfl

theorem bWellFormedList_cons_eq (f : BFunc) (r : BFuncList) :
    bWellFormedList (.cons f r)
      = (bWellFormed f && bWellFormedList r) := rfl

theorem bSizeF_pos (T : BFunc) : 1 ≤ bSizeF T := by
  cases T; simp [bSizeF]

theorem bSizeL_pos (fs : BFuncList) : 1 ≤ bSizeL fs := by
  cases fs <;> simp [bSizeL]

set_option maxHeartbeats 2000000 in
theorem lex_print_all : ∀ n : Nat,
    (∀ (T : BFunc) (k : Nat), bSizeF T ≤ n → bWellFormed T = true →
      ∀ (tail : List Char) (ts : List BTok), bLexCanon tail = .ok ts →
      bLexCanon (bPrintFunc k T ++ tail) = .ok (bFuncToks T ++ ts)) ∧
    (∀ (fs : BFuncList) (k : Nat), bSizeL fs ≤ n →
      bWellFormedList fs = true →
      ∀ (tail : List Char) (ts : List BTok), bLexCanon tail = .ok ts →
      bLexCanon (bPrintFuncList k fs ++ tail)
        = .ok (bFuncListToks fs ++ ts)) := by
  intro n
  induction n with
  | zero =>
      constructor
      · intro T k hs
        exact absurd hs (by have := bSizeF_pos T; omega)
      · intro fs k hs
        exact absurd hs (by have := bSizeL_pos fs; omega)
  | succ n ih =>
      constructor
      · intro T k hs hwf tail ts h
        cases T with
        | mk fs csl pc lv lrv fv nm il =>
            rw [bWellFormed_mk] at hwf
            simp only [Bool.and_eq_true] at hwf
            obtain ⟨⟨⟨⟨⟨⟨⟨hfs, hcs⟩, hpc⟩, hlv⟩, hlrv⟩, hfv⟩, hnm⟩, hil⟩ := hwf
            have hszfs : bSizeL fs ≤ n := by
              rw [bSizeF_mk] at hs; omega
            cases fs with
            | nil =>
                rw [bPrintFunc_unfold_nil, bFuncToks_unfold,
                  bFuncListToks_nil]
                simp only [List.append_assoc, List.cons_append,
                  List.nil_append]
                have j0 := lex_funcTail k csl pc lv lrv fv nm il
                  hlv hlrv hfv hnm h
                simp only [List.append_assoc, List.cons_append,
                  List.nil_append] at j0
                have j1 := (lex_nl _).trans j0
                have j2 := lex_sym
                  (show bSymbolTok ',' = some .kComma from rfl) j1
                have j3 := lex_sym
                  (show bSymbolTok ']' = some .kRBracket from rfl) j2
                have j4 := lex_sym
                  (show bSymbolTok '[' = some .kLBracket from rfl) j3
                have j5 := (lex_space _).trans j4
                have j6 := lex_sym
                  (show bSymbolTok '=' = some .kAssign from rfl) j5
                have j7 := (lex_space _).trans j6
                have j8 := lex_wordOk "functions" rfl (by rfl) j7
                have j9 := (lex_tabs (k+1) _).trans j8
                have j10 := (lex_nl _).trans j9
                have j11 := lex_sym
                  (show bSymbolTok '\x7b' = some .kLBrace from rfl) j10
                have j12 := (lex_tabs k _).trans j11
                have j13 := (lex_nl _).trans j12
                have j14 := lex_wordOk "function" rfl (by rfl) j13
                exact (lex_tabs k _).trans j14
            | cons f0 r =>
                rw [bPrintFunc_unfold_cons, bFuncToks_unfold]
                simp only [List.append_assoc, List.cons_append,
                  List.nil_append]
                have j0 := lex_funcTail k csl pc lv lrv fv nm il
                  hlv hlrv hfv hnm h
                simp only [List.append_assoc, List.cons_append,
                  List.nil_append] at j0
                have j1 := (lex_nl _).trans j0
                have j2b := lex_sym
                  (show bSymbolTok ',' = some .kComma from rfl) j1
                have j2 := lex_sym
                  (show bSymbolTok ']' = some .kRBracket from rfl) j2b
                have j3 := (lex_tabs (k+1) _).trans j2
                have j4 := (lex_nl _).trans j3
                have j5 := ih.2 (.cons f0 r) (k+2) hszfs hfs _ _ j4
                have j6 := (lex_nl _).trans j5
                have j7 := lex_sym
                  (show bSymbolTok '[' = some .kLBracket from rfl) j6
                have j8 := (lex_tabs (k+1) _).trans j7
                have j9 := (lex_nl _).trans j8
                have j10 := lex_sym
                  (show bSymbolTok '=' = some .kAssign from rfl) j9
                have j11 := (lex_space _).trans j10
                have j12 := lex_wordOk "functions" rfl (by rfl) j11
                have j13 := (lex_tabs (k+1) _).trans j12
                have j14 := (lex_nl _).trans j13
                have j15 := lex_sym
                  (show bSymbolTok '\x7b' = some .kLBrace from rfl) j14
                have j16 := (lex_tabs k _).trans j15
                have j17 := (lex_nl _).trans j16
                have j18 := lex_wordOk "function" rfl (by rfl) j17
                exact (lex_tabs k _).trans j18
      · intro fs k hs hwfl tail ts h
        cases fs with
        | nil =>
            rw [bPrintFuncList_nil, bFuncListToks_nil]
            simpa using h
        | cons f r =>
            rw [bWellFormedList_cons_eq] at hwfl
            simp only [Bool.and_eq_true] at hwfl
            have hsz : bSizeF f ≤ n ∧ bSizeL r ≤ n := by
              rw [bSizeL_cons_eq] at hs
              have h1 := bSizeF_pos f
              have h2 := bSizeL_pos r
              omega
            cases r with
            | nil =>
                rw [bPrintFuncList_one, bFuncListToks_one]
                exact ih.1 f k hsz.1 hwfl.1 tail ts h
            | cons g r2 =>
                rw [bPrintFuncList_cons, bFuncListToks_cons]
                simp only [List.append_assoc, List.cons_append,
                  List.nil_append]
                have m1 := ih.2 (.cons g r2) k hsz.2 hwfl.2 tail ts h
                have m2 := (lex_nl _).trans m1
                have m3 := lex_sym
                  (show bSymbolTok ',' = some .kComma from rfl) m2
                have m4 := ih.1 f k hsz.1 hwfl.1 _ _ m3
                simpa [List.append_assoc] using m4


theorem bLex_bPrint (T : BFunc) (h : bWellFormed T = true) :
    bLex (bPrint T) = .ok (bFuncToks T) := by
  have hmain := (lex_print_all (bSizeF T)).1 T 0 (Nat.le_refl _) h [] [] rfl
  rw [List.append_nil, List.append_nil] at hmain
  rw [bLex, bPrint]
  exact hmain

theorem digitsVal_append (a : List Char) (c : Char) :
    digitsVal (a ++ [c]) = digitsVal a * 10 + (c.toNat - 48) := by
  rw [digitsVal, digitsVal, List.foldl_append]
  rfl

theorem digitChar_val (d : Nat) (h : d < 10) : (digitChar d).toNat - 48 = d := by
  interval_cases d <;> rfl

theorem natToDecGo_val : ∀ (fuel : Nat), ∀ n : Nat, n < 10 ^ fuel →
    digitsVal (natToDecGo fuel n) = n := by
  intro fuel
  induction fuel with
  | zero =>
      intro n h
      have hn : n = 0 := by simpa using h
      subst hn; rfl
  | succ f ih =>
      intro n h
      rw [natToDecGo]
      split
      · next hlt =>
          have h1 : digitsVal [digitChar n] = (digitChar n).toNat - 48 := by
            rw [digitsVal]; simp
          rw [h1, digitChar_val n hlt]
      · next hge =>
          have hdiv : n / 10 < 10 ^ f := by
            have hpow : (10 : Nat) ^ (f + 1) = 10 * 10 ^ f := by ring
            rw [hpow] at h
            exact Nat.div_lt_of_lt_mul h
          rw [digitsVal_append, ih (n / 10) hdiv,
            digitChar_val (n % 10) (Nat.mod_lt _ (by norm_num))]
          omega

theorem natToDec_val (n : Nat) (h : n < 4294967296) :
    digitsVal (natToDec n) = n := by
  apply natToDecGo_val 12 n
  have : (10 : Nat) ^ 12 = 1000000000000 := by norm_num
  omega

theorem natToDec_headNotMinus (n : Nat) :
    (natToDec n).head? ≠ some '-' := by
  obtain ⟨d0, drest, hd⟩ : ∃ d0 drest, natToDec n = d0 :: drest := by
    cases hnd : natToDec n with
    | nil => exact absurd hnd (natToDec_ne_nil n)
    | cons a b => exact ⟨a, b, rfl⟩
  have hdig : isDigitC d0 = true := by
    have := natToDec_all n
    rw [hd] at this
    simp only [List.all_cons, Bool.and_eq_true] at this
    exact this.1
  rw [hd]
  intro hcon
  simp only [List.head?_cons, Option.some.injEq] at hcon
  subst hcon
  exact absurd hdig (by decide)

theorem bStoi_natToDec (n : Nat) (h : n ≤ 2147483647) :
    bStoi (String.mk (natToDec n)) = .ok (Int.ofNat n) := by
  rw [bStoi]
  have htl : (String.mk (natToDec n)).toList = natToDec n := rfl
  simp only [htl]
  rw [if_neg (natToDec_headNotMinus n)]
  rw [natToDec_val n (by omega)]
  rw [if_pos (by simp only [Int.ofNat_eq_coe]; constructor <;> omega)]

theorem bStoi_intToDec (v : Int) (h1 : -2147483648 ≤ v)
    (h2 : v ≤ 2147483647) :
    bStoi (String.mk (intToDec v)) = .ok v := by
  rw [intToDec]
  by_cases hv : v < 0
  · rw [if_pos hv, bStoi]
    have htl : (String.mk ('-' :: natToDec v.natAbs)).toList
        = '-' :: natToDec v.natAbs := rfl
    simp only [htl, List.head?_cons, List.tail_cons]
    simp only [reduceIte]
    rw [natToDec_val v.natAbs (by omega)]
    have hval : -(Int.ofNat v.natAbs) = v := by
      simp only [Int.ofNat_eq_coe]
      omega
    rw [hval]
    rw [if_pos (by constructor <;> omega)]
  · rw [if_neg hv]
    have := bStoi_natToDec v.toNat (by omega)
    have hcast : Int.ofNat v.toNat = v := by
      simp only [Int.ofNat_eq_coe]
      omega
    rw [hcast] at this
    exact this

/-- The token form consumed by the ident-list comma loop. -/
def identLoopForm : List String → List BTok
  | [] => []
  | y :: r => ⟨.kComma, ","⟩ :: ⟨.kIdent, y⟩ :: identLoopForm r

theorem identToksJoined_eq : ∀ (w : String) (l : List String),
    identToksJoined (w :: l) = ⟨.kIdent, w⟩ :: identLoopForm l := by
  intro w l
  induction l generalizing w with
  | nil => rfl
  | cons y r ih =>
      rw [identToksJoined, identLoopForm]
      rw [ih y]

theorem pbIdentLoop_step (s w : String) (rest : List BTok) :
    pbIdentLoop (⟨.kComma, s⟩ :: ⟨.kIdent, w⟩ :: rest)
      = (w :: (pbIdentLoop rest).1, (pbIdentLoop rest).2) := rfl

theorem pbIdentLoop_form : ∀ (l : List String) (s : String)
    (r2 : List BTok),
    pbIdentLoop (identLoopForm l ++ ⟨.kRBracket, s⟩ :: r2)
      = (l, ⟨.kRBracket, s⟩ :: r2) := by
  intro l
  induction l with
  | nil => intro s r2; rfl
  | cons y r ih =>
      intro s r2
      rw [identLoopForm, List.cons_append, List.cons_append,
        pbIdentLoop_step, ih s r2]

theorem pbIdentListStar_toks : ∀ (l : List String) (s : String)
    (r2 : List BTok),
    pbIdentListStar (identToksJoined l ++ ⟨.kRBracket, s⟩ :: r2)
      = .ok (l, ⟨.kRBracket, s⟩ :: r2) := by
  intro l s r2
  cases l with
  | nil => rfl
  | cons w r =>
      rw [identToksJoined_eq, List.cons_append]
      show pbIdentListPlus (⟨.kIdent, w⟩
        :: (identLoopForm r ++ ⟨.kRBracket, s⟩ :: r2)) = _
      show Except.ok (w :: (pbIdentLoop (identLoopForm r
        ++ ⟨.kRBracket, s⟩ :: r2)).1,
        (pbIdentLoop (identLoopForm r ++ ⟨.kRBracket, s⟩ :: r2)).2) = _
      rw [pbIdentLoop_form r s r2]

/-- The token form consumed by the constant-list comma loop. -/
def constLoopForm : List BConst → List BTok
  | [] => []
  | d :: r => ⟨.kComma, ","⟩ :: bConstTok d :: constLoopForm r

theorem constToksJoined_eq : ∀ (c : BConst) (l : List BConst),
    constToksJoined (c :: l) = bConstTok c :: constLoopForm l := by
  intro c l
  induction l generalizing c with
  | nil => rfl
  | cons d r ih =>
      rw [constToksJoined, constLoopForm]
      rw [ih d]

theorem pbConstHead_tok (c : BConst) (hwf : bConstWF c = true) :
    pbConstHead (bConstTok c).kind (bConstTok c).text = .ok c := by
  cases c with
  | noneC => rfl
  | boolC b => cases b <;> rfl
  | intC n =>
      show pbConstHead .kInt (String.mk (intToDec n)) = .ok (.intC n)
      rw [bConstWF] at hwf
      simp only [decide_eq_true_eq] at hwf
      show (do
        let v ← bStoi (String.mk (intToDec n))
        Except.ok (BConst.intC v)) = .ok (.intC n)
      rw [bStoi_intToDec n hwf.1 hwf.2]
      rfl
  | strC s => rfl

theorem bConstTok_kind_ne (c : BConst) :
    ¬(bConstTok c).kind = .kRBracket := by
  cases c with
  | noneC => decide
  | boolC b => cases b <;> decide
  | intC n => simp [bConstTok]
  | strC s => simp [bConstTok]

theorem pbConstLoop_step (s : String) (t : BTok) (rest2 : List BTok) :
    pbConstLoop (⟨.kComma, s⟩ :: t :: rest2)
      = (if t.kind = .kRBracket then .ok ([], t :: rest2)
         else do
           let c ← pbConstHead t.kind t.text
           let (cs, rest') ← pbConstLoop rest2
           .ok (c :: cs, rest')) := rfl

theorem pbConstLoop_form : ∀ (l : List BConst), l.all bConstWF = true →
    ∀ (s : String) (r2 : List BTok),
    pbConstLoop (constLoopForm l ++ ⟨.kRBracket, s⟩ :: r2)
      = .ok (l, ⟨.kRBracket, s⟩ :: r2) := by
  intro l
  induction l with
  | nil => intro _ s r2; rfl
  | cons d r ih =>
      intro hwf s r2
      simp only [List.all_cons, Bool.and_eq_true] at hwf
      rw [constLoopForm, List.cons_append, List.cons_append]
      cases hr : constLoopForm r ++ BTok.mk .kRBracket s :: r2 with
      | nil => exact absurd hr (by cases r <;> simp [constLoopForm])
      | cons t rest2 =>
          rw [pbConstLoop_step, if_neg (bConstTok_kind_ne d),
            pbConstHead_tok d hwf.1]
          rw [← hr, ih hwf.2 s r2]
          rfl

theorem pbConstListStar_toks : ∀ (l : List BConst),
    l.all bConstWF = true → ∀ (s : String) (r2 : List BTok),
    pbConstListStar (constToksJoined l ++ ⟨.kRBracket, s⟩ :: r2)
      = .ok (l, ⟨.kRBracket, s⟩ :: r2) := by
  intro l hwf s r2
  cases l with
  | nil => rfl
  | cons c r =>
      simp only [List.all_cons, Bool.and_eq_true] at hwf
      rw [constToksJoined_eq, List.cons_append]
      show (if (bConstTok c).kind = .kRBracket
        then Except.ok ([], bConstTok c :: (constLoopForm r
          ++ BTok.mk .kRBracket s :: r2))
        else pbConstListPlus (bConstTok c :: (constLoopForm r
          ++ BTok.mk .kRBracket s :: r2))) = _
      rw [if_neg (bConstTok_kind_ne c)]
      show (do
        let c2 ← pbConstHead (bConstTok c).kind (bConstTok c).text
        let (cs, rest') ← pbConstLoop (constLoopForm r
          ++ BTok.mk .kRBracket s :: r2)
        Except.ok (c2 :: cs, rest')) = _
      rw [pbConstHead_tok c hwf.1, pbConstLoop_form r hwf.2 s r2]
      rfl

theorem kindToOp_mnem (op : BOp) : kindToOp (mnemonicKind op) = some op := by
  cases op <;> rfl

theorem mnemKind_ne_rbr (op : BOp) : ¬mnemonicKind op = .kRBracket := by
  cases op <;> decide

theorem pbInstrList_step_op (kd : BTokKind) (tx s : String)
    (rest2 : List BTok) :
    pbInstrList (⟨kd, tx⟩ :: ⟨.kInt, s⟩ :: rest2)
      = (if kd = .kRBracket
         then .ok ([], ⟨kd, tx⟩ :: ⟨.kInt, s⟩ :: rest2)
         else match kindToOp kd with
         | Option.none => .error ()
         | some op =>
             if opHasOperand op then do
                 let v ← bStoi s
                 let (is, rest') ← pbInstrList rest2
                 Except.ok (⟨op, some v⟩ :: is, rest')
             else do
                 let (is, rest') ← pbInstrList (⟨.kInt, s⟩ :: rest2)
                 Except.ok (⟨op, Option.none⟩ :: is, rest')) := by
  simp only [pbInstrList]

theorem pbInstrList_step_noop (kd : BTokKind) (tx : String) (op : BOp)
    (hk : kindToOp kd = some op) (hop : opHasOperand op = false)
    (rest : List BTok) (hne : ¬kd = .kRBracket) :
    pbInstrList (⟨kd, tx⟩ :: rest)
      = (do
          let (is, rest') ← pbInstrList rest
          Except.ok (⟨op, Option.none⟩ :: is, rest')) := by
  simp only [pbInstrList]
  rw [if_neg hne, hk]
  simp only []
  rw [if_neg (by simp [hop])]

theorem pbInstrList_toks : ∀ (il : List BInstr), il.all bInstrWF = true →
    ∀ (s : String) (r2 : List BTok),
    pbInstrList (bInstrListToks il ++ ⟨.kRBracket, s⟩ :: r2)
      = .ok (il, ⟨.kRBracket, s⟩ :: r2) := by
  intro il
  induction il with
  | nil => intro _ s r2; rfl
  | cons i rest ih =>
      intro hwf s r2
      simp only [List.all_cons, Bool.and_eq_true] at hwf
      obtain ⟨op, operand⟩ := i
      rw [bInstrListToks, bInstrToks]
      cases operand with
      | none =>
          have hop : opHasOperand op = false := by
            have h1 := hwf.1
            rw [bInstrWF] at h1
            simpa using h1
          simp only [hop, Bool.false_eq_true, if_false,
            List.nil_append, List.append_assoc, List.cons_append]
          rw [pbInstrList_step_noop (mnemonicKind op) (mnemonicOf op) op
            (kindToOp_mnem op) hop _ (mnemKind_ne_rbr op)]
          rw [ih hwf.2 s r2]
          rfl
      | some v =>
          have h1 := hwf.1
          rw [bInstrWF] at h1
          simp only [Bool.and_eq_true, decide_eq_true_eq] at h1
          have hop : opHasOperand op = true := h1.1
          simp only [hop, if_true, List.append_assoc, List.cons_append,
            List.singleton_append]
          rw [pbInstrList_step_op]
          rw [if_neg (mnemKind_ne_rbr op), kindToOp_mnem op]
          simp only [hop, if_true]
          have hgd : (Option.some v).getD 0 = v := rfl
          rw [hgd, bStoi_intToDec v h1.2.1 h1.2.2]
          simp only [List.nil_append]
          rw [ih hwf.2 s r2]
          rfl

/-- The token form consumed by the function-list comma loop. -/
def funcLoopForm : BFuncList → List BTok
  | .nil => []
  | .cons g r => ⟨.kComma, ","⟩ :: (bFuncToks g ++ funcLoopForm r)

theorem funcListToks_eq : ∀ (f : BFunc) (r : BFuncList),
    bFuncListToks (.cons f r) = bFuncToks f ++ funcLoopForm r
  | f, .nil => by rw [bFuncListToks_one, funcLoopForm, List.append_nil]
  | f, .cons g r2 => by
      rw [bFuncListToks_cons, funcLoopForm, funcListToks_eq g r2]

theorem bFuncToks_cons (T : BFunc) :
    ∃ tl, bFuncToks T = BTok.mk .kFunction "function" :: tl := by
  cases T
  exact ⟨_, rfl⟩

theorem pcFromInt_ofNat (pc : Nat) : pcFromInt (Int.ofNat pc) = .ok pc := by
  rw [pcFromInt, if_pos (by simp only [Int.ofNat_eq_coe]; omega)]
  simp

theorem bParamsSigned_mk (fs : BFuncList) (csl : List BConst) (pc : Nat)
    (lv lrv fv nm : List String) (il : List BInstr) :
    bParamsSigned (.mk fs csl pc lv lrv fv nm il)
      = (decide (pc ≤ 2147483647) && bParamsSignedList fs) := rfl

theorem bParamsSignedList_cons (f : BFunc) (r : BFuncList) :
    bParamsSignedList (.cons f r)
      = (bParamsSigned f && bParamsSignedList r) := rfl

theorem toks_long : ∀ n : Nat,
    (∀ T : BFunc, bSizeF T ≤ n → bSizeF T + 1 ≤ (bFuncToks T).length) ∧
    (∀ fs : BFuncList, bSizeL fs ≤ n →
      bSizeL fs ≤ (bFuncListToks fs).length + 1) := by
  intro n
  induction n with
  | zero =>
      constructor
      · intro T hs; exact absurd hs (by have := bSizeF_pos T; omega)
      · intro fs hs; exact absurd hs (by have := bSizeL_pos fs; omega)
  | succ n ih =>
      constructor
      · intro T hs
        cases T with
        | mk fs csl pc lv lrv fv nm il =>
            rw [bSizeF_mk] at hs ⊢
            have h1 := ih.2 fs (by omega)
            rw [bFuncToks_unfold]
            simp only [List.length_append, List.length_cons]
            omega
      · intro fs hs
        cases fs with
        | nil => simp [bSizeL, bFuncListToks_nil]
        | cons f r =>
            rw [bSizeL_cons_eq] at hs ⊢
            have hf := bSizeF_pos f
            have hr := bSizeL_pos r
            have h1 := ih.1 f (by omega)
            have h2 := ih.2 r (by omega)
            cases r with
            | nil =>
                rw [bFuncListToks_one]
                rw [bSizeL] at hs ⊢
                omega
            | cons g r2 =>
                rw [bFuncListToks_cons]
                simp only [List.length_append, List.length_cons]
                omega

theorem except_bind_ok {α β : Type} (a : α) (f : α → Except Unit β) :
    (Except.ok a >>= f) = f a := rfl

theorem parse_toks_all : ∀ fuel : Nat,
    (∀ (T : BFunc) (rest : List BTok), bWellFormed T = true →
      bParamsSigned T = true → bSizeF T + 1 ≤ fuel →
      pbFunction fuel (bFuncToks T ++ rest) = .ok (T, rest)) ∧
    (∀ (fs : BFuncList) (s : String) (r2 : List BTok),
      bWellFormedList fs = true → bParamsSignedList fs = true →
      bSizeL fs + 1 ≤ fuel →
      pbFunctionListStar fuel (bFuncListToks fs ++ ⟨.kRBracket, s⟩ :: r2)
        = .ok (fs, ⟨.kRBracket, s⟩ :: r2)) ∧
    (∀ (f : BFunc) (r : BFuncList) (s : String) (r2 : List BTok),
      bWellFormedList (.cons f r) = true →
      bParamsSignedList (.cons f r) = true →
      bSizeL (.cons f r) ≤ fuel →
      pbFunctionListPlus fuel (bFuncToks f
        ++ (funcLoopForm r ++ ⟨.kRBracket, s⟩ :: r2))
        = .ok (.cons f r, ⟨.kRBracket, s⟩ :: r2)) ∧
    (∀ (fs : BFuncList) (s : String) (r2 : List BTok),
      bWellFormedList fs = true → bParamsSignedList fs = true →
      bSizeL fs ≤ fuel →
      pbFuncLoop fuel (funcLoopForm fs ++ ⟨.kRBracket, s⟩ :: r2)
        = .ok (fs, ⟨.kRBracket, s⟩ :: r2)) := by
  intro fuel
  induction fuel with
  | zero =>
      refine ⟨?_, ?_, ?_, ?_⟩
      · intro T _ _ _ hsz; exact absurd hsz (by omega)
      · intro fs _ _ _ _ hsz; exact absurd hsz (by omega)
      · intro f r _ _ _ _ hsz
        have h1 := bSizeF_pos f
        have h2 := bSizeL_pos r
        exact absurd hsz (by rw [bSizeL_cons_eq]; omega)
      · intro fs _ _ _ _ hsz
        exact absurd hsz (by have := bSizeL_pos fs; omega)
  | succ n ih =>
      refine ⟨?_, ?_, ?_, ?_⟩
      · intro T rest hwf hps hsz
        cases T with
        | mk fs csl pc lv lrv fv nm il =>
            rw [bWellFormed_mk] at hwf
            simp only [Bool.and_eq_true] at hwf
            obtain ⟨⟨⟨⟨⟨⟨⟨hfs, hcs⟩, hpc⟩, hlv⟩, hlrv⟩, hfv⟩, hnm⟩, hil⟩ := hwf
            rw [bParamsSigned_mk, Bool.and_eq_true] at hps
            obtain ⟨hpcs, hpsl⟩ := hps
            simp only [decide_eq_true_eq] at hpc hpcs
            rw [bSizeF_mk] at hsz
            rw [bFuncToks_unfold]
            simp only [List.cons_append, List.append_assoc,
              List.nil_append]
            simp only [pbFunction]
            simp only [expectTok, reduceIte, except_bind_ok]
            rw [ih.2.1 fs "]" _ hfs hpsl (by omega)]
            simp only [except_bind_ok, reduceIte]
            rw [pbConstListStar_toks csl hcs "]" _]
            simp only [except_bind_ok, reduceIte]
            rw [bStoi_natToDec pc hpcs]
            simp only [except_bind_ok]
            rw [pcFromInt_ofNat pc]
            simp only [except_bind_ok, reduceIte]
            rw [pbIdentListStar_toks lv "]" _]
            simp only [except_bind_ok, reduceIte]
            rw [pbIdentListStar_toks lrv "]" _]
            simp only [except_bind_ok, reduceIte]
            rw [pbIdentListStar_toks fv "]" _]
            simp only [except_bind_ok, reduceIte]
            rw [pbIdentListStar_toks nm "]" _]
            simp only [except_bind_ok, reduceIte]
            rw [pbInstrList_toks il hil "]" _]
            simp only [except_bind_ok, reduceIte]
      · intro fs s r2 hwf hps hsz
        cases fs with
        | nil => rfl
        | cons f r =>
            rw [funcListToks_eq]
            obtain ⟨tl, htl⟩ := bFuncToks_cons f
            rw [htl]
            simp only [List.cons_append, List.append_assoc]
            simp only [pbFunctionListStar]
            rw [if_neg (by decide)]
            rw [← List.cons_append, ← htl]
            exact ih.2.2.1 f r s r2 hwf hps
              (by rw [bSizeL_cons_eq] at hsz ⊢; omega)
      · intro f r s r2 hwf hps hsz
        rw [bWellFormedList_cons_eq, Bool.and_eq_true] at hwf
        rw [bParamsSignedList_cons, Bool.and_eq_true] at hps
        rw [bSizeL_cons_eq] at hsz
        have hfp := bSizeF_pos f
        have hrp := bSizeL_pos r
        obtain ⟨tl, htl⟩ := bFuncToks_cons f
        rw [htl]
        simp only [List.cons_append, List.append_assoc]
        simp only [pbFunctionListPlus]
        simp only [reduceIte]
        rw [← List.cons_append, ← htl]
        rw [ih.1 f _ hwf.1 hps.1 (by omega)]
        rw [except_bind_ok]
        rw [ih.2.2.2 r s r2 hwf.2 hps.2 (by omega)]
        rfl
      · intro fs s r2 hwf hps hsz
        cases fs with
        | nil => rfl
        | cons g r =>
            rw [bWellFormedList_cons_eq, Bool.and_eq_true] at hwf
            rw [bParamsSignedList_cons, Bool.and_eq_true] at hps
            rw [bSizeL_cons_eq] at hsz
            have hfp := bSizeF_pos g
            have hrp := bSizeL_pos r
            rw [funcLoopForm]
            obtain ⟨tl, htl⟩ := bFuncToks_cons g
            rw [htl]
            simp only [List.cons_append, List.append_assoc]
            simp only [pbFuncLoop]
            simp only [reduceIte]
            rw [← List.cons_append, ← htl]
            rw [ih.1 g _ hwf.1 hps.1 (by omega)]
            rw [except_bind_ok]
            rw [ih.2.2.2 r s r2 hwf.2 hps.2 (by omega)]
            rfl

theorem bParseToks_toks (T : BFunc) (hwf : bWellFormed T = true)
    (hps : bParamsSigned T = true) :
    bParseToks (bFuncToks T) = .ok T := by
  have hlen := (toks_long (bSizeF T)).1 T (Nat.le_refl _)
  have hp := (parse_toks_all ((bFuncToks T).length + 1)).1 T [] hwf hps
    (by omega)
  rw [List.append_nil] at hp
  obtain ⟨tl, htl⟩ := bFuncToks_cons T
  cases hts : bFuncToks T with
  | nil => rw [hts] at htl; exact absurd htl (by simp)
  | cons t tl2 =>
      simp only [bParseToks]
      rw [← hts, hp]
      rfl

theorem bParse_print_roundtrip (T : BFunc) (hwf : bWellFormed T = true)
    (hps : bParamsSigned T = true) :
    bParseString (bPrint T) = .ok T := by
  simp only [bParseString]
  rw [bLex_bPrint T hwf]
  simp only [except_bind_ok]
  exact bParseToks_toks T hwf hps

/-- A function tree with `parameter_count` 2^31, representable as
`uint32_t` (well-formed for the VM) but beyond `int`. -/
def bcOverflowFunc : BFunc := .mk .nil [] 2147483648 [] [] [] [] []

/-- A function tree exercising nesting, all constant forms, string
escapes, and signed operands. -/
def bcRichFunc : BFunc :=
  .mk (.cons (.mk .nil
        [.noneC, .boolC true, .boolC false, .intC (-12),
         .strC "a\x22b\x5cc\nd\te"]
        2 ["x", "y_1"] [] ["g"] []
        [⟨.loadConst, some 0⟩, ⟨.add, Option.none⟩, ⟨.ret, Option.none⟩])
      .nil)
    [.intC 2147483647, .intC (-2147483648)] 1 ["a"] ["b"] [] ["p"]
    [⟨.ifOp, some (-3)⟩, ⟨.swap, Option.none⟩]


/-! ## Record rendering development (sortedness and the general record format) -/

theorem charListLt_asymm : ∀ (as bs : List Char),
    charListLt as bs = true → charListLt bs as = false := by
  intro as
  induction as with
  | nil =>
      intro bs h
      cases bs with
      | nil => exact absurd h (by decide)
      | cons b bs2 => rfl
  | cons a as2 ih =>
      intro bs h
      cases bs with
      | nil => simp [charListLt] at h
      | cons b bs2 =>
          rw [charListLt] at h ⊢
          by_cases h1 : a.toNat < b.toNat
          · rw [if_neg (by omega), if_pos h1]
          · rw [if_neg h1] at h
            by_cases h2 : b.toNat < a.toNat
            · rw [if_pos h2] at h
              exact absurd h (by decide)
            · rw [if_neg h2] at h
              rw [if_neg h2, if_neg h1]
              exact ih bs2 h

theorem strLtB_asymm {a b : String} (h : strLtB a b = true) :
    strLtB b a = false :=
  charListLt_asymm a.toList b.toList h

theorem insertSorted_perm (x : String) : ∀ (l : List String),
    (insertSorted x l).Perm (x :: l) := by
  intro l
  induction l with
  | nil => exact List.Perm.refl _
  | cons y ys ih =>
      rw [insertSorted]
      by_cases hlt : strLtB y x = true
      · rw [if_pos hlt]
        exact (ih.cons y).trans (List.Perm.swap x y ys)
      · rw [if_neg hlt]

theorem sortStrs_perm : ∀ (l : List String), (sortStrs l).Perm l := by
  intro l
  induction l with
  | nil => exact List.Perm.refl _
  | cons a rest ih =>
      rw [sortStrs, List.foldr]
      exact (insertSorted_perm a _).trans (ih.cons a)

theorem insertSorted_head (x : String) (l : List String) :
    (insertSorted x l).head? = some x ∨
    (∃ z zs, l = z :: zs ∧ strLtB z x = true
      ∧ (insertSorted x l).head? = some z) := by
  cases l with
  | nil => exact Or.inl rfl
  | cons z zs =>
      rw [insertSorted]
      by_cases hlt : strLtB z x = true
      · exact Or.inr ⟨z, zs, rfl, hlt, by rw [if_pos hlt]; rfl⟩
      · rw [if_neg hlt]
        exact Or.inl rfl

theorem insertSorted_chain (x : String) : ∀ (l : List String),
    List.Chain' (fun a b => strLtB b a = false) l →
    List.Chain' (fun a b => strLtB b a = false) (insertSorted x l) := by
  intro l
  induction l with
  | nil => intro _; simp [insertSorted]
  | cons y ys ih =>
      intro hch
      rw [insertSorted]
      by_cases hlt : strLtB y x = true
      · rw [if_pos hlt]
        rw [List.chain'_cons'] at hch
        rw [List.chain'_cons']
        refine ⟨?_, ih hch.2⟩
        intro h hh
        rcases insertSorted_head x ys with hc | ⟨z, zs, hzs, _, hc⟩
        · rw [hc] at hh
          simp only [Option.mem_def, Option.some.injEq] at hh
          subst hh
          exact strLtB_asymm hlt
        · rw [hc] at hh
          simp only [Option.mem_def, Option.some.injEq] at hh
          subst hh
          exact hch.1 z (by rw [hzs]; rfl)
      · rw [if_neg hlt]
        rw [List.chain'_cons']
        exact ⟨fun z hz => by
          simp only [List.head?_cons, Option.mem_def, Option.some.injEq] at hz
          subst hz
          exact Bool.eq_false_iff.mpr hlt, hch⟩

theorem sortStrs_chain (l : List String) :
    List.Chain' (fun a b => strLtB b a = false) (sortStrs l) := by
  induction l with
  | nil => simp [sortStrs]
  | cons a rest ih =>
      rw [sortStrs, List.foldr]
      exact insertSorted_chain a _ ih

theorem sortStrs_ne_nil {l : List String} (h : l ≠ []) : sortStrs l ≠ [] := by
  intro hc
  have hlen := (sortStrs_perm l).length_eq
  rw [hc] at hlen
  cases l with
  | nil => exact h rfl
  | cons a r => simp at hlen

theorem joinSp_cons_length (p : String) (rest : List String) :
    p.length ≤ (joinSp (p :: rest)).length := by
  cases rest with
  | nil => exact le_refl _
  | cons q r =>
      rw [joinSp]
      rw [String.length_append, String.length_append]
      omega

theorem vtsFieldsG_map (render : Value → Option String)
    (fl : List (String × Value)) (rnd : String → String) :
    ∀ names, (∀ n ∈ names, render ((lookupAssoc fl n).getD .none) = some (rnd n)) →
    vtsFieldsG render fl names = some (names.map fun n => n ++ ":" ++ rnd n) := by
  intro names
  induction names with
  | nil => intro _; rfl
  | cons n ns ih =>
      intro h
      rw [vtsFieldsG, h n (List.mem_cons_self n ns),
          ih fun m hm => h m (List.mem_cons_of_mem n hm)]
      rfl

theorem vtsGo_record_general (s : InterpState) (addr fuel : Nat)
    (fl : List (String × Value)) (rnd : String → String)
    (hrec : s.getRec addr = fl) (hne : fl ≠ [])
    (hren : ∀ n ∈ fl.map Prod.fst,
      vtsGo s fuel ((lookupAssoc fl n).getD Value.none) = some (rnd n)) :
    vtsGo s (fuel + 1) (Value.record addr) =
      some ("\x7b" ++
        joinSp ((sortStrs (fl.map Prod.fst)).map fun n => n ++ ":" ++ rnd n)
        ++ " \x7d") := by
  have hmapne : fl.map Prod.fst ≠ [] := by
    cases fl with
    | nil => exact absurd rfl hne
    | cons a r => simp
  have hsne : sortStrs (fl.map Prod.fst) ≠ [] := sortStrs_ne_nil hmapne
  obtain ⟨m, ms, hcons⟩ := List.exists_cons_of_ne_nil hsne
  have hren2 : ∀ n ∈ sortStrs (fl.map Prod.fst),
      vtsGo s fuel ((lookupAssoc fl n).getD Value.none) = some (rnd n) :=
    fun n hn => hren n ((sortStrs_perm _).mem_iff.mp hn)
  have hlen : 1 ≤ (joinSp ((sortStrs (fl.map Prod.fst)).map
      fun n => n ++ ":" ++ rnd n)).length := by
    rw [hcons, List.map_cons]
    have hj := joinSp_cons_length (m ++ ":" ++ rnd m)
      (ms.map fun n => n ++ ":" ++ rnd n)
    have hm : 1 ≤ (m ++ ":" ++ rnd m).length := by
      rw [String.length_append, String.length_append]
      have hc1 : (":" : String).length = 1 := rfl
      omega
    omega
  have hne3 : ("\x7b" ++
      joinSp ((sortStrs (fl.map Prod.fst)).map fun n => n ++ ":" ++ rnd n)
      ++ " \x7d") ≠ "\x7b \x7d" := by
    intro hcontra
    have hl := congrArg String.length hcontra
    rw [String.length_append, String.length_append] at hl
    have h1 : ("\x7b" : String).length = 1 := rfl
    have h2 : (" \x7d" : String).length = 2 := rfl
    have h3 : ("\x7b \x7d" : String).length = 3 := rfl
    rw [h1, h2, h3] at hl
    omega
  show vtsStep s (vtsGo s fuel) (Value.record addr) = _
  simp only [vtsStep]
  rw [hrec]
  rw [vtsFieldsG_map (vtsGo s fuel) fl rnd (sortStrs (fl.map Prod.fst)) hren2]
  exact congrArg some (if_neg hne3)

/-! ## Claim theorems -/

set_option maxHeartbeats 4000000 in
/-- C1, counterexample.  Running the interpreter on the S4 counter
program does not print `1`, `2`, `3` with exit 0. -/
theorem claim_C1_counterexample :
    mainInterpret counterSrc 200 ≠
      Except.ok ⟨["1", "2", "3"], [], 0⟩ := by
  intro h
  have hc : mainInterpret counterSrc 200 =
      Except.ok ⟨[], ["IllegalCastException"], 1⟩ := rfl
  rw [hc] at h
  exact absurd (Except.ok.inj h) (by decide)

set_option maxHeartbeats 4000000 in
/-- C1, amended.  `n` is assigned inside the inner closure's body, so
`extractAssigns` lists it and the call frame pre-binds `n` to None,
shadowing the `n` of the captured frame; the first call of `c` then
evaluates `None + 1`, so the process prints `IllegalCastException` to
stderr, writes nothing to stdout, and exits 1. -/
theorem claim_C1_amended :
    extractAssigns counterInnerBody = ["n"] ∧
    mainInterpret counterSrc 200 =
      Except.ok ⟨[], ["IllegalCastException"], 1⟩ :=
  ⟨rfl, rfl⟩

set_option maxHeartbeats 4000000 in
/-- C6, counterexample.  The program with the statement-level
`fun f(){...}` is rejected: a statement not starting with a keyword
must begin with an identifier (`Parser::idTerm`), and `fun` is a
Keyword token, so the parse throws `Expected identifier`; the driver
prints `parse error` and exits 1 instead of printing `3`. -/
theorem claim_C6_counterexample :
    mainInterpret globalFunSrc 200 ≠ Except.ok ⟨["3"], [], 0⟩ := by
  intro h
  have hc : mainInterpret globalFunSrc 200 =
      Except.ok ⟨["parse error"], ["Caught exception: Expected identifier"], 1⟩ := rfl
  rw [hc] at h
  exact absurd (Except.ok.inj h) (by decide)

set_option maxHeartbeats 4000000 in
/-- C6, amended.  The statement-form `fun f(){...}` is a syntax error
(`parse error` on stdout, the caught `Expected identifier` on stderr,
exit 1); binding the same function by assignment
(`f = fun(){ global x; x = x + 1; };`) parses, and the program prints
`3` and exits 0. -/
theorem claim_C6_amended :
    mainInterpret globalFunSrc 200 =
      Except.ok ⟨["parse error"], ["Caught exception: Expected identifier"], 1⟩ ∧
    mainInterpret globalAssignSrc 200 = Except.ok ⟨["3"], [], 0⟩ :=
  ⟨rfl, rfl⟩

set_option maxHeartbeats 4000000 in
/-- C2, counterexample.  `valueToString` starts a non-empty record with
`"{"` and no following space (`result = "{"` then fields joined by
single spaces), so `r = { a:1; b:2; }; r.c = r.a + r["b"]; print(r);`
does not print `{ a:1 b:2 c:3 }`. -/
theorem claim_C2_counterexample :
    mainInterpret recordSrc 200 ≠
      Except.ok ⟨["\x7b a:1 b:2 c:3 \x7d"], [], 0⟩ := by
  intro h
  have hc : mainInterpret recordSrc 200 =
      Except.ok ⟨["\x7ba:1 b:2 c:3 \x7d"], [], 0⟩ := rfl
  rw [hc] at h
  exact absurd (Except.ok.inj h) (by decide)

set_option maxHeartbeats 4000000 in
/-- C2, amended.  `valueToString` renders the empty record as `{}` and
every non-empty record (any number of fields, any field values, duplicate
names included) as `{` with **no** following space, then one `name:value`
entry per name in `sortStrs` of the stored field names -- sorted
ascending and a permutation of the stored names -- each value the
rendering of the first field of that name, entries joined by single
spaces, and a single space before the closing `}`; consequently the
program prints exactly `{a:1 b:2 c:3 }`. -/
theorem claim_C2_amended :
    (∀ (s : InterpState) (addr fuel : Nat), s.getRec addr = [] →
        vtsGo s (fuel + 1) (.record addr) = some "\x7b\x7d") ∧
    (∀ (s : InterpState) (addr fuel : Nat) (fl : List (String × Value))
        (rnd : String → String), s.getRec addr = fl → fl ≠ [] →
        (∀ n ∈ fl.map Prod.fst,
          vtsGo s fuel ((lookupAssoc fl n).getD Value.none) = some (rnd n)) →
        vtsGo s (fuel + 1) (.record addr) =
          some ("\x7b" ++
            joinSp ((sortStrs (fl.map Prod.fst)).map fun n => n ++ ":" ++ rnd n)
            ++ " \x7d")) ∧
    (∀ l : List String,
        List.Chain' (fun a b => strLtB b a = false) (sortStrs l) ∧
        (sortStrs l).Perm l) ∧
    mainInterpret recordSrc 200 =
      Except.ok ⟨["\x7ba:1 b:2 c:3 \x7d"], [], 0⟩ := by
  refine ⟨fun s addr fuel h => ?_, vtsGo_record_general,
          fun l => ⟨sortStrs_chain l, sortStrs_perm l⟩, rfl⟩
  simp [vtsGo, vtsStep, h, sortStrs, vtsFieldsG, joinSp]

/-- C2, witness: the general non-empty clause of the amended theorem at
a record stored as `[("b", 2), ("a", 1)]`, rendered sorted and with no
space after the opening brace. -/
theorem claim_C2_witness :
    vtsGo { startState [] with recs := [[("b", Value.int 2), ("a", Value.int 1)]] }
        2 (.record 0) = some "\x7ba:1 b:2 \x7d" := by
  have h := claim_C2_amended.2.1
    { startState [] with recs := [[("b", Value.int 2), ("a", Value.int 1)]] }
    0 1 [("b", Value.int 2), ("a", Value.int 1)]
    (fun n => if n = "a" then "1" else "2")
    rfl (by decide) (by decide)
  exact h.trans (congrArg some (by decide))

/-- The string shape named by claim C4 (and §4.4.4 of the spec): an
optional leading `-` followed by one or more decimal digits, matching
the full string.  Stated from the claim's words, to be compared with
the `intcast` checks of the source. -/
def fullIntLit (cs : List Char) : Bool :=
  match cs with
  | [] => false
  | c :: rest =>
      if c = '-' then !rest.isEmpty && rest.all isDigitC
      else isDigitC c && rest.all isDigitC

set_option maxHeartbeats 4000000 in
/-- C4, counterexample.  `intcast` applied to the one-character string
`"-"` does not fault: the first-character check accepts `-`, the
digit loop over the remaining (zero) characters passes, and `atoi`
parses `"-"` as 0; the program `print(intcast("-"));` prints `0` and
exits 0. -/
theorem claim_C4_counterexample :
    intcastValue (startState []) (.str "-") = .ok (.int 0) ∧
    mainInterpret intcastDashSrc 200 = Except.ok ⟨["0"], [], 0⟩ :=
  ⟨rfl, rfl⟩

/-- C4, amended.  `intcast(v)` returns `v` on Int; on a String it
returns the decimal parse exactly when the whole string is an optional
leading `-` followed by one or more decimal digits, **except** that the
one-character string `"-"` — which the full-string match rejects — is
also accepted and parsed by `atoi` as 0; every other string, and every
value of any other type, faults IllegalCast. -/
theorem claim_C4_amended :
    (∀ (s : InterpState) (n : Int), intcastValue s (.int n) = .ok (.int n)) ∧
    (∀ (s : InterpState) (str : String), fullIntLit str.toList = true →
        intcastValue s (.str str) = .ok (.int (atoiModel str.toList))) ∧
    (∀ (s : InterpState) (str : String), fullIntLit str.toList = false →
        str ≠ "-" →
        intcastValue s (.str str) = .error (.fault .illegalCast s)) ∧
    (∀ s : InterpState, intcastValue s (.str "-") = .ok (.int 0)) ∧
    (∀ s : InterpState,
        intcastValue s .none = .error (.fault .illegalCast s) ∧
        (∀ b, intcastValue s (.bool b) = .error (.fault .illegalCast s)) ∧
        (∀ a, intcastValue s (.record a) = .error (.fault .illegalCast s)) ∧
        (∀ a, intcastValue s (.fn a) = .error (.fault .illegalCast s))) := by
  refine ⟨fun s n => rfl, fun s str h => ?_, fun s str h hne => ?_,
          fun s => rfl,
          fun s => ⟨rfl, fun b => rfl, fun a => rfl, fun a => rfl⟩⟩
  · cases hcs : str.toList with
    | nil => rw [hcs] at h; simp [fullIntLit] at h
    | cons c rest =>
        rw [hcs] at h
        have hd : str.data = c :: rest := by simpa [String.toList] using hcs
        by_cases hcm : c = '-'
        · subst hcm
          simp only [fullIntLit, reduceIte, Bool.and_eq_true,
            Bool.not_eq_true'] at h
          simp [intcastValue, String.toList, hd, h.2]
        · simp only [fullIntLit, if_neg hcm, Bool.and_eq_true] at h
          simp [intcastValue, String.toList, hd, hcm, h.1, h.2]
  · cases hcs : str.toList with
    | nil =>
        have hd : str.data = [] := by simpa [String.toList] using hcs
        simp [intcastValue, String.toList, hd, faultR]
    | cons c rest =>
        rw [hcs] at h
        have hd : str.data = c :: rest := by simpa [String.toList] using hcs
        by_cases hcm : c = '-'
        · subst hcm
          simp only [fullIntLit, reduceIte, Bool.and_eq_false_iff,
            Bool.not_eq_false', List.isEmpty_eq_true] at h
          rcases h with h | h
          · exfalso
            apply hne
            cases str with
            | mk data =>
                subst h
                simp only at hd
                rw [hd]
          · simp [intcastValue, String.toList, hd, h, faultR]
        · simp only [fullIntLit, if_neg hcm, Bool.and_eq_false_iff] at h
          by_cases hdc : isDigitC c = true
          · rcases h with h | h
            · rw [hdc] at h; cases h
            · simp [intcastValue, String.toList, hd, hcm, hdc, h, faultR]
          · simp only [Bool.not_eq_true] at hdc
            simp [intcastValue, String.toList, hd, hcm, hdc, faultR]

/-- C4, witness: the accepting and rejecting string clauses of the
amended theorem at `"-12"` and `"1a"`. -/
theorem claim_C4_witness :
    intcastValue (startState []) (.str "-12") = .ok (.int (-12)) ∧
    intcastValue (startState []) (.str "1a") =
      .error (.fault .illegalCast (startState [])) := by
  constructor
  · have h := claim_C4_amended.2.1 (startState []) "-12" (by decide)
    simpa using h
  · exact claim_C4_amended.2.2.1 (startState []) "1a" (by decide) (by decide)

/-- A record literal with a duplicated field name, assigned to `r` and
then read back (claim C3), over arbitrary integer field values. -/
def dupRecProg (n1 n2 : Int) : Node :=
  .block [.assign (.ident "r")
            (.recordNode [("a", .intConst n1), ("a", .intConst n2)]),
          .call (.ident "print") [.fieldDeref (.ident "r") "a"]]

set_option maxHeartbeats 4000000 in
/-- C3, counterexample.  Reading the duplicated field does not return
the later occurrence: `r = { a:1; a:2; }; print(r.a);` does not print
`2`. -/
theorem claim_C3_counterexample :
    mainInterpret dupFieldSrc 200 ≠ Except.ok ⟨["2"], [], 0⟩ := by
  intro h
  have hc : mainInterpret dupFieldSrc 200 = Except.ok ⟨["1"], [], 0⟩ := rfl
  rw [hc] at h
  exact absurd (Except.ok.inj h) (by decide)

set_option maxHeartbeats 4000000 in
/-- C3, amended.  Evaluating a record literal with two fields of the
same name allocates a record keeping both `(name, value)` pairs in
order, but a field read scans the field vector front to back and
returns the value of the **earlier** occurrence (first write wins on
read): for all integers, `r = { a:n1; a:n2; }; print(r.a);` stores both
pairs and prints `n1`. -/
theorem claim_C3_amended :
    (∀ n1 n2 : Int, ∃ stf : InterpState,
        interpProgram (dupRecProg n1 n2) 20 [] = .ok (.none, stf) ∧
        stf.recs = [[("a", .int n1), ("a", .int n2)]] ∧
        stf.output = [toString n1]) ∧
    (∀ (name : String) (v1 : Value) (rest : List (String × Value)),
        lookupAssoc ((name, v1) :: rest) name = some v1) ∧
    (∀ (fuel : Nat) (base : Node) (name : String) (rv : Value)
        (st st1 : InterpState) (a : Nat),
        evalN fuel base rv st = .ok (.record a, st1) →
        evalN (fuel + 1) (.fieldDeref base name) rv st =
          .ok ((lookupAssoc (st1.getRec a) name).getD .none, st1)) ∧
    mainInterpret dupFieldSrc 200 = Except.ok ⟨["1"], [], 0⟩ := by
  refine ⟨fun n1 n2 => ⟨_, rfl, rfl, rfl⟩,
          fun name v1 rest => by simp [lookupAssoc],
          fun fuel base name rv st st1 a h => ?_, rfl⟩
  simp [evalN, evalStep, h, bind, Except.bind]
  cases hl : lookupAssoc (st1.getRec a) name <;> simp [hl]

/-- C3, witness: the field-read clause of the amended theorem applied
to the literal `{ a:5; a:7; }`, whose read yields 5. -/
theorem claim_C3_witness :
    evalN 6 (.fieldDeref (.recordNode [("a", .intConst 5), ("a", .intConst 7)]) "a")
        .none (startState []) =
      .ok (.int 5,
           { startState [] with recs := [[("a", Value.int 5), ("a", Value.int 7)]] }) := by
  have h := claim_C3_amended.2.2.1 5
      (.recordNode [("a", .intConst 5), ("a", .intConst 7)]) "a" .none
      (startState [])
      { startState [] with recs := [[("a", Value.int 5), ("a", Value.int 7)]] }
      0 rfl
  simpa [lookupAssoc, InterpState.getRec] using h

set_option maxHeartbeats 4000000 in
/-- C5, counterexample.  On the input `0a` the lexer produces the
IntLiteral `0` followed by the Identifier `a` — two tokens and no Error
token at all: the leading-zero branch of `readNumber` returns after the
single `0` without looking for a following letter. -/
theorem claim_C5_counterexample :
    lexSrc "0a" = [⟨.intLit, "0", 1⟩, ⟨.ident, "a", 1⟩, ⟨.eof, "", 1⟩] ∧
    ∀ t ∈ lexSrc "0a", t.t ≠ TokType.error := by
  refine ⟨rfl, ?_⟩
  intro t ht
  have h : lexSrc "0a" = [⟨.intLit, "0", 1⟩, ⟨.ident, "a", 1⟩, ⟨.eof, "", 1⟩] := rfl
  rw [h] at ht
  simp only [List.mem_cons, List.not_mem_nil, or_false] at ht
  rcases ht with h1 | h1 | h1 <;> subst h1 <;> decide

set_option maxHeartbeats 4000000 in
/-- C5, amended.  A digit sequence that does **not** begin with `0`,
immediately followed by an identifier-continuation character, consumes
the whole letter/digit/underscore run and produces the single
`invalid token '<text>'` Error token (e.g. `123abc`); but a `0` followed
by a letter yields the IntLiteral `0` with the letter lexed as a
separate token (e.g. `0a`). -/
theorem claim_C5_amended :
    (∀ (lineNo : Int) (d : Char) (ds : List Char) (c : Char) (rest : List Char),
        isDigitC d = true → d ≠ '0' → ds.all isDigitC = true →
        (isAlphaC c || c = '_') = true →
        readNumber lineNo (d :: ds ++ c :: rest) =
          some (⟨.error,
                 "invalid token \x27" ++
                   String.mk (d :: ds ++ (c :: rest).takeWhile isIdentContC) ++
                   "\x27",
                 lineNo⟩,
                (c :: rest).dropWhile isIdentContC)) ∧
    readNumber 1 [ '0', 'a' ] = some (⟨.intLit, "0", 1⟩, [ 'a' ]) ∧
    lexSrc "123abc" = [⟨.error, "invalid token \x27123abc\x27", 1⟩, ⟨.eof, "", 1⟩] ∧
    lexSrc "0a" = [⟨.intLit, "0", 1⟩, ⟨.ident, "a", 1⟩, ⟨.eof, "", 1⟩] := by
  refine ⟨?_, rfl, rfl, rfl⟩
  intro lineNo d ds c rest hd hd0 hds hc
  have hcnd : isDigitC c = false := not_isDigitC_of_identHead hc
  have hcu : isIdentContC c = true := by
    simp only [isIdentContC, Bool.or_assoc]
    simp only [Bool.or_eq_true] at hc ⊢
    rcases hc with h | h
    · exact Or.inl h
    · exact Or.inr (Or.inr (by simpa using h))
  have hdsU : ds.all isIdentContC = true := by
    rw [List.all_eq_true] at hds ⊢
    exact fun x hx => isIdentContC_of_isDigitC (hds x hx)
  have hdU : isIdentContC d = true := isIdentContC_of_isDigitC hd
  have hc' : (isAlphaC c = true ∨ c = '_') := by
    simpa only [Bool.or_eq_true, decide_eq_true_eq] using hc
  simp [readNumber, hd, hd0, hdU, List.takeWhile_cons, List.dropWhile_cons,
    all_takeWhile_append hds, all_dropWhile_append hds,
    all_takeWhile_append hdsU, all_dropWhile_append hdsU, hcnd, hc', hcu]

/-- C5, witness: the amended theorem applied to the digit run `123`
followed by `abc`. -/
theorem claim_C5_witness :
    readNumber 1 ([ '1', '2', '3' ] ++ [ 'a', 'b', 'c' ]) =
      some (⟨.error, "invalid token \x27123abc\x27", 1⟩, []) := by
  have h := claim_C5_amended.1 1 '1' [ '2', '3' ] 'a' [ 'b', 'c' ]
    (by decide) (by decide) (by decide) (by decide)
  simpa using h

set_option maxHeartbeats 4000000 in
/-- C9, confirmed.  The native `print` and `intcast` Function objects
have the same captured context (the global frame), the same parameter
list `["s"]` and the same null body, so `==` on them is true, while
`print == input` is false because `input` has no parameters. -/
theorem claim_C9 :
    mainInterpret nativeEqSrc 200 = Except.ok ⟨["true", "false"], [], 0⟩ ∧
    funEqB (startState []) 0 2 = true ∧
    funEqB (startState []) 0 1 = false :=
  ⟨rfl, rfl, rfl⟩

set_option maxHeartbeats 4000000 in
/-- C8, confirmed.  Division of Int by Int is `tdiv` (C++ `/`,
truncation toward zero) unless the right operand is 0, which faults
IllegalArithmetic; a non-Int operand on either side faults IllegalCast;
and the uncaught fault of `print(1/0);` reaches the driver, which
prints `IllegalArithmeticException` to stderr and exits 1. -/
theorem claim_C8 :
    (∀ (st : InterpState) (fuel : Nat) (rv : Value) (a b : Int),
        evalN (fuel + 2) (.binary (.intConst a) .div (.intConst b)) rv st =
          if b = 0 then .error (.fault .illegalArithmetic st)
          else .ok (.int (a.tdiv b), st)) ∧
    (∀ (st : InterpState) (fuel : Nat) (l r : Value),
        ((∀ n : Int, l ≠ .int n) ∨ (∀ n : Int, r ≠ .int n)) →
        applyBinOp st fuel .div l r = .error (.fault .illegalCast st)) ∧
    mainInterpret divZeroSrc 200 =
      Except.ok ⟨[], ["IllegalArithmeticException"], 1⟩ := by
  refine ⟨fun st fuel rv a b => ?_, fun st fuel l r h => ?_, rfl⟩
  · by_cases hb : b = 0 <;>
      simp [evalN, evalStep, applyBinOp, hb, bind, Except.bind, faultR]
  · rcases h with h | h
    · cases l with
      | int n => exact absurd rfl (h n)
      | _ => cases r <;> simp [applyBinOp, faultR]
    · cases r with
      | int n => exact absurd rfl (h n)
      | _ => cases l <;> simp [applyBinOp, faultR]

/-- C8, witness: division by zero at `1/0` via the evaluator, the
IllegalCast case at `true / 1`, and truncation toward zero at `-7 / 2`. -/
theorem claim_C8_witness :
    evalN 2 (.binary (.intConst 1) .div (.intConst 0)) .none (startState []) =
      .error (.fault .illegalArithmetic (startState [])) ∧
    applyBinOp (startState []) 0 .div (.bool true) (.int 1) =
      .error (.fault .illegalCast (startState [])) ∧
    evalN 2 (.binary (.intConst (-7)) .div (.intConst 2)) .none (startState []) =
      .ok (.int (-3), startState []) := by
  refine ⟨?_, ?_, ?_⟩
  · have h := claim_C8.1 (startState []) 0 .none 1 0
    simpa using h
  · exact claim_C8.2.1 (startState []) 0 _ _ (Or.inl fun n h => Value.noConfusion h)
  · have h := claim_C8.1 (startState []) 0 .none (-7) 2
    simp at h
    rw [h]
    norm_num
    decide

set_option maxHeartbeats 4000000 in
/-- C10, confirmed.  A `Return` sets the return flag, after which the
block loop never looks at the remaining statements (the result does not
depend on them); at the top level nothing clears the flag, and the
process exits 0 with no output and no diagnostic. -/
theorem claim_C10 :
    (∀ (fuel : Nat) (e : Node) (rest₁ rest₂ : List Node) (rv : Value)
        (st : InterpState),
        evalN fuel (.block (.ret e :: rest₁)) rv st =
          evalN fuel (.block (.ret e :: rest₂)) rv st) ∧
    mainInterpret topReturnSrc 200 = Except.ok ⟨[], [], 0⟩ := by
  refine ⟨fun fuel e rest₁ rest₂ rv st => ?_, rfl⟩
  match fuel with
  | 0 => rfl
  | 1 => rfl
  | fuel + 2 =>
      have key : ∀ rest : List Node,
          evalN (fuel + 2) (.block (.ret e :: rest)) rv st =
            match evalN fuel e rv st with
            | .error err => .error err
            | .ok (v, st1) => .ok (v, { st1 with hasReturned := true }) := by
        intro rest
        show execStmtsG _ _ _ _ = _
        cases h : evalN fuel e rv st with
        | error err =>
            simp [execStmtsG, evalN, evalStep, h, bind, Except.bind]
        | ok res =>
            obtain ⟨v, st1⟩ := res
            simp [execStmtsG, evalN, evalStep, h, bind, Except.bind, pure,
                  Except.pure]
      rw [key rest₁, key rest₂]

set_option maxHeartbeats 4000000 in
set_option maxRecDepth 4000 in
/-- C7 counterexample: the tree with `parameter_count` 2^31 is
well-formed (every field fits its declared `uint32_t`/`int32_t` type),
but feeding the pretty-printer output back through the bytecode lexer
and parser does not return it: `std::stoi` only accepts `int`-ranged
numerals, so the loader aborts instead. -/
theorem claim_C7_counterexample :
    bWellFormed bcOverflowFunc = true ∧
    bParseString (bPrint bcOverflowFunc) ≠ .ok bcOverflowFunc := by
  constructor
  · decide
  · have h : bParseString (bPrint bcOverflowFunc) = .error () := rfl
    rw [h]
    intro hc
    exact Except.noConfusion hc

/-- C7 amended: for every well-formed bytecode Function tree whose
`parameter_count` values also fit a signed 32-bit `int` (the range
`std::stoi` reproduces), feeding the pretty-printer output back through
the bytecode lexer and parser yields a structurally identical tree,
including nested functions, all four identifier lists, signed 32-bit
constants and operands, and re-escaped string constants. -/
theorem claim_C7_amended (T : BFunc) (hwf : bWellFormed T = true)
    (hps : bParamsSigned T = true) : bParseString (bPrint T) = .ok T :=
  bParse_print_roundtrip T hwf hps

set_option maxHeartbeats 4000000 in
/-- C7 witness: the amended round trip holds at a concrete tree with a
nested function, every constant form, escaped string characters and
signed operands. -/
theorem claim_C7_amended_witness :
    bWellFormed bcRichFunc = true ∧ bParamsSigned bcRichFunc = true ∧
    bParseString (bPrint bcRichFunc) = .ok bcRichFunc :=
  ⟨by decide, by decide, claim_C7_amended bcRichFunc (by decide) (by decide)⟩

end MITScript
